import Mathlib

/-!
# bdf2csv: bodyfile to CSV conversion

A shallow embedding of `src/main.go` together with the parts of the Go standard
library that the program calls (`strings.Split`, `strings.TrimSpace`,
`strconv.ParseInt`, `time.Unix(..).UTC().Format(..)`, `bufio.Scanner` with the
default `ScanLines` split function).

A Go `string` is an immutable sequence of bytes, so strings are lists of bytes
here.  Machine integers are `Nat`/`Int` with explicit wrap-around where the Go
code can overflow.  What the program reads from its environment is a parameter:
`tz` is the value of `time.Local`, the time zone of the host, which `time.Unix`
gives to the times it makes.
-/

set_option maxRecDepth 100000

deriving instance DecidableEq for Except

namespace Bdf2csv

/-! ## Strings -/

/-- A byte. -/
abbrev Byte := Fin 256

/-- A Go string: a sequence of bytes. -/
abbrev GoString := List Byte

/-- The Go string of an ASCII literal. -/
def ascii (s : String) : GoString := s.toList.map (fun c => Fin.ofNat c.toNat)

/-- The separator of the bodyfile format, the byte `|`. -/
def pipe : Byte := 124

/-- Go's `strings.Split(s, sep)` for a one-byte separator: the substrings of `s`
between the occurrences of `sep`; a string without `sep` gives the one-element
slice holding `s` (also for the empty string). -/
def Split (s : GoString) (sep : Byte) : List GoString :=
  match s with
  | [] => [[]]
  | c :: rest =>
    if c = sep then [] :: Split rest sep
    else
      match Split rest sep with
      | [] => [[c]]
      | f :: fs => (c :: f) :: fs

/-! ## unicode/utf8 and strings.TrimSpace -/

/-- The rune `utf8.RuneError`, U+FFFD. -/
def RuneError : Nat := 0xFFFD

/-- The constant `utf8.RuneSelf`: bytes below it are one-byte runes. -/
def RuneSelf : Nat := 0x80

/-- The table `first` of `unicode/utf8`: information about the first byte of
an encoding (`as` is 0xF0, `xx` is 0xF1, the others hold the size in the low
bits and the index of the accept range in the high bits). -/
def first (b : Nat) : Nat :=
  if b < 0x80 then 0xF0
  else if b < 0xC2 then 0xF1
  else if b < 0xE0 then 0x02
  else if b = 0xE0 then 0x13
  else if b < 0xED then 0x03
  else if b = 0xED then 0x23
  else if b < 0xF0 then 0x03
  else if b = 0xF0 then 0x34
  else if b < 0xF4 then 0x04
  else if b = 0xF4 then 0x44
  else 0xF1

/-- The table `acceptRanges` of `unicode/utf8`: the range of the second byte. -/
def acceptRanges (i : Nat) : Nat × Nat :=
  match i with
  | 0 => (0x80, 0xBF)
  | 1 => (0xA0, 0xBF)
  | 2 => (0x80, 0x9F)
  | 3 => (0x90, 0xBF)
  | 4 => (0x80, 0x8F)
  | _ => (0, 0)

/-- Go's `utf8.DecodeRuneInString`: the first rune of `p` and its width in
bytes; `(RuneError, 1)` for an invalid encoding, `(RuneError, 0)` for the
empty string. -/
def DecodeRune (p : GoString) : Nat × Nat :=
  match p with
  | [] => (RuneError, 0)
  | p0 :: _ =>
    let x := first p0.val
    if x ≥ 0xF0 then
      (if x = 0xF0 then p0.val else RuneError, 1)
    else
      let sz := x &&& 7
      let accept := acceptRanges (x >>> 4)
      if p.length < sz then (RuneError, 1)
      else
        let b1 := (p.getD 1 0).val
        if b1 < accept.1 ∨ accept.2 < b1 then (RuneError, 1)
        else if sz ≤ 2 then (((p0.val &&& 0x1F) <<< 6) ||| (b1 &&& 0x3F), 2)
        else
          let b2 := (p.getD 2 0).val
          if b2 < 0x80 ∨ 0xBF < b2 then (RuneError, 1)
          else if sz ≤ 3 then
            (((p0.val &&& 0x0F) <<< 12) ||| ((b1 &&& 0x3F) <<< 6) ||| (b2 &&& 0x3F), 3)
          else
            let b3 := (p.getD 3 0).val
            if b3 < 0x80 ∨ 0xBF < b3 then (RuneError, 1)
            else
              (((p0.val &&& 0x07) <<< 18) ||| ((b1 &&& 0x3F) <<< 12) |||
                ((b2 &&& 0x3F) <<< 6) ||| (b3 &&& 0x3F), 4)

/-- Go's `utf8.RuneStart`: the byte is not a continuation byte. -/
def RuneStart (b : Byte) : Bool := b.val &&& 0xC0 ≠ 0x80

/-- The loop `for start--; start >= lim; start-- { if RuneStart(p[start]) { break } }`
of `utf8.DecodeLastRuneInString`, entered with `start` already decremented; the
first argument bounds the number of rounds (the loop visits at most three
bytes). -/
def lastRuneStart (p : GoString) (lim : Int) : Nat → Int → Int
  | 0, start => start
  | k + 1, start =>
    if start < lim then start
    else if RuneStart (p.getD start.toNat 0) then start
    else lastRuneStart p lim k (start - 1)

/-- Go's `utf8.DecodeLastRuneInString`: the last rune of `p` and its width. -/
def DecodeLastRune (p : GoString) : Nat × Nat :=
  let end1 : Int := p.length
  if end1 = 0 then (RuneError, 0)
  else
    let r := (p.getD (p.length - 1) 0).val
    if r < RuneSelf then (r, 1)
    else
      -- guard against O(n^2) behavior: look back UTFMax bytes at most
      let lim : Int := if end1 - 4 < 0 then 0 else end1 - 4
      let start := lastRuneStart p lim 4 (end1 - 2)
      let start : Int := if start < 0 then 0 else start
      let rs := DecodeRune (p.drop start.toNat)
      if start + rs.2 ≠ end1 then (RuneError, 1) else rs

/-- Go's `unicode.IsSpace`: the Latin-1 spaces, and beyond Latin-1 the
code points of the property `White_Space`. -/
def IsSpace (r : Nat) : Bool :=
  if r ≤ 0xFF then
    r = 9 ∨ r = 10 ∨ r = 11 ∨ r = 12 ∨ r = 13 ∨ r = 32 ∨ r = 0x85 ∨ r = 0xA0
  else
    r = 0x1680 ∨ (0x2000 ≤ r ∧ r ≤ 0x200A) ∨ r = 0x2028 ∨ r = 0x2029 ∨
      r = 0x202F ∨ r = 0x205F ∨ r = 0x3000

/-- The table `asciiSpace` of package `strings`. -/
def asciiSpace (c : Byte) : Bool :=
  c = 9 ∨ c = 10 ∨ c = 11 ∨ c = 12 ∨ c = 13 ∨ c = 32

/-- The loop of `strings.TrimLeftFunc(s, unicode.IsSpace)`: drop the leading
runes that are spaces.  The first argument bounds the number of rounds; every
round drops at least one byte. -/
def trimLeftLoop : Nat → GoString → GoString
  | 0, s => s
  | fuel + 1, s =>
    if s = [] then []
    else
      let rs := DecodeRune s
      if IsSpace rs.1 then trimLeftLoop fuel (s.drop rs.2) else s

/-- Go's `strings.TrimLeftFunc(s, unicode.IsSpace)`. -/
def TrimLeftFunc (s : GoString) : GoString := trimLeftLoop s.length s

/-- Go's `lastIndexFunc(s, unicode.IsSpace, false)`, started at index `i`: the
index of the start of the last rune of `s[0:i]` that is not a space; `none`
stands for -1. -/
def lastIndexLoop (s : GoString) : Nat → Nat → Option Nat
  | 0, _ => none
  | fuel + 1, i =>
    if i = 0 then none
    else
      let rs := DecodeLastRune (s.take i)
      let i1 := i - rs.2
      if IsSpace rs.1 then lastIndexLoop s fuel i1 else some i1

/-- Go's `strings.TrimRightFunc(s, unicode.IsSpace)`. -/
def TrimRightFunc (s : GoString) : GoString :=
  match lastIndexLoop s s.length s.length with
  | some i =>
    if (s.getD i 0).val ≥ RuneSelf then s.take (i + (DecodeRune (s.drop i)).2)
    else s.take (i + 1)
  | none => []

/-- Go's `strings.TrimFunc(s, unicode.IsSpace)`. -/
def TrimFunc (s : GoString) : GoString := TrimRightFunc (TrimLeftFunc s)

/-- The second loop of `strings.TrimSpace`, on the reversed string: look for
the first ASCII non-space byte from the end. -/
def trimSpaceStop : GoString → GoString
  | [] => []
  | c :: rest =>
    if c.val ≥ RuneSelf then TrimRightFunc (c :: rest).reverse
    else if asciiSpace c then trimSpaceStop rest
    else (c :: rest).reverse

/-- Go's `strings.TrimSpace`: the fast path over ASCII bytes, and the
Unicode-aware functions from the first byte that is not ASCII. -/
def TrimSpace : GoString → GoString
  | [] => []
  | c :: rest =>
    if c.val ≥ RuneSelf then TrimFunc (c :: rest)
    else if asciiSpace c then TrimSpace rest
    else trimSpaceStop (c :: rest).reverse

/-! ## strconv -/

/-- The decimal digits of `n`, most significant first, put in front of `acc`.
The first argument bounds the number of digits produced. -/
def decimalDigitsAux : Nat → Nat → GoString → GoString
  | 0, _, acc => acc
  | fuel + 1, n, acc =>
    let acc1 : GoString := Fin.ofNat (48 + n % 10) :: acc
    if n / 10 = 0 then acc1 else decimalDigitsAux fuel (n / 10) acc1

/-- The decimal representation of a natural number (`"0"` for zero), as
`strconv.FormatUint(n, 10)` and the verb `%d` produce it. -/
def formatUint (n : Nat) : GoString := decimalDigitsAux (n + 1) n []

/-- Go's `strconv.FormatInt(i, 10)`, also the output of `%d`: a minus sign
for a negative number, then the decimal digits of the magnitude. -/
def FormatInt (i : Int) : GoString :=
  if i < 0 then 45 :: formatUint (-i).toNat else formatUint i.toNat

/-- The two kinds of `*strconv.NumError` that `ParseInt` reports in base 10. -/
inductive NumError where
  | ErrSyntax
  | ErrRange
  deriving DecidableEq, Repr

def maxUint64 : Nat := 2 ^ 64 - 1

/-- The digit loop of `strconv.ParseUint(s, 10, 64)`; `n` is the `uint64`
accumulator. -/
def parseUintLoop : GoString → Nat → Except NumError Nat
  | [], n => .ok n
  | c :: cs, n =>
    -- lower(c) = c | ('x' - 'X')
    let lower : Nat := c.val ||| 32
    if 48 ≤ c.val ∧ c.val ≤ 57 then
      let d := c.val - 48
      if d ≥ 10 then .error .ErrSyntax
      -- cutoff = maxUint64/10 + 1: n*base overflows
      else if n ≥ maxUint64 / 10 + 1 then .error .ErrRange
      else
        let n10 := n * 10
        let n1 := (n10 + d) % 2 ^ 64
        -- n+d overflows
        if n1 < n10 ∨ n1 > maxUint64 then .error .ErrRange
        else parseUintLoop cs n1
    else if 97 ≤ lower ∧ lower ≤ 122 then
      let d := lower - 97 + 10
      if d ≥ 10 then .error .ErrSyntax
      else .error .ErrSyntax
    else .error .ErrSyntax

/-- Go's `strconv.ParseUint(s, 10, 64)`. -/
def ParseUint (s : GoString) : Except NumError Nat :=
  if s = [] then .error .ErrSyntax else parseUintLoop s 0

/-- Go's `strconv.ParseInt(s, 10, 64)`: an optional sign `+` or `-`, then
`ParseUint`, then the range check against `1 << 63`.  The value Go returns
beside a non-nil error is not modelled (the caller drops it). -/
def ParseInt (s : GoString) : Except NumError Int :=
  match s with
  | [] => .error .ErrSyntax
  | c :: rest =>
    let neg : Bool := c = 45
    let s1 : GoString := if c = 43 then rest else if c = 45 then rest else s
    match ParseUint s1 with
    | .error .ErrSyntax => .error .ErrSyntax
    | r =>
      let un : Nat :=
        match r with
        | .ok n => n
        | .error _ => maxUint64
      let cutoff : Nat := 2 ^ 63
      if !neg ∧ un ≥ cutoff then .error .ErrRange
      else if neg ∧ un > cutoff then .error .ErrRange
      else .ok (if neg then -(un : Int) else (un : Int))

/-! ## time -/

def secondsPerDay : Nat := 86400
def daysPer400Years : Nat := 365 * 400 + 97
def daysPer100Years : Nat := 365 * 100 + 24
def daysPer4Years : Nat := 365 * 4 + 1

/-- The year of the zero of the absolute time scale used by `time`. -/
def absoluteZeroYear : Int := -292277022399

/-- Seconds from the internal zero (January 1, year 1) to the absolute zero,
negated: `-(absoluteZeroYear - 1) * 365.2425 * secondsPerDay`. -/
def internalToAbsolute : Int := 292277022400 * 31556952

/-- Seconds from January 1, year 1 to January 1, 1970. -/
def unixToInternal : Int := (1969 * 365 + 1969 / 4 - 1969 / 100 + 1969 / 400) * 86400

def internalToUnix : Int := -unixToInternal

/-- Two's-complement wrap-around of an `int64` result. -/
def wrapInt64 (x : Int) : Int := (x + 2 ^ 63) % 2 ^ 64 - 2 ^ 63

/-- A `*time.Location` as `Time.abs` and `Time.locabs` read it: `lookup sec` is
the offset in seconds east of UTC that the zone has at Unix time `sec`. -/
structure Location where
  lookup : Int → Int

/-- A `time.Time` without monotonic clock reading and with zero nanoseconds:
`ext` is the `int64` count of seconds since January 1, year 1; `loc` is the
location, where `none` is the nil pointer, which stands for UTC. -/
structure Time where
  ext : Int
  loc : Option Location

/-- Go's `time.Unix(sec, 0)`: a time in the location `time.Local`, the zone of
the host; `tz` is the value of `time.Local`. -/
def Time.Unix (tz : Location) (sec : Int) : Time :=
  ⟨wrapInt64 (sec + unixToInternal), some tz⟩

/-- Go's `Time.UTC`: the same instant with the location set to UTC. -/
def Time.UTC (t : Time) : Time := { t with loc := none }

/-- Go's `Time.unixSec`. -/
def Time.unixSec (t : Time) : Int := wrapInt64 (t.ext + internalToUnix)

/-- Go's `Time.abs`, the third result of `Time.locabs`: the absolute time, a
`uint64`.  For a location other than UTC the offset of the zone is added
(`sec += int64(offset)`), so that the date and the clock are those of the
location. -/
def Time.abs (t : Time) : Nat :=
  let sec := t.unixSec
  let sec :=
    match t.loc with
    | some l => wrapInt64 (sec + l.lookup sec)
    | none => sec
  ((sec + (unixToInternal + internalToAbsolute)) % 2 ^ 64).toNat

/-- Go's `isLeap`; `%` on `int` truncates towards zero. -/
def isLeap (year : Int) : Bool :=
  year.tmod 4 = 0 ∧ (year.tmod 100 ≠ 0 ∨ year.tmod 400 = 0)

/-- The table `daysBefore`: `daysBefore[m]` counts the days of a non-leap year
before month `m+1`. -/
def daysBefore : List Nat := [0, 31, 59, 90, 120, 151, 181, 212, 243, 273, 304, 334, 365]

/-- The last part of `absDate`: the month (January is 1) and the day of the
month from the day of the year (from 0) and whether the year is a leap year. -/
def monthDay (leap : Bool) (yday : Nat) : Nat × Nat :=
  if leap ∧ yday = 31 + 29 - 1 then
    -- Leap day.
    (2, 29)
  else
    -- After leap day; pretend it wasn't there.
    let day := if leap ∧ yday > 31 + 29 - 1 then yday - 1 else yday
    -- Estimate month on assumption that every month has 31 days.
    -- The estimate may be too low by at most one month, so adjust.
    let month := day / 31
    let end1 := daysBefore.getD (month + 1) 0
    if day ≥ end1 then (month + 1 + 1, day - end1 + 1)
    else (month + 1, day - daysBefore.getD month 0 + 1)

/-- The first part of `absDate`: the count of years since the absolute zero
year and the day of the year (from 0) of an absolute time. -/
def absYearDay (abs : Nat) : Nat × Nat :=
  -- Split into time and day.
  let d := abs / secondsPerDay
  -- Account for 400 year cycles.
  let n := d / daysPer400Years
  let y := 400 * n
  let d := d - daysPer400Years * n
  -- Cut off 100-year cycles.
  -- The last cycle has one extra leap year, so on the last day
  -- of that year, day / daysPer100Years will be 4 instead of 3.
  -- Cut it back down to 3 by subtracting n>>2.
  let n := d / daysPer100Years
  let n := n - n / 4
  let y := y + 100 * n
  let d := d - daysPer100Years * n
  -- Cut off 4-year cycles.
  let n := d / daysPer4Years
  let y := y + 4 * n
  let d := d - daysPer4Years * n
  -- Cut off years within a 4-year cycle.
  let n := d / 365
  let n := n - n / 4
  let y := y + n
  let d := d - 365 * n
  (y, d)

/-- Go's `absDate(abs, true)`: year, month (January is 1), day of the month
and day of the year (from 0) of an absolute time, by the algorithm of Go 1.22
and earlier. -/
def absDate (abs : Nat) : Int × Nat × Nat × Nat :=
  let year : Int := ((absYearDay abs).1 : Int) + absoluteZeroYear
  let yday := (absYearDay abs).2
  (year, (monthDay (isLeap year) yday).1, (monthDay (isLeap year) yday).2, yday)

/-- Go's `absClock`: hour, minute and second within the day. -/
def absClock (abs : Nat) : Nat × Nat × Nat :=
  let sec := abs % secondsPerDay
  let hour := sec / 3600
  let sec := sec - hour * 3600
  let min := sec / 60
  let sec := sec - min * 60
  (hour, min, sec)

/-- Go's `appendInt(b, x, width)`: the decimal form of `x`, zero-padded to
`width` digits, after a minus sign when `x` is negative. -/
def appendInt (b : GoString) (x : Int) (width : Nat) : GoString :=
  let b1 : GoString := if x < 0 then b ++ [45] else b
  let u : Nat := if x < 0 then (-x).toNat else x.toNat
  let digits := formatUint u
  b1 ++ List.replicate (width - digits.length) 48 ++ digits

/-- The chunks `nextStdChunk` cuts a layout into. -/
inductive Chunk where
  | lit (s : GoString)
  | stdLongYear
  | stdZeroMonth
  | stdZeroDay
  | stdHour
  | stdZeroMinute
  | stdZeroSecond

/-- The layout `"2006-01-02 15:04:05 UTC"` of `convertTimestamp` as
`nextStdChunk` cuts it: ` UTC` holds no reference element, it is literal text. -/
def layout : List Chunk :=
  [.stdLongYear, .lit (ascii "-"), .stdZeroMonth, .lit (ascii "-"), .stdZeroDay,
   .lit (ascii " "), .stdHour, .lit (ascii ":"), .stdZeroMinute, .lit (ascii ":"),
   .stdZeroSecond, .lit (ascii " UTC")]

/-- One round of the loop of `Time.appendFormat`. -/
def appendChunk (abs : Nat) (b : GoString) : Chunk → GoString
  | .lit s => b ++ s
  | .stdLongYear => appendInt b (absDate abs).1 4
  | .stdZeroMonth => appendInt b (absDate abs).2.1 2
  | .stdZeroDay => appendInt b (absDate abs).2.2.1 2
  | .stdHour => appendInt b (absClock abs).1 2
  | .stdZeroMinute => appendInt b (absClock abs).2.1 2
  | .stdZeroSecond => appendInt b (absClock abs).2.2 2

/-- Go's `Time.Format`: the chunks of the layout, filled in from the absolute
time of the location of `t`. -/
def Time.Format (t : Time) (l : List Chunk) : GoString :=
  l.foldl (appendChunk t.abs) []

/-! ## The program -/

/-- The struct `BodyfileEntry`. -/
structure BodyfileEntry where
  Zero : GoString
  Name : GoString
  Inode : GoString
  Mode : GoString
  UID : GoString
  GID : GoString
  Size : GoString
  ATime : GoString
  MTime : GoString
  CTime : GoString
  CrTime : GoString
  ATimeReadable : GoString
  MTimeReadable : GoString
  CTimeReadable : GoString
  CrTimeReadable : GoString
  deriving DecidableEq, Repr

/-- The function `convertTimestamp` of `main.go`, on a host whose zone
`time.Local` is `tz`. -/
def convertTimestamp (tz : Location) (epochStr : GoString) : GoString :=
  if epochStr = ascii "" ∨ epochStr = ascii "0" then ascii "N/A"
  else
    match ParseInt epochStr with
    | .error _ => ascii "Invalid"
    | .ok epoch => ((Time.Unix tz epoch).UTC).Format layout

/-- The text of the error of `parseBodyfileLine` for a line of `n` fields. -/
def fieldCountError (n : Nat) : GoString :=
  ascii "invalid bodyfile format: expected 10 or 11 fields, got " ++ FormatInt n

/-- The function `parseBodyfileLine` of `main.go`, on a host whose zone is
`tz`; the error is its message. -/
def parseBodyfileLine (tz : Location) (line : GoString) : Except GoString BodyfileEntry :=
  -- Split by pipe character
  let fields := Split line pipe
  if h : fields.length < 10 ∨ fields.length > 11 then
    .error (fieldCountError fields.length)
  else
    -- Handle CrTime - may not be present on all filesystems
    let CrTime : GoString := if h11 : fields.length = 11 then fields[10] else ascii "0"
    .ok {
      Zero := fields[0]
      Name := fields[1]
      Inode := fields[2]
      Mode := fields[3]
      UID := fields[4]
      GID := fields[5]
      Size := fields[6]
      ATime := fields[7]
      MTime := fields[8]
      CTime := fields[9]
      CrTime := CrTime
      ATimeReadable := convertTimestamp tz fields[7]
      MTimeReadable := convertTimestamp tz fields[8]
      CTimeReadable := convertTimestamp tz fields[9]
      CrTimeReadable := convertTimestamp tz CrTime }

/-! ## bufio.Scanner -/

/-- The function `dropCR` of package `bufio`: drop a final `\r`. -/
def dropCR (data : GoString) : GoString :=
  if data.getLast? = some 13 then data.dropLast else data

/-- The constant `bufio.MaxScanTokenSize`, the size a scanner's buffer grows to. -/
def MaxScanTokenSize : Nat := 64 * 1024

/-- The error `bufio.ErrTooLong` ("token too long"). -/
inductive ScanError where
  | ErrTooLong
  deriving DecidableEq, Repr

/-- What a loop `for scanner.Scan() { .. scanner.Text() .. }` sees: the tokens
in order and the value of `scanner.Err()` after the loop. -/
structure ScanResult where
  tokens : List GoString
  err : Option ScanError
  deriving DecidableEq, Repr

/-- A `bufio.Scanner` with the default split function `ScanLines` over the
unread input.  `cur` holds the bytes of the current line read so far, last
byte first, and `n` their number.  A line ends at `\n`; the token is the line
without the `\n` and without one `\r` before it; a last line without `\n` is a
token when it is not empty.  The buffer grows to `MaxScanTokenSize` bytes:
when it is full and holds no `\n`, scanning stops with `ErrTooLong`. -/
def scanFrom : GoString → GoString → Nat → ScanResult
  | [], cur, n =>
    if n = 0 then ⟨[], none⟩
    else if n ≥ MaxScanTokenSize then ⟨[], some .ErrTooLong⟩
    else ⟨[dropCR cur.reverse], none⟩
  | c :: rest, cur, n =>
    if n ≥ MaxScanTokenSize then ⟨[], some .ErrTooLong⟩
    else if c = 10 then
      let r := scanFrom rest [] 0
      ⟨dropCR cur.reverse :: r.tokens, r.err⟩
    else scanFrom rest (c :: cur) (n + 1)

/-- The scanner of `convertBodyfileToCSV` run over the whole input file. -/
def scan (input : GoString) : ScanResult := scanFrom input [] 0

/-! ## convertBodyfileToCSV -/

/-- What a run of `convertBodyfileToCSV` leaves behind: the records handed to
`csvWriter.Write` in order, the messages handed to `log.Printf` in order, and
the message of the returned error (`none` for `nil`). -/
structure Output where
  records : List (List GoString)
  warnings : List GoString
  err : Option GoString
  deriving DecidableEq, Repr

/-- The CSV header of `convertBodyfileToCSV`. -/
def header : List GoString :=
  [ascii "0", ascii "Name", ascii "Inode", ascii "Mode", ascii "UID", ascii "GID",
   ascii "Size", ascii "ATime", ascii "MTime", ascii "CTime", ascii "CrTime"]

/-- The CSV record the loop builds from an entry. -/
def recordOf (epochOnly : Bool) (entry : BodyfileEntry) : List GoString :=
  let record := [entry.Zero, entry.Name, entry.Inode, entry.Mode,
    entry.UID, entry.GID, entry.Size]
  if epochOnly then
    -- Use epoch timestamps
    record ++ [entry.ATime, entry.MTime, entry.CTime, entry.CrTime]
  else
    -- Default: use human-readable timestamps only
    record ++ [entry.ATimeReadable, entry.MTimeReadable,
      entry.CTimeReadable, entry.CrTimeReadable]

/-- The message of the warning logged for line `lineNumber`. -/
def warningText (lineNumber : Nat) (e : GoString) : GoString :=
  ascii "Warning: Failed to parse line " ++ FormatInt lineNumber ++ ascii ": " ++ e

/-- The loop `for scanner.Scan()` of `convertBodyfileToCSV` over the tokens the
scanner yields; `lineNumber` and `out` are the state before the round. -/
def processLines (tz : Location) (epochOnly : Bool) : List GoString → Nat → Output → Output
  | [], _, out => out
  | text :: rest, lineNumber, out =>
    let lineNumber := lineNumber + 1
    let line := TrimSpace text
    -- Skip empty lines
    if line = [] then processLines tz epochOnly rest lineNumber out
    else
      match parseBodyfileLine tz line with
      | .error e =>
        processLines tz epochOnly rest lineNumber
          { out with warnings := out.warnings ++ [warningText lineNumber e] }
      | .ok entry =>
        processLines tz epochOnly rest lineNumber
          { out with records := out.records ++ [recordOf epochOnly entry] }

/-- The function `convertBodyfileToCSV` of `main.go` on the content of the
input file, for a run on a host whose zone is `tz` in which both files open and
every write succeeds. -/
def convertBodyfileToCSV (tz : Location) (input : GoString) (epochOnly : Bool) : Output :=
  -- Write CSV header
  let out0 : Output := { records := [header], warnings := [], err := none }
  -- Read and process bodyfile line by line
  let sc := scan input
  let out := processLines tz epochOnly sc.tokens 0 out0
  match sc.err with
  | some _ => { out with err := some (ascii "error reading input file: bufio.Scanner: token too long") }
  | none => out

/-! ## encoding/csv -/

/-- Go's `Writer.fieldNeedsQuotes` of `encoding/csv` for the default comma
`,`: not for the empty field; for the field `\.`; for a field with a line
feed, a carriage return, a double quote or a comma; and for a field that
starts with a space. -/
def fieldNeedsQuotes (field : GoString) : Bool :=
  if field = [] then false
  else if field = [92, 46] then true
  else if field.any (fun c => c = 10 || c = 13 || c = 34 || c = 44) then true
  else IsSpace (DecodeRune field).1

/-- The loop of `Writer.Write` over a field that needs quotes, with `UseCRLF`
false: a double quote is written twice, every other byte as it is. -/
def writeQuoted : GoString → GoString
  | [] => []
  | c :: rest =>
    if c = 34 then 34 :: 34 :: writeQuoted rest
    else if c = 13 then 13 :: writeQuoted rest
    else if c = 10 then 10 :: writeQuoted rest
    else c :: writeQuoted rest

/-- The text `Writer.Write` emits for one field. -/
def writeField (field : GoString) : GoString :=
  if !fieldNeedsQuotes field then field
  else [34] ++ writeQuoted field ++ [34]

/-- The fields of a record as `Writer.Write` emits them, a comma before every
field but the first. -/
def writeFields : List GoString → GoString
  | [] => []
  | [f] => writeField f
  | f :: g :: rest => writeField f ++ 44 :: writeFields (g :: rest)

/-- Go's `csv.Writer.Write` with the settings of `csv.NewWriter`: the fields,
then a line feed. -/
def csvWrite (record : List GoString) : GoString := writeFields record ++ [10]

/-- The content of the output file after the flush: the text of the records
written, in order. -/
def csvText (out : Output) : GoString := (out.records.map csvWrite).flatten

/-! ## The grammar of decimal integers, as the specification words it -/

/-- An ASCII decimal digit. -/
def isDigit (c : Byte) : Bool := 48 ≤ c.val && c.val ≤ 57

/-- The number a string of decimal digits denotes. -/
def decimalValue (ds : GoString) : Nat := ds.foldl (fun a c => a * 10 + (c.val - 48)) 0

/-- The grammar of the specification: an optional leading minus followed by
one or more ASCII decimal digits (no plus sign, no exponent, no fraction, no
whitespace); the value of such a string. -/
def specDecimal (s : GoString) : Option Int :=
  match s with
  | [] => none
  | c :: rest =>
    if c = 45 then
      if rest ≠ [] ∧ rest.all isDigit then some (-(decimalValue rest : Int)) else none
    else if (c :: rest).all isDigit then some (decimalValue (c :: rest) : Int) else none

/-- The grammar of the specification with a leading plus sign allowed as well:
an optional sign `-` or `+` followed by one or more ASCII decimal digits. -/
def signedDecimal (s : GoString) : Option Int :=
  match s with
  | [] => none
  | c :: rest =>
    if c = 45 then
      if rest ≠ [] ∧ rest.all isDigit then some (-(decimalValue rest : Int)) else none
    else if c = 43 then
      if rest ≠ [] ∧ rest.all isDigit then some (decimalValue rest : Int) else none
    else if (c :: rest).all isDigit then some (decimalValue (c :: rest) : Int) else none

/-- The range of a signed 64-bit integer. -/
def inInt64 (v : Int) : Prop := -2 ^ 63 ≤ v ∧ v ≤ 2 ^ 63 - 1

instance (v : Int) : Decidable (inInt64 v) := by unfold inInt64; infer_instance

/-- The value of a digit string read after the accumulator `n`. -/
def decimalValueFrom (n : Nat) (ds : GoString) : Nat :=
  ds.foldl (fun a c => a * 10 + (c.val - 48)) n

/-! ## The lines of the input and their rows, as the specification words them -/

/-- The lines of a text, each ended by LF or CRLF: the pieces between line
feeds, without a carriage return at their end; what follows the last line feed
is a line only when it is not empty. -/
def inputLines (input : GoString) : List GoString :=
  let parts := Split input 10
  (if parts.getLast? = some [] then parts.dropLast else parts).map dropCR

/-- A line parses successfully: it is not empty after trimming and
`parseBodyfileLine` returns a record for the trimmed line. -/
def lineAccepted (tz : Location) (text : GoString) : Bool :=
  TrimSpace text ≠ [] &&
    match parseBodyfileLine tz (TrimSpace text) with
    | .ok _ => true
    | .error _ => false

/-- The row of a line: the record built from the entry of the trimmed line,
for a line that parses successfully. -/
def rowOfLine (tz : Location) (epochOnly : Bool) (text : GoString) : Option (List GoString) :=
  if TrimSpace text = [] then none
  else
    match parseBodyfileLine tz (TrimSpace text) with
    | .ok entry => some (recordOf epochOnly entry)
    | .error _ => none

/-- The index, among the records written, of the row of the line with index
`i` (from 0): after the header and the rows of the accepted lines before it. -/
def rowIndex (tz : Location) (lines : List GoString) (i : Nat) : Nat :=
  1 + ((lines.take i).filter (lineAccepted tz)).length

/-! ## The proleptic Gregorian calendar, as the specification words it -/

/-- A leap year of the Gregorian calendar. -/
def isLeapYear (Y : Int) : Bool := Y % 4 = 0 ∧ (Y % 100 ≠ 0 ∨ Y % 400 = 0)

/-- The number of days of month `M` (from 1 to 12) in a leap or common year. -/
def monthLength (leap : Bool) (M : Nat) : Nat :=
  match M with
  | 1 => 31
  | 2 => if leap then 29 else 28
  | 3 => 31
  | 4 => 30
  | 5 => 31
  | 6 => 30
  | 7 => 31
  | 8 => 31
  | 9 => 30
  | 10 => 31
  | 11 => 30
  | 12 => 31
  | _ => 0

/-- The number of days of month `M` of year `Y`. -/
def daysInMonth (Y : Int) (M : Nat) : Nat := monthLength (isLeapYear Y) M

/-- The number of days of the year before month `M`. -/
def daysBeforeMonth (leap : Bool) (M : Nat) : Nat :=
  ((List.range (M - 1)).map (fun k => monthLength leap (k + 1))).sum

/-- The number of leap years among the years 1 to `Y - 1`; for `Y` below 1,
minus the number of leap years from `Y` to 0. -/
def leapYearsBefore (Y : Int) : Int := (Y - 1) / 4 - (Y - 1) / 100 + (Y - 1) / 400

/-- The number of days from 1970-01-01 to the first of January of year `Y`. -/
def daysBeforeYear (Y : Int) : Int :=
  365 * (Y - 1970) + (leapYearsBefore Y - leapYearsBefore 1970)

/-- The number of days from 1970-01-01 to the day `D` of month `M` of year `Y`. -/
def daysFromEpoch (Y : Int) (M D : Nat) : Int :=
  daysBeforeYear Y + daysBeforeMonth (isLeapYear Y) M + ((D : Int) - 1)

/-- The `w` last decimal digits of `n`, most significant first, as ASCII. -/
def padDigits (w n : Nat) : GoString :=
  (List.range w).reverse.map (fun k => Fin.ofNat (48 + n / 10 ^ k % 10))

/-- The text `YYYY-MM-DD HH:MM:SS UTC` of six numbers. -/
def timestampText (Y M D h m s : Nat) : GoString :=
  padDigits 4 Y ++ ascii "-" ++ padDigits 2 M ++ ascii "-" ++ padDigits 2 D ++ ascii " " ++
    padDigits 2 h ++ ascii ":" ++ padDigits 2 m ++ ascii ":" ++ padDigits 2 s ++ ascii " UTC"

/-- The form `YYYY-MM-DD HH:MM:SS UTC`: 23 bytes, digits at the places of the
letters, and the punctuation and the token `UTC` as written. -/
def hasTimestampForm (t : GoString) : Bool :=
  match t with
  | [y1, y2, y3, y4, c1, m1, m2, c2, d1, d2, c3, h1, h2, c4, n1, n2, c5, s1, s2, c6, z1, z2, z3] =>
    isDigit y1 && isDigit y2 && isDigit y3 && isDigit y4 && c1 = 45 &&
    isDigit m1 && isDigit m2 && c2 = 45 && isDigit d1 && isDigit d2 && c3 = 32 &&
    isDigit h1 && isDigit h2 && c4 = 58 && isDigit n1 && isDigit n2 && c5 = 58 &&
    isDigit s1 && isDigit s2 && c6 = 32 && z1 = 85 && z2 = 84 && z3 = 67
  | _ => false

/-! ## Warnings, quoting, line terminators and joining, as the specification words them -/

/-- A line is rejected: it is not empty after trimming and `parseBodyfileLine`
returns an error for the trimmed line. -/
def lineRejected (tz : Location) (text : GoString) : Bool :=
  TrimSpace text ≠ [] &&
    match parseBodyfileLine tz (TrimSpace text) with
    | .ok _ => false
    | .error _ => true

/-- The warning for the line with number `k`: for a rejected line, the text
`Warning: Failed to parse line k: ... got n` with the number `n` of its
fields. -/
def warningOfLine (tz : Location) (k : Nat) (text : GoString) : Option GoString :=
  if lineRejected tz text then
    some (ascii "Warning: Failed to parse line " ++ FormatInt k ++
      ascii ": invalid bodyfile format: expected 10 or 11 fields, got " ++
      FormatInt ((Split (TrimSpace text) pipe).length : Nat))
  else none

/-- The index, among the warnings logged, of the warning of the line with
index `i` (from 0): after the warnings of the rejected lines before it. -/
def warningIndex (tz : Location) (lines : List GoString) (i : Nat) : Nat :=
  ((lines.take i).filter (lineRejected tz)).length

/-- The value holds a comma, a double quote, a carriage return or a line feed. -/
def hasSpecial (v : GoString) : Prop := (44 : Byte) ∈ v ∨ (34 : Byte) ∈ v ∨ (13 : Byte) ∈ v ∨ (10 : Byte) ∈ v

/-- The value with every double quote doubled. -/
def doubleQuotes (v : GoString) : GoString :=
  (v.map (fun c => if c = 34 then [34, 34] else [c])).flatten

/-- The text with every line feed replaced by a carriage return and a line
feed. -/
def toCRLF (input : GoString) : GoString :=
  (input.map (fun c => if c = 10 then [13, 10] else [c])).flatten

/-- The strings joined with the separator between them, as `strings.Join`. -/
def Join (sep : Byte) : List GoString → GoString
  | [] => []
  | [a] => a
  | a :: b :: rest => a ++ sep :: Join sep (b :: rest)

/-- The warnings of the lines numbered from `k` on, in order: one for every
rejected line, none for the others. -/
def warningsFrom (tz : Location) (k : Nat) : List GoString → List GoString
  | [] => []
  | t :: ts => (warningOfLine tz k t).toList ++ warningsFrom tz (k + 1) ts

/-- A line of 10 fields whose name has `k` bytes, all of them `a`. -/
def lineWithName (k : Nat) : GoString :=
  ascii "0|" ++ List.replicate k 97 ++ ascii "|1|2|3|4|5|0|0|0"

/-- The lines a run reads: the lines of the input before the first line of
`MaxScanTokenSize` bytes or more, the carriage return before the line feed
counted; every line when no line is that long. -/
def linesRead (input : GoString) : List GoString :=
  let parts := Split input 10
  ((if parts.getLast? = some [] then parts.dropLast else parts).takeWhile
    (fun l => decide (l.length < MaxScanTokenSize))).map dropCR

/-- A zone for the examples: a host one hour east of UTC all year, as
`time.FixedZone("CET", 3600)`. -/
def CET : Location := ⟨fun _ => 3600⟩

/-! # Theorems -/

/-! ## The record parser -/

/-- The number of fields of a line is the number of its `|` plus one. -/
theorem Split_length (s : GoString) (sep : Byte) :
    (Split s sep).length = s.count sep + 1 := by
  induction s with
  | nil => simp [Split]
  | cons c rest ih =>
    unfold Split
    by_cases h : c = sep
    · subst h
      simp [ih]
    · have hne : (c == sep) = false := by simpa using h
      cases hs : Split rest sep with
      | nil => simp [hs] at ih
      | cons f fs =>
        rw [hs] at ih
        simp only [List.length_cons] at ih
        simp [h, hne, List.count_cons, ← ih]

theorem Split_ne_nil (s : GoString) (sep : Byte) : Split s sep ≠ [] := by
  intro h
  have := Split_length s sep
  rw [h] at this
  simp at this

theorem parseBodyfileLine_ok_of_length (tz : Location) (line : GoString)
    (h : (Split line pipe).length = 10 ∨ (Split line pipe).length = 11) :
    ∃ e, parseBodyfileLine tz line = .ok e := by
  unfold parseBodyfileLine
  simp only
  rw [dif_neg (by omega)]
  exact ⟨_, rfl⟩

theorem parseBodyfileLine_ok_length (tz : Location) (line : GoString) (e : BodyfileEntry)
    (h : parseBodyfileLine tz line = .ok e) :
    (Split line pipe).length = 10 ∨ (Split line pipe).length = 11 := by
  unfold parseBodyfileLine at h
  simp only at h
  split at h
  · cases h
  · omega

theorem parseBodyfileLine_ok_fields (tz : Location) (line : GoString) (e : BodyfileEntry)
    (h : parseBodyfileLine tz line = .ok e) :
    (Split line pipe)[0]? = some e.Zero ∧
    (Split line pipe)[1]? = some e.Name ∧
    (Split line pipe)[2]? = some e.Inode ∧
    (Split line pipe)[3]? = some e.Mode ∧
    (Split line pipe)[4]? = some e.UID ∧
    (Split line pipe)[5]? = some e.GID ∧
    (Split line pipe)[6]? = some e.Size := by
  unfold parseBodyfileLine at h
  simp only at h
  split at h
  · cases h
  · rename_i hlen
    injection h with h
    subst h
    have hlen1 : 10 ≤ (Split line pipe).length := by omega
    exact ⟨List.getElem?_eq_getElem _, List.getElem?_eq_getElem _,
      List.getElem?_eq_getElem _, List.getElem?_eq_getElem _, List.getElem?_eq_getElem _,
      List.getElem?_eq_getElem _, List.getElem?_eq_getElem _⟩

/-- C1: `parseBodyfileLine` returns a record exactly when the line splits on
`|` into 10 or 11 fields; for every other field count `n` it returns no record
but the error `invalid bodyfile format: expected 10 or 11 fields, got n`.  The
content of the fields plays no part. -/
theorem parseBodyfileLine_ok_iff_field_count (tz : Location) (line : GoString) :
    ((∃ e, parseBodyfileLine tz line = .ok e) ↔
      ((Split line pipe).length = 10 ∨ (Split line pipe).length = 11)) ∧
    (¬((Split line pipe).length = 10 ∨ (Split line pipe).length = 11) →
      parseBodyfileLine tz line =
        .error (ascii "invalid bodyfile format: expected 10 or 11 fields, got " ++
          FormatInt ((Split line pipe).length : Nat))) := by
  constructor
  · constructor
    · rintro ⟨e, he⟩
      exact parseBodyfileLine_ok_length tz line e he
    · exact parseBodyfileLine_ok_of_length tz line
  · intro h
    unfold parseBodyfileLine
    simp only
    rw [dif_pos (by omega)]
    rfl

/-- C2: on an accepted line the record holds fields 0 to 9 of the split line
unchanged, `CrTime` is field 10 of an 11-field line and `"0"` for a 10-field
line, and the four readable columns are `convertTimestamp` of fields 7, 8, 9
and of the record's `CrTime`. -/
theorem parseBodyfileLine_fields (tz : Location) (line : GoString) (e : BodyfileEntry)
    (h : parseBodyfileLine tz line = .ok e) :
    (Split line pipe)[0]? = some e.Zero ∧
    (Split line pipe)[1]? = some e.Name ∧
    (Split line pipe)[2]? = some e.Inode ∧
    (Split line pipe)[3]? = some e.Mode ∧
    (Split line pipe)[4]? = some e.UID ∧
    (Split line pipe)[5]? = some e.GID ∧
    (Split line pipe)[6]? = some e.Size ∧
    (Split line pipe)[7]? = some e.ATime ∧
    (Split line pipe)[8]? = some e.MTime ∧
    (Split line pipe)[9]? = some e.CTime ∧
    ((Split line pipe).length = 11 → (Split line pipe)[10]? = some e.CrTime) ∧
    ((Split line pipe).length = 10 → e.CrTime = ascii "0") ∧
    e.ATimeReadable = convertTimestamp tz e.ATime ∧
    e.MTimeReadable = convertTimestamp tz e.MTime ∧
    e.CTimeReadable = convertTimestamp tz e.CTime ∧
    e.CrTimeReadable = convertTimestamp tz e.CrTime := by
  unfold parseBodyfileLine at h
  simp only at h
  split at h
  · cases h
  · rename_i hlen
    injection h with h
    subst h
    have hlen1 : 10 ≤ (Split line pipe).length := by omega
    refine ⟨List.getElem?_eq_getElem _, List.getElem?_eq_getElem _,
      List.getElem?_eq_getElem _, List.getElem?_eq_getElem _, List.getElem?_eq_getElem _,
      List.getElem?_eq_getElem _, List.getElem?_eq_getElem _, List.getElem?_eq_getElem _,
      List.getElem?_eq_getElem _, List.getElem?_eq_getElem _, ?_, ?_, rfl, rfl, rfl, rfl⟩
    · intro h11
      simp [h11]
    · intro h10
      simp [h10]

/-- C2 on the line of scenario S1, an accepted line of 11 fields. -/
theorem parseBodyfileLine_fields_witness :
    (Split (ascii "0|/etc/passwd|1234|0100644|0|0|2450|1700000000|1700000100|1700000200|1700000300") pipe)[10]?
      = some (ascii "1700000300") ∧
    ∃ e, parseBodyfileLine CET
        (ascii "0|/etc/passwd|1234|0100644|0|0|2450|1700000000|1700000100|1700000200|1700000300") = .ok e ∧
      e.Name = ascii "/etc/passwd" ∧ e.CrTime = ascii "1700000300" ∧
      e.CrTimeReadable = convertTimestamp CET e.CrTime := by
  refine ⟨by decide, ?_⟩
  obtain ⟨e, he⟩ := parseBodyfileLine_ok_of_length CET
    (ascii "0|/etc/passwd|1234|0100644|0|0|2450|1700000000|1700000100|1700000200|1700000300")
    (by decide)
  have hf := parseBodyfileLine_fields CET _ e he
  refine ⟨e, he, ?_, ?_, hf.2.2.2.2.2.2.2.2.2.2.2.2.2.2.2⟩
  · have h1 := hf.2.1
    have h2 : (Split (ascii "0|/etc/passwd|1234|0100644|0|0|2450|1700000000|1700000100|1700000200|1700000300") pipe)[1]?
        = some (ascii "/etc/passwd") := by decide
    rw [h2] at h1
    exact (Option.some.inj h1).symm
  · have h1 := hf.2.2.2.2.2.2.2.2.2.2.1 (by decide)
    have h2 : (Split (ascii "0|/etc/passwd|1234|0100644|0|0|2450|1700000000|1700000100|1700000200|1700000300") pipe)[10]?
        = some (ascii "1700000300") := by decide
    rw [h2] at h1
    exact (Option.some.inj h1).symm

/-- C3: the sentinels of `convertTimestamp`: the empty string and `"0"` give
`"N/A"`, and `"not-a-number"` gives `"Invalid"`. -/
theorem convertTimestamp_sentinels (tz : Location) :
    convertTimestamp tz (ascii "") = ascii "N/A" ∧
    convertTimestamp tz (ascii "0") = ascii "N/A" ∧
    convertTimestamp tz (ascii "not-a-number") = ascii "Invalid" := by
  refine ⟨?_, ?_, ?_⟩
  · unfold convertTimestamp
    rw [if_pos (Or.inl rfl)]
  · unfold convertTimestamp
    rw [if_pos (Or.inr rfl)]
  · have hp : ParseInt (ascii "not-a-number") = .error .ErrSyntax := by decide
    unfold convertTimestamp
    rw [if_neg (by decide), hp]

/-! ## strconv.ParseInt -/

theorem decimalValue_eq (ds : GoString) : decimalValue ds = decimalValueFrom 0 ds := rfl

theorem decimalValueFrom_cons (n : Nat) (c : Byte) (cs : GoString) :
    decimalValueFrom n (c :: cs) = decimalValueFrom (n * 10 + (c.val - 48)) cs := rfl

theorem le_decimalValueFrom (n : Nat) (ds : GoString) : n ≤ decimalValueFrom n ds := by
  induction ds generalizing n with
  | nil => exact Nat.le_refl _
  | cons c cs ih =>
    rw [decimalValueFrom_cons]
    have := ih (n * 10 + (c.val - 48))
    omega

theorem decimalValueFrom_mono (n m : Nat) (h : n ≤ m) (ds : GoString) :
    decimalValueFrom n ds ≤ decimalValueFrom m ds := by
  induction ds generalizing n m with
  | nil => exact h
  | cons c cs ih =>
    rw [decimalValueFrom_cons, decimalValueFrom_cons]
    exact ih _ _ (by omega)

theorem maxUint64_eq : maxUint64 = 18446744073709551615 := by decide

/-- The digit loop of `ParseUint` returns a value exactly on strings of
digits whose value fits 64 bits, and then that value. -/
theorem parseUintLoop_eq_ok_iff (cs : GoString) (n v : Nat) (hn : n < 2 ^ 64) :
    parseUintLoop cs n = .ok v ↔
      (cs.all isDigit = true ∧ decimalValueFrom n cs = v ∧ v < 2 ^ 64) := by
  induction cs generalizing n with
  | nil =>
    simp only [parseUintLoop, List.all_nil, decimalValueFrom, List.foldl_nil, true_and]
    constructor
    · intro h
      injection h with h
      subst h
      exact ⟨rfl, hn⟩
    · rintro ⟨h, -⟩
      rw [h]
  | cons c cs ih =>
    rw [decimalValueFrom_cons]
    unfold parseUintLoop
    simp only [List.all_cons, maxUint64_eq]
    by_cases hd : 48 ≤ c.val ∧ c.val ≤ 57
    · have hdig : isDigit c = true := by simp [isDigit, hd.1, hd.2]
      simp only [hd, and_self, if_true, hdig, Bool.true_and]
      rw [if_neg (by omega)]
      by_cases hcut : n ≥ 18446744073709551615 / 10 + 1
      · rw [if_pos hcut]
        constructor
        · intro h; cases h
        · rintro ⟨-, hv, hlt⟩
          have := le_decimalValueFrom (n * 10 + (c.val - 48)) cs
          omega
      · rw [if_neg hcut]
        by_cases hov : (n * 10 + (c.val - 48)) % 2 ^ 64 < n * 10 ∨
            (n * 10 + (c.val - 48)) % 2 ^ 64 > 18446744073709551615
        · rw [if_pos hov]
          constructor
          · intro h; cases h
          · rintro ⟨-, hv, hlt⟩
            have := le_decimalValueFrom (n * 10 + (c.val - 48)) cs
            omega
        · rw [if_neg hov]
          have hsmall : n * 10 + (c.val - 48) < 2 ^ 64 := by omega
          rw [Nat.mod_eq_of_lt hsmall]
          exact ih _ hsmall
    · have hdig : isDigit c = false := by
        simp only [isDigit, Bool.and_eq_false_imp, decide_eq_true_eq, decide_eq_false_iff_not]
        intro h1 h2
        exact hd ⟨h1, h2⟩
      rw [if_neg hd]
      simp only [hdig, Bool.false_and, Bool.false_eq_true, false_and, iff_false]
      split <;> (try split) <;> simp

/-- The function `ParseUint` returns a value exactly on non-empty strings of
digits whose value fits 64 bits. -/
theorem ParseUint_eq_ok_iff (s : GoString) (v : Nat) :
    ParseUint s = .ok v ↔
      (s ≠ [] ∧ s.all isDigit = true ∧ decimalValue s = v ∧ v < 2 ^ 64) := by
  unfold ParseUint
  by_cases hs : s = []
  · simp [hs]
  · rw [if_neg hs, parseUintLoop_eq_ok_iff s 0 v (by norm_num), decimalValue_eq]
    simp [hs]

/-- What `ParseInt` makes of the result of `ParseUint` on the digits. -/
theorem ParseInt_cons (c : Byte) (rest : GoString) :
    ParseInt (c :: rest) =
      match ParseUint (if c = 43 then rest else if c = 45 then rest else c :: rest) with
      | .error .ErrSyntax => .error .ErrSyntax
      | r =>
        if (!decide (c = 45)) ∧ (match r with | .ok n => n | .error _ => maxUint64) ≥ 2 ^ 63 then
          .error .ErrRange
        else if decide (c = 45) ∧ (match r with | .ok n => n | .error _ => maxUint64) > 2 ^ 63 then
          .error .ErrRange
        else .ok (if decide (c = 45) then -((match r with | .ok n => n | .error _ => maxUint64 : Nat) : Int)
          else ((match r with | .ok n => n | .error _ => maxUint64 : Nat) : Int)) := by
  rfl

theorem ParseInt_of_ParseUint_error (c : Byte) (rest : GoString) (e : NumError)
    (h : ParseUint (if c = 43 then rest else if c = 45 then rest else c :: rest) = .error e) :
    ∃ e1, ParseInt (c :: rest) = .error e1 := by
  rw [ParseInt_cons, h]
  cases e with
  | ErrSyntax => exact ⟨_, rfl⟩
  | ErrRange =>
    simp only [maxUint64_eq]
    by_cases hc : c = 45
    · simp [hc]
    · simp [hc]

theorem ParseInt_of_ParseUint_ok (c : Byte) (rest : GoString) (un : Nat)
    (h : ParseUint (if c = 43 then rest else if c = 45 then rest else c :: rest) = .ok un) :
    ParseInt (c :: rest) =
      if c = 45 then (if un > 2 ^ 63 then .error .ErrRange else .ok (-(un : Int)))
      else (if un ≥ 2 ^ 63 then .error .ErrRange else .ok (un : Int)) := by
  rw [ParseInt_cons, h]
  by_cases hc : c = 45
  · simp [hc]
  · simp [hc]

theorem signedDecimal_cons (c : Byte) (rest : GoString) :
    signedDecimal (c :: rest) =
      if c = 45 then
        if rest ≠ [] ∧ rest.all isDigit then some (-(decimalValue rest : Int)) else none
      else if c = 43 then
        if rest ≠ [] ∧ rest.all isDigit then some (decimalValue rest : Int) else none
      else if (c :: rest).all isDigit then some (decimalValue (c :: rest) : Int) else none := rfl

/-- The function `ParseInt` returns a value exactly on the strings made of an
optional sign `+` or `-` and one or more decimal digits whose value is in the
range of `int64`, and then that value. -/
theorem ParseInt_eq_ok_iff (s : GoString) (v : Int) :
    ParseInt s = .ok v ↔ (signedDecimal s = some v ∧ inInt64 v) := by
  cases s with
  | nil => simp [ParseInt, signedDecimal]
  | cons c rest =>
    rw [signedDecimal_cons]
    have key : ∀ (s1 : GoString) (neg : Bool),
        (if c = 43 then rest else if c = 45 then rest else c :: rest) = s1 →
        neg = decide (c = 45) →
        (ParseInt (c :: rest) = .ok v ↔
          ((s1 ≠ [] ∧ s1.all isDigit = true) ∧
            v = (if neg then -(decimalValue s1 : Int) else (decimalValue s1 : Int)) ∧
            inInt64 v)) := by
      intro s1 neg hs1 hneg
      cases hPU : ParseUint s1 with
      | error e =>
        obtain ⟨e1, he1⟩ := ParseInt_of_ParseUint_error c rest e (by rw [hs1]; exact hPU)
        rw [he1]
        constructor
        · intro h; cases h
        · rintro ⟨⟨hne, hall⟩, hv, hlo, hhi⟩
          have hlt : decimalValue s1 < 2 ^ 64 := by
            cases neg <;> simp at hv <;> omega
          have := (ParseUint_eq_ok_iff s1 (decimalValue s1)).2 ⟨hne, hall, rfl, hlt⟩
          rw [hPU] at this
          cases this
      | ok un =>
        obtain ⟨hne, hall, hval, hlt⟩ := (ParseUint_eq_ok_iff s1 un).1 hPU
        rw [ParseInt_of_ParseUint_ok c rest un (by rw [hs1]; exact hPU), hval]
        unfold inInt64
        by_cases hc : c = 45
        · simp only [hc, if_true, decide_True] at hneg ⊢
          subst hneg
          simp only [if_true]
          by_cases hr : un > 2 ^ 63
          · rw [if_pos hr]
            constructor
            · intro h; cases h
            · rintro ⟨-, hv, hlo, hhi⟩
              omega
          · rw [if_neg hr]
            constructor
            · intro h
              injection h with h
              exact ⟨⟨hne, hall⟩, h.symm, by omega, by omega⟩
            · rintro ⟨-, hv, -, -⟩
              rw [hv]
        · simp only [hc, if_false, decide_False] at hneg ⊢
          subst hneg
          simp only [Bool.false_eq_true, if_false]
          by_cases hr : un ≥ 2 ^ 63
          · rw [if_pos hr]
            constructor
            · intro h; cases h
            · rintro ⟨-, hv, hlo, hhi⟩
              omega
          · rw [if_neg hr]
            constructor
            · intro h
              injection h with h
              exact ⟨⟨hne, hall⟩, h.symm, by omega, by omega⟩
            · rintro ⟨-, hv, -, -⟩
              rw [hv]
    have opt_iff : ∀ (D : Prop) [Decidable D] (X : Int) (R : Prop),
        ((D ∧ v = X ∧ R) ↔ ((if D then some X else none) = some v ∧ R)) := by
      intro D _ X R
      by_cases hD : D
      · rw [if_pos hD]
        simp only [hD, true_and, Option.some.injEq]
        constructor
        · rintro ⟨h1, h2⟩; exact ⟨h1.symm, h2⟩
        · rintro ⟨h1, h2⟩; exact ⟨h1.symm, h2⟩
      · rw [if_neg hD]
        simp [hD]
    by_cases h45 : c = 45
    · have h43 : c ≠ 43 := by rw [h45]; decide
      rw [key rest true (by simp [h45, h43]) (by simp [h45]), if_pos h45, if_pos rfl]
      exact opt_iff _ _ _
    · by_cases h43 : c = 43
      · rw [key rest false (by simp [h43]) (by simp [h45]), if_neg h45, if_pos h43,
          if_neg (by decide)]
        exact opt_iff _ _ _
      · rw [key (c :: rest) false (by simp [h43, h45]) (by simp [h45]), if_neg h45, if_neg h43,
          if_neg (by decide)]
        have hne : (c :: rest ≠ [] ∧ (c :: rest).all isDigit = true) ↔
            ((c :: rest).all isDigit = true) := by simp
        rw [hne]
        exact opt_iff _ _ _

/-! ## The timestamp formatter -/

theorem appendInt_append (b : GoString) (x : Int) (width : Nat) :
    appendInt b x width = b ++ appendInt [] x width := by
  unfold appendInt
  by_cases hx : x < 0 <;> simp [hx]

/-- After `UTC()` a time no longer depends on the zone of the host it was
made in. -/
theorem UTC_Unix_zone (tz tz2 : Location) (sec : Int) :
    (Time.Unix tz sec).UTC = (Time.Unix tz2 sec).UTC := rfl

/-- The output of `Format` with the layout of `convertTimestamp`: the six
numbers and the literal text between them. -/
theorem Format_layout (t : Time) :
    t.Format layout =
      appendInt [] (absDate t.abs).1 4 ++ ascii "-" ++
      appendInt [] (absDate t.abs).2.1 2 ++ ascii "-" ++
      appendInt [] (absDate t.abs).2.2.1 2 ++ ascii " " ++
      appendInt [] (absClock t.abs).1 2 ++ ascii ":" ++
      appendInt [] (absClock t.abs).2.1 2 ++ ascii ":" ++
      appendInt [] (absClock t.abs).2.2 2 ++ ascii " UTC" := by
  simp only [Time.Format, layout, List.foldl, appendChunk]
  rw [appendInt_append _ _ 2, appendInt_append _ ((absClock t.abs).2.1 : Int) 2,
    appendInt_append _ ((absClock t.abs).1 : Int) 2,
    appendInt_append _ ((absDate t.abs).2.2.1 : Int) 2,
    appendInt_append _ ((absDate t.abs).2.1 : Int) 2]

theorem Format_layout_ne_Invalid (t : Time) : t.Format layout ≠ ascii "Invalid" := by
  rw [Format_layout]
  intro h
  have h1 := congrArg List.getLast? h
  have h2 : ascii " UTC" = [32, 85, 84] ++ [67] := by decide
  have h3 : ascii "Invalid" = [73, 110, 118, 97, 108, 105] ++ [100] := by decide
  rw [h2, h3, ← List.append_assoc, List.getLast?_append, List.getLast?_append] at h1
  simp at h1

/-- The function `convertTimestamp` answers `"Invalid"` exactly when `ParseInt`
fails, for an input other than `""` and `"0"`. -/
theorem convertTimestamp_eq_Invalid_iff (tz : Location) (s : GoString) (h1 : s ≠ ascii "") (h2 : s ≠ ascii "0") :
    convertTimestamp tz s = ascii "Invalid" ↔ ∀ v, ParseInt s ≠ .ok v := by
  unfold convertTimestamp
  rw [if_neg (by simp [h1, h2])]
  cases hP : ParseInt s with
  | error e => simp
  | ok v =>
    simp only [ne_eq, Except.ok.injEq, forall_eq', iff_false]
    exact Format_layout_ne_Invalid _

/-- C4, as amended: for every string other than `""` and `"0"`,
`convertTimestamp` answers `"Invalid"` exactly when the string is not an
optional sign, `-` or `+`, followed by one or more ASCII decimal digits whose
value lies in the range of a signed 64-bit integer. -/
theorem convertTimestamp_Invalid_iff_not_signed_decimal (tz : Location) (s : GoString)
    (h1 : s ≠ ascii "") (h2 : s ≠ ascii "0") :
    convertTimestamp tz s = ascii "Invalid" ↔ ¬ ∃ v, signedDecimal s = some v ∧ inInt64 v := by
  rw [convertTimestamp_eq_Invalid_iff tz s h1 h2]
  constructor
  · rintro h ⟨v, hv⟩
    exact h v ((ParseInt_eq_ok_iff s v).2 hv)
  · intro h v hv
    exact h ⟨v, (ParseInt_eq_ok_iff s v).1 hv⟩

/-- The amended C4 at `"12x"`, which is no integer, and so gives `"Invalid"`. -/
theorem convertTimestamp_Invalid_iff_not_signed_decimal_witness :
    ascii "12x" ≠ ascii "" ∧ ascii "12x" ≠ ascii "0" ∧
    (convertTimestamp CET (ascii "12x") = ascii "Invalid" ↔
      ¬ ∃ v, signedDecimal (ascii "12x") = some v ∧ inInt64 v) ∧
    convertTimestamp CET (ascii "12x") = ascii "Invalid" :=
  ⟨by decide, by decide,
    convertTimestamp_Invalid_iff_not_signed_decimal CET (ascii "12x") (by decide) (by decide),
    by decide⟩

/-- C4 fails as stated at `"+5"`: the string is not in the grammar of the
specification (it has a plus sign), it is neither `""` nor `"0"`, and
`convertTimestamp` does not answer `"Invalid"` but formats it as 5 seconds
after the epoch. -/
theorem convertTimestamp_plus_sign_not_Invalid :
    ascii "+5" ≠ ascii "" ∧ ascii "+5" ≠ ascii "0" ∧
    specDecimal (ascii "+5") = none ∧
    convertTimestamp CET (ascii "+5") = ascii "1970-01-01 00:00:05 UTC" ∧
    ¬ (convertTimestamp CET (ascii "+5") = ascii "Invalid" ↔
      ¬ ∃ v, specDecimal (ascii "+5") = some v ∧ inInt64 v) := by
  have hs : specDecimal (ascii "+5") = none := by decide
  have hc : convertTimestamp CET (ascii "+5") = ascii "1970-01-01 00:00:05 UTC" := by decide
  refine ⟨by decide, by decide, hs, hc, ?_⟩
  rw [hs, hc]
  intro h
  have h3 : ¬ ∃ v, (none : Option Int) = some v ∧ inInt64 v := by
    rintro ⟨v, hv, -⟩
    cases hv
  have := h.2 h3
  revert this
  decide

/-! ## The line source -/

theorem Split_nil (sep : Byte) : Split [] sep = [[]] := rfl

theorem Split_cons_sep (sep : Byte) (rest : GoString) :
    Split (sep :: rest) sep = [] :: Split rest sep := by
  rw [Split]
  simp

theorem Split_cons_ne (c sep : Byte) (rest f : GoString) (fs : List GoString) (hc : c ≠ sep)
    (h : Split rest sep = f :: fs) : Split (c :: rest) sep = (c :: f) :: fs := by
  rw [Split]
  simp [hc, h]

/-- A prefix without separator lengthens the first field. -/
theorem Split_append_left (pre s f : GoString) (fs : List GoString) (sep : Byte)
    (hpre : sep ∉ pre) (h : Split s sep = f :: fs) :
    Split (pre ++ s) sep = (pre ++ f) :: fs := by
  induction pre with
  | nil => simpa using h
  | cons c pre ih =>
    have hc : c ≠ sep := fun hc => hpre (by simp [hc])
    have hpre1 : sep ∉ pre := fun hm => hpre (List.mem_cons_of_mem _ hm)
    exact Split_cons_ne c sep (pre ++ s) (pre ++ f) fs hc (ih hpre1)

theorem inputLines_nil : inputLines [] = [] := by decide

theorem inputLines_of_not_mem (pre : GoString) (hpre : (10 : Byte) ∉ pre) (hne : pre ≠ []) :
    inputLines pre = [dropCR pre] := by
  have h := Split_append_left pre [] [] [] 10 hpre (Split_nil 10)
  simp only [List.append_nil] at h
  simp [inputLines, h, hne]

theorem inputLines_append_lf (pre rest : GoString) (hpre : (10 : Byte) ∉ pre) :
    inputLines (pre ++ 10 :: rest) = dropCR pre :: inputLines rest := by
  have h := Split_append_left pre (10 :: rest) [] (Split rest 10) 10 hpre (Split_cons_sep 10 rest)
  simp only [List.append_nil] at h
  have hne := Split_ne_nil rest 10
  unfold inputLines
  simp only [h]
  obtain ⟨f, fs, hfs⟩ : ∃ f fs, Split rest 10 = f :: fs := by
    cases hs : Split rest 10 with
    | nil => exact absurd hs hne
    | cons f fs => exact ⟨f, fs, rfl⟩
  rw [hfs, List.getLast?_cons_cons]
  by_cases hl : (f :: fs).getLast? = some []
  · rw [if_pos hl, if_pos hl]
    simp [List.dropLast]
  · rw [if_neg hl, if_neg hl]
    simp

/-- The scanner yields the lines of the input in order, up to the first line
that does not fit the buffer; without error it yields them all. -/
theorem scanFrom_tokens (input cur : GoString) (n : Nat) (hn : n = cur.length)
    (hcur : (10 : Byte) ∉ cur) :
    (scanFrom input cur n).tokens <+: inputLines (cur.reverse ++ input) ∧
    ((scanFrom input cur n).err = none →
      (scanFrom input cur n).tokens = inputLines (cur.reverse ++ input)) := by
  induction input generalizing cur n with
  | nil =>
    unfold scanFrom
    simp only [List.append_nil]
    by_cases h0 : n = 0
    · have hc : cur = [] := List.length_eq_zero.mp (by omega)
      subst hc
      simp [h0, inputLines_nil]
    · rw [if_neg h0]
      have hc : cur.reverse ≠ [] := by
        intro h
        rw [List.reverse_eq_nil_iff] at h
        rw [h] at hn
        exact h0 hn
      have hmem : (10 : Byte) ∉ cur.reverse := by simpa using hcur
      rw [inputLines_of_not_mem _ hmem hc]
      by_cases hbig : n ≥ MaxScanTokenSize
      · simp [hbig]
      · simp [hbig]
  | cons c rest ih =>
    unfold scanFrom
    by_cases hbig : n ≥ MaxScanTokenSize
    · simp [hbig]
    · rw [if_neg hbig]
      by_cases hc : c = 10
      · subst hc
        have hmem : (10 : Byte) ∉ cur.reverse := by simpa using hcur
        rw [if_pos rfl, inputLines_append_lf _ _ hmem]
        have := ih [] 0 rfl (by simp)
        simp only [List.reverse_nil, List.nil_append] at this
        refine ⟨?_, ?_⟩
        · simpa [List.prefix_cons_inj] using this.1
        · intro he
          simp only at he ⊢
          rw [this.2 he]
      · rw [if_neg hc]
        have := ih (c :: cur) (n + 1) (by simp [hn]) (by
          intro hm
          rcases List.mem_cons.mp hm with h | h
          · exact hc h.symm
          · exact hcur h)
        simpa using this

theorem scan_tokens_prefix (input : GoString) : (scan input).tokens <+: inputLines input := by
  simpa [scan] using (scanFrom_tokens input [] 0 rfl (by simp)).1

theorem scan_tokens_of_err_none (input : GoString) (h : (scan input).err = none) :
    (scan input).tokens = inputLines input := by
  simpa [scan] using (scanFrom_tokens input [] 0 rfl (by simp)).2 h

theorem linesRead_nil : linesRead [] = [] := by decide

theorem linesRead_of_not_mem (pre : GoString) (hpre : (10 : Byte) ∉ pre) (hne : pre ≠ []) :
    linesRead pre = if pre.length < MaxScanTokenSize then [dropCR pre] else [] := by
  have h := Split_append_left pre [] [] [] 10 hpre (Split_nil 10)
  simp only [List.append_nil] at h
  unfold linesRead
  simp only [h, List.getLast?_singleton, Option.some.injEq, hne, if_false]
  by_cases hl : pre.length < MaxScanTokenSize
  · simp [List.takeWhile, hl]
  · simp [List.takeWhile, hl]

theorem linesRead_append_lf (pre rest : GoString) (hpre : (10 : Byte) ∉ pre) :
    linesRead (pre ++ 10 :: rest) =
      if pre.length < MaxScanTokenSize then dropCR pre :: linesRead rest else [] := by
  have h := Split_append_left pre (10 :: rest) [] (Split rest 10) 10 hpre (Split_cons_sep 10 rest)
  simp only [List.append_nil] at h
  have hne := Split_ne_nil rest 10
  unfold linesRead
  simp only [h]
  obtain ⟨f, fs, hfs⟩ : ∃ f fs, Split rest 10 = f :: fs := by
    cases hs : Split rest 10 with
    | nil => exact absurd hs hne
    | cons f fs => exact ⟨f, fs, rfl⟩
  rw [hfs, List.getLast?_cons_cons]
  by_cases hl : (f :: fs).getLast? = some []
  · rw [if_pos hl, if_pos hl, List.dropLast_cons₂, List.takeWhile_cons]
    by_cases hp : pre.length < MaxScanTokenSize
    · simp [hp]
    · simp [hp]
  · rw [if_neg hl, if_neg hl, List.takeWhile_cons]
    by_cases hp : pre.length < MaxScanTokenSize
    · simp [hp]
    · simp [hp]

theorem linesRead_long (pre s : GoString) (hpre : (10 : Byte) ∉ pre)
    (hlen : MaxScanTokenSize ≤ pre.length) : linesRead (pre ++ s) = [] := by
  obtain ⟨f, fs, hfs⟩ : ∃ f fs, Split s 10 = f :: fs := by
    cases hs : Split s 10 with
    | nil => exact absurd hs (Split_ne_nil s 10)
    | cons f fs => exact ⟨f, fs, rfl⟩
  have h := Split_append_left pre s f fs 10 hpre hfs
  have hp : ¬ (pre ++ f).length < MaxScanTokenSize := by
    rw [List.length_append]
    omega
  have hne : pre ++ f ≠ [] := by
    intro e
    have := congrArg List.length e
    rw [List.length_append] at this
    simp only [List.length_nil] at this
    unfold MaxScanTokenSize at hlen
    omega
  have hd : decide ((pre ++ f).length < MaxScanTokenSize) = false := decide_eq_false hp
  unfold linesRead
  simp only [h]
  cases fs with
  | nil =>
    simp only [List.getLast?_singleton, Option.some.injEq, hne, if_false]
    simp only [List.takeWhile_cons, hd, Bool.false_eq_true, if_false, List.map_nil]
  | cons g gs =>
    rw [List.getLast?_cons_cons, List.dropLast_cons₂]
    split_ifs <;>
      simp only [List.takeWhile_cons, hd, Bool.false_eq_true, if_false, List.map_nil]

/-- The scanner yields the lines read, in order. -/
theorem scanFrom_linesRead (input cur : GoString) (n : Nat) (hn : n = cur.length)
    (hcur : (10 : Byte) ∉ cur) :
    (scanFrom input cur n).tokens = linesRead (cur.reverse ++ input) := by
  have hmem : (10 : Byte) ∉ cur.reverse := by simpa using hcur
  have hlen : cur.reverse.length = n := by rw [List.length_reverse, hn]
  induction input generalizing cur n with
  | nil =>
    unfold scanFrom
    simp only [List.append_nil]
    by_cases h0 : n = 0
    · have hc : cur = [] := List.length_eq_zero.mp (by omega)
      subst hc
      simp [h0, linesRead_nil]
    · rw [if_neg h0]
      have hc : cur.reverse ≠ [] := by
        intro h
        rw [h] at hlen
        exact h0 hlen.symm
      rw [linesRead_of_not_mem _ hmem hc, hlen]
      by_cases hbig : n ≥ MaxScanTokenSize
      · rw [if_pos hbig, if_neg (by omega)]
      · rw [if_neg hbig, if_pos (by omega)]
  | cons c rest ih =>
    unfold scanFrom
    by_cases hbig : n ≥ MaxScanTokenSize
    · rw [if_pos hbig, linesRead_long _ _ hmem (by omega)]
    · rw [if_neg hbig]
      by_cases hc : c = 10
      · subst hc
        rw [if_pos rfl, linesRead_append_lf _ _ hmem, hlen, if_pos (by omega)]
        have := ih [] 0 rfl (by simp) (by simp) rfl
        simp only [List.reverse_nil, List.nil_append] at this
        simp only [this]
      · rw [if_neg hc]
        have hcur2 : (10 : Byte) ∉ c :: cur := by
          intro hm
          rcases List.mem_cons.mp hm with h | h
          · exact hc h.symm
          · exact hcur h
        have := ih (c :: cur) (n + 1) (by simp [hn]) hcur2
          (by rw [List.mem_reverse]; exact hcur2) (by simp [hn])
        simpa using this

theorem scan_tokens_linesRead (input : GoString) : (scan input).tokens = linesRead input := by
  simpa [scan] using scanFrom_linesRead input [] 0 rfl (by simp)

/-! ## The pipeline driver -/

theorem processLines_records (tz : Location) (epochOnly : Bool) (tokens : List GoString) (n : Nat)
    (out : Output) :
    (processLines tz epochOnly tokens n out).records =
      out.records ++ tokens.filterMap (rowOfLine tz epochOnly) := by
  induction tokens generalizing n out with
  | nil => simp [processLines]
  | cons text rest ih =>
    unfold processLines
    simp only
    by_cases he : TrimSpace text = []
    · rw [if_pos he, ih]
      simp [rowOfLine, he]
    · rw [if_neg he]
      cases hp : parseBodyfileLine tz (TrimSpace text) with
      | error e =>
        simp only [ih]
        simp [rowOfLine, he, hp]
      | ok entry =>
        simp only [ih]
        simp [rowOfLine, he, hp]

theorem processLines_err (tz : Location) (epochOnly : Bool) (tokens : List GoString) (n : Nat)
    (out : Output) : (processLines tz epochOnly tokens n out).err = out.err := by
  induction tokens generalizing n out with
  | nil => simp [processLines]
  | cons text rest ih =>
    unfold processLines
    simp only
    by_cases he : TrimSpace text = []
    · rw [if_pos he, ih]
    · rw [if_neg he]
      cases hp : parseBodyfileLine tz (TrimSpace text) with
      | error e => simp only [ih]
      | ok entry => simp only [ih]

/-- The records of a run: the header, then the rows of the lines the scanner
yielded, in order. -/
theorem convertBodyfileToCSV_records (tz : Location) (input : GoString) (epochOnly : Bool) :
    (convertBodyfileToCSV tz input epochOnly).records =
      header :: (scan input).tokens.filterMap (rowOfLine tz epochOnly) := by
  unfold convertBodyfileToCSV
  simp only
  cases (scan input).err <;> simp [processLines_records tz]

theorem convertBodyfileToCSV_err (tz : Location) (input : GoString) (epochOnly : Bool) :
    (convertBodyfileToCSV tz input epochOnly).err = none ↔ (scan input).err = none := by
  unfold convertBodyfileToCSV
  simp only
  cases (scan input).err <;> simp [processLines_err tz]

theorem rowOfLine_isSome (tz : Location) (epochOnly : Bool) (text : GoString) :
    (rowOfLine tz epochOnly text).isSome = lineAccepted tz text := by
  unfold rowOfLine lineAccepted
  by_cases he : TrimSpace text = []
  · simp [he]
  · cases hp : parseBodyfileLine tz (TrimSpace text) <;> simp [he, hp]

theorem length_filterMap_rowOfLine (tz : Location) (epochOnly : Bool) (lines : List GoString) :
    (lines.filterMap (rowOfLine tz epochOnly)).length = (lines.filter (lineAccepted tz)).length := by
  induction lines with
  | nil => rfl
  | cons t ts ih =>
    have h := rowOfLine_isSome tz epochOnly t
    cases hr : rowOfLine tz epochOnly t with
    | none =>
      rw [hr] at h
      simp only [Option.isSome_none] at h
      simp [List.filterMap_cons, hr, ← h, ih]
    | some r =>
      rw [hr] at h
      simp only [Option.isSome_some] at h
      simp [List.filterMap_cons, hr, ← h, ih]

/-- C7: in either mode, when the run ends without error, the number of records
written is 1, for the header, plus the number of input lines that are not
empty after trimming and that `parseBodyfileLine` accepts. -/
theorem convertBodyfileToCSV_record_count (tz : Location) (input : GoString) (epochOnly : Bool)
    (h : (convertBodyfileToCSV tz input epochOnly).err = none) :
    (convertBodyfileToCSV tz input epochOnly).records.length =
      1 + ((inputLines input).filter (lineAccepted tz)).length := by
  rw [convertBodyfileToCSV_records tz,
    scan_tokens_of_err_none input ((convertBodyfileToCSV_err tz input epochOnly).1 h)]
  simp only [List.length_cons, length_filterMap_rowOfLine tz]
  omega

/-- C7 on a text of five lines, of which two are accepted: three records. -/
theorem convertBodyfileToCSV_record_count_witness :
    (convertBodyfileToCSV CET (ascii "0|a|1|2|3|4|5|6|7|8|9\r\n\n1|2|3\n \n0|b|1|2|3|4|5|6|7|8") false).err
      = none ∧
    (convertBodyfileToCSV CET (ascii "0|a|1|2|3|4|5|6|7|8|9\r\n\n1|2|3\n \n0|b|1|2|3|4|5|6|7|8") false).records.length
      = 1 + ((inputLines (ascii "0|a|1|2|3|4|5|6|7|8|9\r\n\n1|2|3\n \n0|b|1|2|3|4|5|6|7|8")).filter
          (lineAccepted CET)).length ∧
    (inputLines (ascii "0|a|1|2|3|4|5|6|7|8|9\r\n\n1|2|3\n \n0|b|1|2|3|4|5|6|7|8")).length = 5 ∧
    ((inputLines (ascii "0|a|1|2|3|4|5|6|7|8|9\r\n\n1|2|3\n \n0|b|1|2|3|4|5|6|7|8")).filter
          (lineAccepted CET)).length = 2 :=
  ⟨by decide, convertBodyfileToCSV_record_count CET _ _ (by decide), by decide, by decide⟩

theorem getElem?_filterMap_rowOfLine (tz : Location) (epochOnly : Bool) (lines : List GoString) (i : Nat)
    (t : GoString) (r : List GoString) (ht : lines[i]? = some t)
    (hr : rowOfLine tz epochOnly t = some r) :
    (header :: lines.filterMap (rowOfLine tz epochOnly))[rowIndex tz lines i]? = some r := by
  have hi : i < lines.length := by
    by_contra hge
    rw [List.getElem?_eq_none (by omega)] at ht
    cases ht
  have hsplit : lines = lines.take i ++ t :: lines.drop (i + 1) := by
    have h1 : lines[i] = t := by
      rw [List.getElem?_eq_getElem hi] at ht
      exact Option.some.inj ht
    rw [← h1, List.getElem_cons_drop, List.take_append_drop]
  have hidx : rowIndex tz lines i = ((lines.take i).filterMap (rowOfLine tz epochOnly)).length + 1 := by
    rw [rowIndex, length_filterMap_rowOfLine tz]
    omega
  rw [hidx, List.getElem?_cons_succ]
  have key : ((lines.take i ++ t :: lines.drop (i + 1)).filterMap (rowOfLine tz epochOnly))[
      ((lines.take i).filterMap (rowOfLine tz epochOnly)).length]? = some r := by
    rw [List.filterMap_append, List.filterMap_cons, hr,
      List.getElem?_append_right (Nat.le_refl _)]
    simp
  rw [← hsplit] at key
  exact key

theorem rowIndex_lt (tz : Location) (lines : List GoString) (i j : Nat) (t : GoString) (hij : i < j)
    (ht : lines[i]? = some t) (ha : lineAccepted tz t = true) :
    rowIndex tz lines i < rowIndex tz lines j := by
  have hi : i < lines.length := by
    by_contra hge
    rw [List.getElem?_eq_none (by omega)] at ht
    cases ht
  have h1 : lines[i] = t := by
    rw [List.getElem?_eq_getElem hi] at ht
    exact Option.some.inj ht
  have hstep : lines.take (i + 1) = lines.take i ++ [t] := by
    rw [← h1, List.take_succ, List.getElem?_eq_getElem hi]
    rfl
  have hpre : lines.take (i + 1) <+: lines.take j := by
    rw [List.prefix_iff_eq_take]
    rw [List.length_take, List.take_take]
    congr 1
    omega
  have hsub : (lines.take (i + 1)).filter (lineAccepted tz) <+: (lines.take j).filter (lineAccepted tz) :=
    List.IsPrefix.filter _ hpre
  have hlen := hsub.length_le
  rw [hstep, List.filter_append, List.length_append] at hlen
  simp only [List.filter_cons, ha, if_true, List.filter_nil, List.length_singleton] at hlen
  unfold rowIndex
  omega

/-- C8, as amended: the records after the header are the rows of the lines
the run reads, taken in line order: the row of an accepted line stands at the
index that counts the header and the accepted lines before it, so of two
accepted lines the row of the earlier one comes first, whatever lines lie
between them.  The lines read are the lines of the input before the first line
of 65536 bytes or more: all the lines of the input when the run ends without
error, and for every input a prefix of them. -/
theorem convertBodyfileToCSV_rows_in_line_order (tz : Location) (input : GoString)
    (epochOnly : Bool) :
    linesRead input <+: inputLines input ∧
    ((convertBodyfileToCSV tz input epochOnly).err = none → linesRead input = inputLines input) ∧
    (convertBodyfileToCSV tz input epochOnly).records =
      header :: (linesRead input).filterMap (rowOfLine tz epochOnly) ∧
    (∀ (i : Nat) (t : GoString) (r : List GoString),
      (linesRead input)[i]? = some t → rowOfLine tz epochOnly t = some r →
      (convertBodyfileToCSV tz input epochOnly).records[rowIndex tz (linesRead input) i]? =
        some r) ∧
    (∀ (i j : Nat) (ti tj : GoString), i < j →
      (linesRead input)[i]? = some ti → (linesRead input)[j]? = some tj →
      lineAccepted tz ti = true → lineAccepted tz tj = true →
      rowIndex tz (linesRead input) i < rowIndex tz (linesRead input) j) := by
  rw [← scan_tokens_linesRead input]
  refine ⟨ scan_tokens_prefix input, ?_,
    convertBodyfileToCSV_records tz input epochOnly, ?_, ?_⟩
  · intro h
    exact scan_tokens_of_err_none input ((convertBodyfileToCSV_err tz input epochOnly).1 h)
  · intro i t r ht hr
    rw [convertBodyfileToCSV_records tz]
    exact getElem?_filterMap_rowOfLine tz epochOnly _ i t r ht hr
  · intro i j ti tj hij hti _ hai _
    exact rowIndex_lt tz _ i j ti hij hti hai

/-! ## The two output modes -/

theorem rowOfLine_length (tz : Location) (epochOnly : Bool) (text : GoString) (r : List GoString)
    (h : rowOfLine tz epochOnly text = some r) : r.length = 11 := by
  unfold rowOfLine at h
  split at h
  · cases h
  · split at h
    · injection h with h
      subst h
      cases epochOnly <;> simp [recordOf]
    · cases h

theorem rowOfLine_take_seven (tz : Location) (text : GoString) :
    (rowOfLine tz false text).map (List.take 7) = (rowOfLine tz true text).map (List.take 7) := by
  unfold rowOfLine
  split
  · rfl
  · split
    · simp [recordOf]
    · rfl

theorem filterMap_rowOfLine_take_seven (tz : Location) (lines : List GoString) :
    (lines.filterMap (rowOfLine tz false)).map (List.take 7) =
      (lines.filterMap (rowOfLine tz true)).map (List.take 7) := by
  induction lines with
  | nil => rfl
  | cons t ts ih =>
    have h := rowOfLine_take_seven tz t
    cases h1 : rowOfLine tz false t with
    | none =>
      cases h2 : rowOfLine tz true t with
      | none => simp [List.filterMap_cons, h1, h2, ih]
      | some r2 => rw [h1, h2] at h; cases h
    | some r1 =>
      cases h2 : rowOfLine tz true t with
      | none => rw [h1, h2] at h; cases h
      | some r2 =>
        rw [h1, h2] at h
        simp only [Option.map_some'] at h
        simp [List.filterMap_cons, h1, h2, ih, Option.some.inj h]

theorem header_length : header.length = 11 := by decide

theorem records_length (tz : Location) (input : GoString) (epochOnly : Bool) (r : List GoString)
    (h : r ∈ (convertBodyfileToCSV tz input epochOnly).records) : r.length = 11 := by
  rw [convertBodyfileToCSV_records tz] at h
  rcases List.mem_cons.mp h with h | h
  · rw [h]; exact header_length
  · obtain ⟨t, -, ht⟩ := List.mem_filterMap.mp h
    exact rowOfLine_length tz epochOnly t r ht

/-- C10: the output in human mode and the output in epoch mode of the same
input have the same number of records and the same header, and at every index
their records agree on columns 0 to 6; every record has 11 columns, so the two
outputs differ at most in the last four columns of the rows. -/
theorem convertBodyfileToCSV_modes_agree (tz : Location) (input : GoString) :
    (convertBodyfileToCSV tz input false).records.length =
      (convertBodyfileToCSV tz input true).records.length ∧
    (convertBodyfileToCSV tz input false).records[0]? = some header ∧
    (convertBodyfileToCSV tz input true).records[0]? = some header ∧
    (∀ (i : Nat) (rh : List GoString), (convertBodyfileToCSV tz input false).records[i]? = some rh →
      ∃ re, (convertBodyfileToCSV tz input true).records[i]? = some re ∧
        rh.take 7 = re.take 7 ∧ rh.length = 11 ∧ re.length = 11) := by
  have hmap : (convertBodyfileToCSV tz input false).records.map (List.take 7) =
      (convertBodyfileToCSV tz input true).records.map (List.take 7) := by
    rw [convertBodyfileToCSV_records tz, convertBodyfileToCSV_records tz, List.map_cons, List.map_cons,
      filterMap_rowOfLine_take_seven tz]
  refine ⟨?_, ?_, ?_, ?_⟩
  · have := congrArg List.length hmap
    simpa using this
  · rw [convertBodyfileToCSV_records tz]; simp
  · rw [convertBodyfileToCSV_records tz]; simp
  · intro i rh hi
    have h1 : ((convertBodyfileToCSV tz input false).records.map (List.take 7))[i]? =
        some (rh.take 7) := by
      rw [List.getElem?_map, hi]; rfl
    rw [hmap, List.getElem?_map] at h1
    cases hre : (convertBodyfileToCSV tz input true).records[i]? with
    | none => rw [hre] at h1; cases h1
    | some re =>
      rw [hre] at h1
      simp only [Option.map_some', Option.some.injEq] at h1
      exact ⟨re, rfl, h1.symm, records_length tz input false rh (List.getElem?_mem hi),
        records_length tz input true re (List.getElem?_mem hre)⟩

/-! ## Civil dates -/

/-- The closed form `daysBeforeYear` counts 365 days for a common year and 366
for a leap year, from 1970. -/
theorem daysBeforeYear_succ (Y : Int) :
    daysBeforeYear 1970 = 0 ∧
    daysBeforeYear (Y + 1) = daysBeforeYear Y + (if isLeapYear Y then 366 else 365) := by
  constructor
  · decide
  · unfold daysBeforeYear leapYearsBefore isLeapYear
    by_cases h4 : Y % 4 = 0 <;> by_cases h100 : Y % 100 = 0 <;> by_cases h400 : Y % 400 = 0 <;>
      simp [h4, h100, h400] <;> omega

/-- The days of the months before month `M` and the day of the month that
`monthDay` computes make up the day of the year. -/
theorem monthDay_spec (leap : Bool) :
    ∀ yday, yday < (if leap then 366 else 365) →
      1 ≤ (monthDay leap yday).1 ∧ (monthDay leap yday).1 ≤ 12 ∧
      1 ≤ (monthDay leap yday).2 ∧
      (monthDay leap yday).2 ≤ monthLength leap (monthDay leap yday).1 ∧
      daysBeforeMonth leap (monthDay leap yday).1 + (monthDay leap yday).2 = yday + 1 := by
  cases leap
  · decide
  · decide

theorem tmod_eq_zero_iff (a b : Int) : a.tmod b = 0 ↔ a % b = 0 := by
  rw [← Int.dvd_iff_tmod_eq_zero, Int.dvd_iff_emod_eq_zero]

/-- Go's `isLeap`, with the truncating `%`, is the leap year rule. -/
theorem isLeap_eq_isLeapYear (Y : Int) : isLeap Y = isLeapYear Y := by
  unfold isLeap isLeapYear
  simp only [ne_eq, tmod_eq_zero_iff]

/-- The arithmetic of `absYearDay`: the cycles of 400, 100, 4 and 1 years cut
off the day count leave the day of the year, and the years cut off are the
years whose days were cut off. -/
theorem absYearDay_core (d n400 d1 j n100 d2 n4 d3 g n1 yday y : Nat)
    (h1 : n400 = d / 146097)
    (h2 : d1 = d - 146097 * n400)
    (hj : j = d1 / 36524)
    (h3 : n100 = j - j / 4)
    (h4 : d2 = d1 - 36524 * n100)
    (h5 : n4 = d2 / 1461)
    (h6 : d3 = d2 - 1461 * n4)
    (hg : g = d3 / 365)
    (h7 : n1 = g - g / 4)
    (h8 : yday = d3 - 365 * n1)
    (h9 : y = 400 * n400 + 100 * n100 + 4 * n4 + n1) :
    d = 365 * y + y / 4 - y / 100 + y / 400 + yday ∧
    (yday < 365 ∨ (yday = 365 ∧ (y + 1) % 4 = 0 ∧ ((y + 1) % 100 ≠ 0 ∨ (y + 1) % 400 = 0))) := by
  have a1 : d = 146097 * n400 + d1 ∧ d1 < 146097 := by omega
  have b1 : d1 = 36524 * n100 + d2 ∧ n100 ≤ 3 ∧ (d2 < 36524 ∨ (n100 = 3 ∧ d2 = 36524)) := by
    have hj4 : j ≤ 4 := by omega
    interval_cases j <;> omega
  have c1 : d2 = 1461 * n4 + d3 ∧ d3 < 1461 ∧ n4 ≤ 24 := by omega
  have d1' : d3 = 365 * n1 + yday ∧ n1 ≤ 3 ∧ (yday < 365 ∨ (n1 = 3 ∧ yday = 365)) := by
    have hg4 : g ≤ 4 := by omega
    interval_cases g <;> omega
  have e4 : y / 4 = 100 * n400 + 25 * n100 + n4 := by omega
  have e100 : y / 100 = 4 * n400 + n100 := by omega
  have e400 : y / 400 = n400 := by omega
  refine ⟨by omega, ?_⟩
  rcases d1'.2.2 with hlt | ⟨hn1, hyd⟩
  · exact Or.inl hlt
  · refine Or.inr ⟨hyd, by omega, ?_⟩
    by_cases h24 : n4 = 24
    · right
      have : n100 = 3 := by omega
      omega
    · left
      omega

theorem absYearDay_spec (abs : Nat) :
    abs / 86400 = 365 * (absYearDay abs).1 + (absYearDay abs).1 / 4 - (absYearDay abs).1 / 100 +
      (absYearDay abs).1 / 400 + (absYearDay abs).2 ∧
    ((absYearDay abs).2 < 365 ∨ ((absYearDay abs).2 = 365 ∧ ((absYearDay abs).1 + 1) % 4 = 0 ∧
      (((absYearDay abs).1 + 1) % 100 ≠ 0 ∨ ((absYearDay abs).1 + 1) % 400 = 0))) := by
  have h := absYearDay_core (abs / 86400) _ _ _ _ _ _ _ _ _ (absYearDay abs).2 (absYearDay abs).1
    rfl rfl rfl rfl rfl rfl rfl rfl rfl rfl
  exact h (by simp only [absYearDay, secondsPerDay, daysPer400Years, daysPer100Years,
    daysPer4Years])

/-- What `Format` writes without `UTC()` is the civil time of the zone of the
host: on a host one hour east of UTC the second 1700000000 is 23:13:20, and
22:13:20 after `UTC()`. -/
theorem Format_in_host_zone :
    (Time.Unix CET 1700000000).Format layout = ascii "2023-11-14 23:13:20 UTC" ∧
    ((Time.Unix CET 1700000000).UTC).Format layout = ascii "2023-11-14 22:13:20 UTC" := by
  decide

/-- The absolute time, after `UTC()`, of a Unix time between year 0 and year
9999, whatever the zone of the host. -/
theorem abs_Unix (tz : Location) (e : Int) (hlo : -62167219200 ≤ e) (hhi : e ≤ 253402300799) :
    (((Time.Unix tz e).UTC).abs : Int) = e + 9223372028715321600 := by
  simp only [Time.abs, Time.UTC, Time.unixSec, Time.Unix, wrapInt64, internalToUnix,
    unixToInternal, internalToAbsolute]
  norm_num
  omega

theorem absClock_spec (abs : Nat) :
    (absClock abs).1 < 24 ∧ (absClock abs).2.1 < 60 ∧ (absClock abs).2.2 < 60 ∧
    (absClock abs).1 * 3600 + (absClock abs).2.1 * 60 + (absClock abs).2.2 = abs % 86400 := by
  simp only [absClock, secondsPerDay]
  omega

/-- The number of days before the year that lies `y` years after the absolute
zero year. -/
theorem yearStart_succ (y : Nat) :
    365 * (y + 1) + (y + 1) / 4 - (y + 1) / 100 + (y + 1) / 400 =
      365 * y + y / 4 - y / 100 + y / 400 +
        (if (y + 1) % 4 = 0 ∧ ((y + 1) % 100 ≠ 0 ∨ (y + 1) % 400 = 0) then 366 else 365) := by
  have s4 : (y + 1) / 4 = y / 4 + (if (y + 1) % 4 = 0 then 1 else 0) := by
    split <;> omega
  have s100 : (y + 1) / 100 = y / 100 + (if (y + 1) % 100 = 0 then 1 else 0) := by
    split <;> omega
  have s400 : (y + 1) / 400 = y / 400 + (if (y + 1) % 400 = 0 then 1 else 0) := by
    split <;> omega
  have hsub : y / 100 ≤ y / 4 := by omega
  have i1 : (y + 1) % 400 = 0 → (y + 1) % 100 = 0 := by omega
  have i2 : (y + 1) % 100 = 0 → (y + 1) % 4 = 0 := by omega
  rw [s4, s100, s400]
  generalize y / 4 = b4 at *
  generalize y / 100 = b100 at *
  generalize y / 400 = b400 at *
  by_cases h4 : (y + 1) % 4 = 0
  · by_cases h100 : (y + 1) % 100 = 0
    · by_cases h400 : (y + 1) % 400 = 0
      · rw [if_pos h4, if_pos h100, if_pos h400, if_pos ⟨h4, Or.inr h400⟩]
        omega
      · rw [if_pos h4, if_pos h100, if_neg h400, if_neg (by tauto)]
        omega
    · have h400 : ¬ (y + 1) % 400 = 0 := fun h => h100 (i1 h)
      rw [if_pos h4, if_neg h100, if_neg h400, if_pos ⟨h4, Or.inl h100⟩]
      omega
  · have h100 : ¬ (y + 1) % 100 = 0 := fun h => h4 (i2 h)
    have h400 : ¬ (y + 1) % 400 = 0 := fun h => h100 (i1 h)
    rw [if_neg h4, if_neg h100, if_neg h400, if_neg (by tauto)]
    omega

theorem yearStart_mono (a b : Nat) (h : a ≤ b) :
    365 * a + a / 4 - a / 100 + a / 400 ≤ 365 * b + b / 4 - b / 100 + b / 400 := by
  induction b with
  | zero =>
    have : a = 0 := by omega
    subst this
    exact Nat.le_refl _
  | succ b ih =>
    by_cases hab : a = b + 1
    · subst hab
      exact Nat.le_refl _
    · have h1 := ih (by omega)
      have h2 := yearStart_succ b
      have h3 : 365 ≤ (if (b + 1) % 4 = 0 ∧ ((b + 1) % 100 ≠ 0 ∨ (b + 1) % 400 = 0)
          then 366 else 365) := by split <;> omega
      omega

/-- The date `absDate` computes for a Unix time between year 0 and year 9999
is the Gregorian date of its day: a year from 0 to 9999, a month from 1 to 12,
a day of that month, and the day count from 1970-01-01 of that date is the day
count of the Unix time. -/
theorem absDate_spec (e : Int) (abs : Nat) (habs : (abs : Int) = e + 9223372028715321600)
    (hlo : -62167219200 ≤ e) (hhi : e ≤ 253402300799) :
    ∃ Y : Nat, (absDate abs).1 = (Y : Int) ∧ Y ≤ 9999 ∧
      1 ≤ (absDate abs).2.1 ∧ (absDate abs).2.1 ≤ 12 ∧
      1 ≤ (absDate abs).2.2.1 ∧ (absDate abs).2.2.1 ≤ daysInMonth Y (absDate abs).2.1 ∧
      daysFromEpoch Y (absDate abs).2.1 (absDate abs).2.2.1 * 86400 + (abs % 86400 : Nat) = e := by
  obtain ⟨hd, hy⟩ := absYearDay_spec abs
  generalize hyv : (absYearDay abs).1 = y at hd hy
  generalize hydv : (absYearDay abs).2 = yday at hd hy
  have hmod := Nat.div_add_mod abs 86400
  have hmodlt := Nat.mod_lt abs (show 86400 > 0 by norm_num)
  have hdlo : 106751990353566 ≤ abs / 86400 := by omega
  have hdhi : abs / 86400 ≤ 106751994005990 := by omega
  have hnext : 365 * y + y / 4 - y / 100 + y / 400 + yday + 1 ≤
      365 * (y + 1) + (y + 1) / 4 - (y + 1) / 100 + (y + 1) / 400 := by
    rw [yearStart_succ]
    rcases hy with h | ⟨h1, h2⟩
    · split <;> omega
    · rw [if_pos h2]
      omega
  have hylo : 292277022399 ≤ y := by
    by_contra hlt
    have h1 := yearStart_mono (y + 1) 292277022399 (by omega)
    norm_num at h1
    omega
  have hyhi : y ≤ 292277022399 + 9999 := by
    by_contra hgt
    have h1 := yearStart_mono (292277022399 + 10000) y (by omega)
    norm_num at h1
    omega
  have hyear : (absDate abs).1 = ((y - 292277022399 : Nat) : Int) := by
    simp only [absDate, hyv, absoluteZeroYear]
    omega
  refine ⟨y - 292277022399, hyear, by omega, ?_⟩
  have hleap : isLeap (absDate abs).1 = isLeapYear ((y - 292277022399 : Nat) : Int) := by
    rw [isLeap_eq_isLeapYear, hyear]
  have hleap2 : isLeapYear ((y - 292277022399 : Nat) : Int) = true ↔
      ((y + 1) % 4 = 0 ∧ ((y + 1) % 100 ≠ 0 ∨ (y + 1) % 400 = 0)) := by
    simp only [isLeapYear, decide_eq_true_eq]
    omega
  have hm : (absDate abs).2.1 =
      (monthDay (isLeapYear ((y - 292277022399 : Nat) : Int)) yday).1 := by
    rw [← hleap]
    simp only [absDate, hydv]
  have hdd : (absDate abs).2.2.1 =
      (monthDay (isLeapYear ((y - 292277022399 : Nat) : Int)) yday).2 := by
    rw [← hleap]
    simp only [absDate, hydv]
  have hyd : yday < (if isLeapYear ((y - 292277022399 : Nat) : Int) then 366 else 365) := by
    rcases hy with h | ⟨h1, h2⟩
    · split <;> omega
    · rw [if_pos (hleap2.2 h2)]
      omega
  obtain ⟨m1, m2, m3, m4, m5⟩ := monthDay_spec _ yday hyd
  rw [hm, hdd]
  refine ⟨m1, m2, m3, m4, ?_⟩
  unfold daysFromEpoch daysBeforeYear leapYearsBefore
  generalize (monthDay (isLeapYear ((y - 292277022399 : Nat) : Int)) yday).2 = dd at m3 m4 m5 ⊢
  generalize daysBeforeMonth (isLeapYear ((y - 292277022399 : Nat) : Int))
    (monthDay (isLeapYear ((y - 292277022399 : Nat) : Int)) yday).1 = dbm at m5 ⊢
  have hY : ((y - 292277022399 : Nat) : Int) = (y : Int) - 292277022399 := by omega
  rw [hY]
  have e4 : ((y : Int) - 292277022399 - 1) / 4 = (y : Int) / 4 - 73069255600 := by omega
  have e100 : ((y : Int) - 292277022399 - 1) / 100 = (y : Int) / 100 - 2922770224 := by omega
  have e400 : ((y : Int) - 292277022399 - 1) / 400 = (y : Int) / 400 - 730692556 := by omega
  rw [e4, e100, e400]
  have hsub : y / 100 ≤ y / 4 := by omega
  have hdI : (abs : Int) / 86400 =
      365 * (y : Int) + (y : Int) / 4 - (y : Int) / 100 + (y : Int) / 400 + (yday : Int) := by
    omega
  have hmodI := Int.ediv_add_emod (abs : Int) 86400
  have hdbm : (dbm : Int) + (dd : Int) = (yday : Int) + 1 := by exact_mod_cast m5
  norm_num
  generalize (abs : Int) / 86400 = q at hdI hmodI
  generalize (abs : Int) % 86400 = r at hmodI ⊢
  generalize (y : Int) / 4 = y4 at hdI ⊢
  generalize (y : Int) / 100 = y100 at hdI ⊢
  generalize (y : Int) / 400 = y400 at hdI ⊢
  linarith

/-! ## Decimal digits -/

theorem digit_val (n : Nat) : ((Fin.ofNat (48 + n % 10) : Byte) : Nat) = 48 + n % 10 := by
  show (48 + n % 10) % 256 = 48 + n % 10
  omega

theorem isDigit_digit (n : Nat) : isDigit (Fin.ofNat (48 + n % 10) : Byte) = true := by
  simp only [isDigit, digit_val, Bool.and_eq_true, decide_eq_true_eq]
  omega

/-- The digits do not depend on the bound on their number, once it is above
the number, and go in front of the accumulator. -/
theorem decimalDigitsAux_eq (n : Nat) : ∀ (fuel : Nat) (acc : GoString), n < fuel →
    decimalDigitsAux fuel n acc = decimalDigitsAux (n + 1) n [] ++ acc := by
  induction n using Nat.strong_induction_on with
  | _ n ih =>
    intro fuel acc hf
    obtain ⟨f, rfl⟩ : ∃ f, fuel = f + 1 := ⟨fuel - 1, by omega⟩
    rw [decimalDigitsAux, decimalDigitsAux]
    by_cases h0 : n / 10 = 0
    · simp [h0]
    · simp only [h0, if_false]
      rw [ih (n / 10) (by omega) f _ (by omega), ih (n / 10) (by omega) n _ (by omega)]
      simp

/-- The decimal digits of a number: its last digit after the digits of its
tenth. -/
theorem formatUint_rec (n : Nat) :
    formatUint n =
      if n < 10 then [Fin.ofNat (48 + n % 10)]
      else formatUint (n / 10) ++ [Fin.ofNat (48 + n % 10)] := by
  unfold formatUint
  rw [decimalDigitsAux]
  by_cases h : n < 10
  · have h0 : n / 10 = 0 := by omega
    simp [h0, h]
  · have h0 : ¬ n / 10 = 0 := by omega
    simp only [h0, if_false, h]
    exact decimalDigitsAux_eq (n / 10) n _ (by omega)

theorem formatUint_ne_nil (n : Nat) : formatUint n ≠ [] := by
  rw [formatUint_rec]
  split <;> simp

theorem formatUint_all_isDigit (n : Nat) : (formatUint n).all isDigit = true := by
  induction n using Nat.strong_induction_on with
  | _ n ih =>
    rw [formatUint_rec]
    by_cases h : n < 10
    · simp [h, isDigit_digit]
    · simp only [h, if_false, List.all_append, ih (n / 10) (by omega), Bool.true_and]
      simp [isDigit_digit]

theorem decimalValue_append_singleton (ds : GoString) (c : Byte) :
    decimalValue (ds ++ [c]) = decimalValue ds * 10 + (c.val - 48) := by
  simp [decimalValue, List.foldl_append]

theorem decimalValue_formatUint (n : Nat) : decimalValue (formatUint n) = n := by
  induction n using Nat.strong_induction_on with
  | _ n ih =>
    rw [formatUint_rec]
    by_cases h : n < 10
    · rw [if_pos h]
      simp only [decimalValue, List.foldl_cons, List.foldl_nil, digit_val]
      omega
    · rw [if_neg h, decimalValue_append_singleton, ih (n / 10) (by omega), digit_val]
      omega

/-- Reading back the decimal form of an integer of 64 bits gives the integer. -/
theorem ParseInt_FormatInt (e : Int) (h : inInt64 e) : ParseInt (FormatInt e) = .ok e := by
  rw [ParseInt_eq_ok_iff]
  refine ⟨?_, h⟩
  unfold FormatInt
  by_cases hneg : e < 0
  · rw [if_pos hneg, signedDecimal_cons, if_pos rfl,
      if_pos ⟨formatUint_ne_nil _, formatUint_all_isDigit _⟩, decimalValue_formatUint]
    congr 1
    omega
  · rw [if_neg hneg]
    have hall := formatUint_all_isDigit e.toNat
    have hval := decimalValue_formatUint e.toNat
    cases hf : formatUint e.toNat with
    | nil => exact absurd hf (formatUint_ne_nil _)
    | cons c rest =>
      rw [hf] at hall hval
      have hc : isDigit c = true := by
        simp only [List.all_cons, Bool.and_eq_true] at hall
        exact hall.1
      have hc45 : c ≠ 45 := by
        intro h45
        rw [h45] at hc
        revert hc
        decide
      have hc43 : c ≠ 43 := by
        intro h43
        rw [h43] at hc
        revert hc
        decide
      rw [signedDecimal_cons, if_neg hc45, if_neg hc43, if_pos hall, hval]
      congr 1
      omega

theorem formatUint_one (n : Nat) (h : n < 10) : formatUint n = [Fin.ofNat (48 + n % 10)] := by
  rw [formatUint_rec, if_pos h]

theorem formatUint_two (n : Nat) (h1 : 10 ≤ n) (h2 : n < 100) :
    formatUint n = [Fin.ofNat (48 + n / 10 % 10), Fin.ofNat (48 + n % 10)] := by
  rw [formatUint_rec, if_neg (by omega), formatUint_one (n / 10) (by omega)]
  rfl

theorem formatUint_three (n : Nat) (h1 : 100 ≤ n) (h2 : n < 1000) :
    formatUint n =
      [Fin.ofNat (48 + n / 100 % 10), Fin.ofNat (48 + n / 10 % 10), Fin.ofNat (48 + n % 10)] := by
  rw [formatUint_rec, if_neg (by omega), formatUint_two (n / 10) (by omega) (by omega),
    Nat.div_div_eq_div_mul]
  rfl

theorem formatUint_four (n : Nat) (h1 : 1000 ≤ n) (h2 : n < 10000) :
    formatUint n =
      [Fin.ofNat (48 + n / 1000 % 10), Fin.ofNat (48 + n / 100 % 10),
        Fin.ofNat (48 + n / 10 % 10), Fin.ofNat (48 + n % 10)] := by
  rw [formatUint_rec, if_neg (by omega), formatUint_three (n / 10) (by omega) (by omega),
    Nat.div_div_eq_div_mul, Nat.div_div_eq_div_mul]
  rfl

theorem padDigits_two (n : Nat) :
    padDigits 2 n = [Fin.ofNat (48 + n / 10 % 10), Fin.ofNat (48 + n % 10)] := by
  simp [padDigits, List.range_succ]

theorem padDigits_four (n : Nat) :
    padDigits 4 n = [Fin.ofNat (48 + n / 1000 % 10), Fin.ofNat (48 + n / 100 % 10),
      Fin.ofNat (48 + n / 10 % 10), Fin.ofNat (48 + n % 10)] := by
  simp [padDigits, List.range_succ]

/-- The zero-padded two digits `appendInt` writes for a number below 100. -/
theorem appendInt_two (n : Nat) (h : n < 100) : appendInt [] (n : Int) 2 = padDigits 2 n := by
  have hx : ¬ ((n : Int) < 0) := by omega
  simp only [appendInt, hx, if_false, Int.toNat_ofNat, List.nil_append]
  rw [padDigits_two]
  by_cases h1 : n < 10
  · have e1 : n / 10 % 10 = 0 := by omega
    rw [formatUint_one n h1, e1]
    rfl
  · rw [formatUint_two n (by omega) h]
    rfl

/-- The zero-padded four digits `appendInt` writes for a number below 10000. -/
theorem appendInt_four (n : Nat) (h : n < 10000) : appendInt [] (n : Int) 4 = padDigits 4 n := by
  have hx : ¬ ((n : Int) < 0) := by omega
  simp only [appendInt, hx, if_false, Int.toNat_ofNat, List.nil_append]
  rw [padDigits_four]
  by_cases h1 : n < 10
  · have e1 : n / 10 % 10 = 0 := by omega
    have e2 : n / 100 % 10 = 0 := by omega
    have e3 : n / 1000 % 10 = 0 := by omega
    rw [formatUint_one n h1, e1, e2, e3]
    rfl
  · by_cases h2 : n < 100
    · have e2 : n / 100 % 10 = 0 := by omega
      have e3 : n / 1000 % 10 = 0 := by omega
      rw [formatUint_two n (by omega) h2, e2, e3]
      rfl
    · by_cases h3 : n < 1000
      · have e3 : n / 1000 % 10 = 0 := by omega
        rw [formatUint_three n (by omega) h3, e3]
        rfl
      · rw [formatUint_four n (by omega) h]
        rfl

/-! ## The display form of a timestamp -/

theorem monthLength_le (leap : Bool) (M : Nat) : monthLength leap M ≤ 31 := by
  unfold monthLength
  split <;> (try split) <;> omega

/-- For a string that `ParseInt` reads as a Unix time between year 0 and year
9999, `convertTimestamp` writes the Gregorian date and the time of day of that
Unix time, in UTC. -/
theorem convertTimestamp_of_ParseInt (tz : Location) (s : GoString) (e : Int)
    (h1 : s ≠ ascii "") (h2 : s ≠ ascii "0") (hp : ParseInt s = .ok e)
    (hlo : -62167219200 ≤ e) (hhi : e ≤ 253402300799) :
    ∃ Y M D h m sec : Nat,
      convertTimestamp tz s = timestampText Y M D h m sec ∧
      Y ≤ 9999 ∧ 1 ≤ M ∧ M ≤ 12 ∧ 1 ≤ D ∧ D ≤ daysInMonth Y M ∧
      h < 24 ∧ m < 60 ∧ sec < 60 ∧
      daysFromEpoch Y M D * 86400 + h * 3600 + m * 60 + sec = e := by
  have habs := abs_Unix tz e hlo hhi
  obtain ⟨Y, hY, hY9, hM1, hM12, hD1, hDm, hsum⟩ :=
    absDate_spec e ((Time.Unix tz e).UTC).abs habs hlo hhi
  obtain ⟨hh, hm, hs, hclock⟩ := absClock_spec ((Time.Unix tz e).UTC).abs
  refine ⟨Y, (absDate ((Time.Unix tz e).UTC).abs).2.1, (absDate ((Time.Unix tz e).UTC).abs).2.2.1,
    (absClock ((Time.Unix tz e).UTC).abs).1, (absClock ((Time.Unix tz e).UTC).abs).2.1,
    (absClock ((Time.Unix tz e).UTC).abs).2.2, ?_, hY9, hM1, hM12, hD1, hDm, hh, hm, hs, ?_⟩
  · unfold convertTimestamp
    rw [if_neg (by simp [h1, h2]), hp]
    simp only
    have hD31 := monthLength_le (isLeapYear Y) (absDate ((Time.Unix tz e).UTC).abs).2.1
    unfold daysInMonth at hDm
    rw [Format_layout, hY, appendInt_four Y (by omega), appendInt_two _ (by omega),
      appendInt_two _ (by omega), appendInt_two _ (by omega), appendInt_two _ (by omega),
      appendInt_two _ (by omega)]
    rfl
  · have hc : (((Time.Unix tz e).UTC.abs % 86400 : Nat) : Int) =
        ((absClock ((Time.Unix tz e).UTC).abs).1 : Int) * 3600 +
          ((absClock ((Time.Unix tz e).UTC).abs).2.1 : Int) * 60 +
          ((absClock ((Time.Unix tz e).UTC).abs).2.2 : Int) := by
      rw [← hclock]
      push_cast
      ring
    rw [hc] at hsum
    linarith

theorem hasTimestampForm_timestampText (Y M D h m sec : Nat) :
    hasTimestampForm (timestampText Y M D h m sec) = true := by
  have a1 : ascii "-" = [45] := by decide
  have a2 : ascii " " = [32] := by decide
  have a3 : ascii ":" = [58] := by decide
  have a4 : ascii " UTC" = [32, 85, 84, 67] := by decide
  simp [timestampText, padDigits_four, padDigits_two, a1, a2, a3, a4, hasTimestampForm,
    isDigit_digit]

theorem hasTimestampForm_length (t : GoString) (h : hasTimestampForm t = true) :
    t.length = 23 := by
  unfold hasTimestampForm at h
  split at h
  · rfl
  · cases h

/-- C5, as amended: for every string other than `""` and `"0"` that parses as
a signed 64-bit decimal integer between -62167219200 and 253402300799 (the
years 0000 to 9999), `convertTimestamp` gives a text of exactly the form
`YYYY-MM-DD HH:MM:SS UTC`: 23 bytes, ASCII digits at the places of the
letters, `-`, `:` and single spaces between them, and the token `UTC`. -/
theorem convertTimestamp_form (tz : Location) (s : GoString) (e : Int)
    (h1 : s ≠ ascii "") (h2 : s ≠ ascii "0") (hp : ParseInt s = .ok e)
    (hlo : -62167219200 ≤ e) (hhi : e ≤ 253402300799) :
    hasTimestampForm (convertTimestamp tz s) = true ∧ (convertTimestamp tz s).length = 23 := by
  obtain ⟨Y, M, D, h, m, sec, ht, -⟩ := convertTimestamp_of_ParseInt tz s e h1 h2 hp hlo hhi
  rw [ht]
  exact ⟨hasTimestampForm_timestampText _ _ _ _ _ _,
    hasTimestampForm_length _ (hasTimestampForm_timestampText _ _ _ _ _ _)⟩

/-- The amended C5 at `"1700000000"`. -/
theorem convertTimestamp_form_witness :
    ParseInt (ascii "1700000000") = .ok 1700000000 ∧
    hasTimestampForm (convertTimestamp CET (ascii "1700000000")) = true ∧
    (convertTimestamp CET (ascii "1700000000")).length = 23 :=
  ⟨by decide,
    convertTimestamp_form CET (ascii "1700000000") 1700000000 (by decide) (by decide) (by decide)
      (by decide) (by decide)⟩

/-- C5 fails as stated at `"253402300800"`, the first second of year 10000:
the string parses as a signed 64-bit integer, and the text has a year of five
digits and 24 bytes. -/
theorem convertTimestamp_year_10000 :
    ascii "253402300800" ≠ ascii "" ∧ ascii "253402300800" ≠ ascii "0" ∧
    ParseInt (ascii "253402300800") = .ok 253402300800 ∧
    convertTimestamp CET (ascii "253402300800") = ascii "10000-01-01 00:00:00 UTC" ∧
    (convertTimestamp CET (ascii "253402300800")).length = 24 ∧
    hasTimestampForm (convertTimestamp CET (ascii "253402300800")) = false := by
  refine ⟨by decide, by decide, by decide, by decide, by decide, by decide⟩

/-- C6: whatever the zone `tz` of the host, for every integer `e` other than 0
from -62167219200 to 253402300799, written in decimal, `convertTimestamp` gives
the text `Y-M-D h:m:s UTC` (year of four digits, the others of two) of the
Gregorian date and the time of day of `e` in UTC: the month is from 1 to 12,
the day is a day of that month of that year, `h < 24`, `m < 60`, `s < 60`, and
the days from 1970-01-01 to `Y-M-D` times 86400 plus `h*3600 + m*60 + s` make
`e`. -/
theorem convertTimestamp_civil_time (tz : Location) (e : Int) (h0 : e ≠ 0)
    (hlo : -62167219200 ≤ e) (hhi : e ≤ 253402300799) :
    ∃ Y M D h m sec : Nat,
      convertTimestamp tz (FormatInt e) = timestampText Y M D h m sec ∧
      Y ≤ 9999 ∧ 1 ≤ M ∧ M ≤ 12 ∧ 1 ≤ D ∧ D ≤ daysInMonth Y M ∧
      h < 24 ∧ m < 60 ∧ sec < 60 ∧
      daysFromEpoch Y M D * 86400 + h * 3600 + m * 60 + sec = e := by
  have hp : ParseInt (FormatInt e) = .ok e :=
    ParseInt_FormatInt e ⟨by omega, by omega⟩
  have h1 : FormatInt e ≠ ascii "" := by
    intro h
    rw [h] at hp
    have h3 : ParseInt (ascii "") = .error .ErrSyntax := by decide
    rw [h3] at hp
    cases hp
  have h2 : FormatInt e ≠ ascii "0" := by
    intro h
    rw [h] at hp
    have h3 : ParseInt (ascii "0") = .ok 0 := by decide
    rw [h3] at hp
    injection hp with hp
    exact h0 hp.symm
  exact convertTimestamp_of_ParseInt tz (FormatInt e) e h1 h2 hp hlo hhi

/-- C6 at the four timestamps of scenario S1, on a host one hour east of UTC:
2023-11-14, at 22:13:20, 22:15:00, 22:16:40 and 22:18:20. -/
theorem convertTimestamp_civil_time_witness :
    (∃ Y M D h m sec : Nat,
      convertTimestamp CET (FormatInt 1700000000) = timestampText Y M D h m sec ∧
      Y ≤ 9999 ∧ 1 ≤ M ∧ M ≤ 12 ∧ 1 ≤ D ∧ D ≤ daysInMonth Y M ∧
      h < 24 ∧ m < 60 ∧ sec < 60 ∧
      daysFromEpoch Y M D * 86400 + h * 3600 + m * 60 + sec = 1700000000) ∧
    FormatInt 1700000000 = ascii "1700000000" ∧
    convertTimestamp CET (ascii "1700000000") = ascii "2023-11-14 22:13:20 UTC" ∧
    convertTimestamp CET (ascii "1700000100") = ascii "2023-11-14 22:15:00 UTC" ∧
    convertTimestamp CET (ascii "1700000200") = ascii "2023-11-14 22:16:40 UTC" ∧
    convertTimestamp CET (ascii "1700000300") = ascii "2023-11-14 22:18:20 UTC" ∧
    timestampText 2023 11 14 22 13 20 = ascii "2023-11-14 22:13:20 UTC" ∧
    daysFromEpoch 2023 11 14 * 86400 + 22 * 3600 + 13 * 60 + 20 = 1700000000 :=
  ⟨convertTimestamp_civil_time CET 1700000000 (by decide) (by decide) (by decide),
    by decide, by decide, by decide, by decide, by decide, by decide, by decide⟩

/-! ## strings.TrimSpace -/

theorem first_lt (b : Nat) (h : first b < 0xF0) : 0xC2 ≤ b := by
  unfold first at h
  split_ifs at h <;> omega

theorem acceptRanges_lo (i : Nat) : 0x80 ≤ (acceptRanges i).1 ∨ (acceptRanges i).2 = 0 := by
  unfold acceptRanges
  split <;> simp

theorem IsSpace_RuneError : IsSpace RuneError = false := by decide

theorem IsSpace_ne_pipe (b : Byte) (h : IsSpace b.val = true) : b ≠ pipe := by
  intro hb
  rw [hb] at h
  revert h
  decide

theorem asciiSpace_ne_pipe (b : Byte) (h : asciiSpace b = true) : b ≠ pipe := by
  intro hb
  rw [hb] at h
  revert h
  decide

theorem mem_take_getD (p : GoString) (k : Nat) (b : Byte) (h : b ∈ p.take k) :
    ∃ i, i < k ∧ i < p.length ∧ b = p.getD i 0 := by
  obtain ⟨i, hi, rfl⟩ := List.mem_iff_getElem.mp h
  rw [List.length_take] at hi
  refine ⟨i, by omega, by omega, ?_⟩
  rw [List.getElem_take]
  rw [List.getD_eq_getElem _ _ (by omega)]

/-- The bytes `DecodeRune` consumes: none after the first is `|`, and none at
all when the rune is a space. -/
theorem DecodeRune_bytes (p : GoString) :
    (p ≠ [] → 1 ≤ (DecodeRune p).2) ∧
    (∀ i, 1 ≤ i → i < (DecodeRune p).2 → p.getD i 0 ≠ pipe) ∧
    (IsSpace (DecodeRune p).1 = true → p.getD 0 0 ≠ pipe) := by
  cases p with
  | nil => simp [DecodeRune, IsSpace_RuneError]
  | cons p0 rest =>
    have hpipe : ∀ b : Byte, 0x80 ≤ b.val ∨ b.val = 0 → b ≠ pipe := by
      intro b hb h
      rw [h] at hb
      revert hb
      decide
    have hget0 : (p0 :: rest).getD 0 0 = p0 := rfl
    unfold DecodeRune
    simp only
    by_cases h1 : first p0.val ≥ 0xF0
    · rw [if_pos h1]
      refine ⟨fun _ => Nat.le_refl _, fun i hi1 hi2 => by omega, fun hs => ?_⟩
      by_cases h2 : first p0.val = 0xF0
      · simp only [h2, if_true] at hs
        rw [hget0]
        exact IsSpace_ne_pipe p0 hs
      · simp only [h2, if_false, IsSpace_RuneError] at hs
        cases hs
    · rw [if_neg h1]
      have hp0 : p0 ≠ pipe := by
        apply hpipe
        left
        have := first_lt p0.val (by omega)
        omega
      by_cases h3 : (p0 :: rest).length < first p0.val &&& 7
      · rw [if_pos h3]
        exact ⟨fun _ => Nat.le_refl _, fun i hi1 hi2 => by omega,
          fun hs => by simp [IsSpace_RuneError] at hs⟩
      · rw [if_neg h3]
        by_cases h4 : ((p0 :: rest).getD 1 0).val < (acceptRanges (first p0.val >>> 4)).1 ∨
            (acceptRanges (first p0.val >>> 4)).2 < ((p0 :: rest).getD 1 0).val
        · rw [if_pos h4]
          exact ⟨fun _ => Nat.le_refl _, fun i hi1 hi2 => by omega,
            fun hs => by simp [IsSpace_RuneError] at hs⟩
        · rw [if_neg h4]
          have hb1 : (p0 :: rest).getD 1 0 ≠ pipe := by
            apply hpipe
            rcases acceptRanges_lo (first p0.val >>> 4) with h | h <;> omega
          by_cases h5 : first p0.val &&& 7 ≤ 2
          · rw [if_pos h5]
            refine ⟨fun _ => by omega, fun i hi1 hi2 => ?_, fun _ => hp0⟩
            have : i = 1 := by omega
            subst this
            exact hb1
          · rw [if_neg h5]
            by_cases h6 : ((p0 :: rest).getD 2 0).val < 0x80 ∨ 0xBF < ((p0 :: rest).getD 2 0).val
            · rw [if_pos h6]
              exact ⟨fun _ => Nat.le_refl _, fun i hi1 hi2 => by omega,
                fun hs => by simp [IsSpace_RuneError] at hs⟩
            · rw [if_neg h6]
              have hb2 : (p0 :: rest).getD 2 0 ≠ pipe := hpipe _ (Or.inl (by omega))
              by_cases h7 : first p0.val &&& 7 ≤ 3
              · rw [if_pos h7]
                refine ⟨fun _ => by omega, fun i hi1 hi2 => ?_, fun _ => hp0⟩
                have : i = 1 ∨ i = 2 := by omega
                rcases this with rfl | rfl
                · exact hb1
                · exact hb2
              · rw [if_neg h7]
                by_cases h8 : ((p0 :: rest).getD 3 0).val < 0x80 ∨
                    0xBF < ((p0 :: rest).getD 3 0).val
                · rw [if_pos h8]
                  exact ⟨fun _ => Nat.le_refl _, fun i hi1 hi2 => by omega,
                    fun hs => by simp [IsSpace_RuneError] at hs⟩
                · rw [if_neg h8]
                  have hb3 : (p0 :: rest).getD 3 0 ≠ pipe := hpipe _ (Or.inl (by omega))
                  refine ⟨fun _ => by omega, fun i hi1 hi2 => ?_, fun _ => hp0⟩
                  have : i = 1 ∨ i = 2 ∨ i = 3 := by omega
                  rcases this with rfl | rfl | rfl
                  · exact hb1
                  · exact hb2
                  · exact hb3

theorem DecodeRune_take_no_pipe (p : GoString) (h : IsSpace (DecodeRune p).1 = true) :
    pipe ∉ p.take (DecodeRune p).2 := by
  intro hm
  obtain ⟨i, hi, -, hb⟩ := mem_take_getD p _ pipe hm
  obtain ⟨-, h2, h3⟩ := DecodeRune_bytes p
  by_cases h0 : i = 0
  · subst h0
    exact h3 h hb.symm
  · exact h2 i (by omega) hi hb.symm

theorem DecodeRune_tail_no_pipe (p : GoString) :
    pipe ∉ (p.take (DecodeRune p).2).drop 1 := by
  intro hm
  obtain ⟨-, h2, -⟩ := DecodeRune_bytes p
  obtain ⟨j, hj, hb⟩ := List.mem_iff_getElem.mp hm
  rw [List.length_drop, List.length_take] at hj
  rw [List.getElem_drop, List.getElem_take] at hb
  apply h2 (1 + j) (by omega) (by omega)
  rw [List.getD_eq_getElem _ _ (by omega)]
  exact hb

/-- What `TrimLeftFunc` removes holds no `|`. -/
theorem trimLeftLoop_prefix (fuel : Nat) (s : GoString) :
    ∃ pre, s = pre ++ trimLeftLoop fuel s ∧ pipe ∉ pre := by
  induction fuel generalizing s with
  | zero => exact ⟨[], rfl, by simp⟩
  | succ fuel ih =>
    unfold trimLeftLoop
    by_cases hs : s = []
    · subst hs
      exact ⟨[], by simp, by simp⟩
    · rw [if_neg hs]
      simp only
      by_cases hsp : IsSpace (DecodeRune s).1 = true
      · rw [if_pos hsp]
        obtain ⟨pre, hpre, hno⟩ := ih (s.drop (DecodeRune s).2)
        refine ⟨s.take (DecodeRune s).2 ++ pre, ?_, ?_⟩
        · rw [List.append_assoc, ← hpre, List.take_append_drop]
        · intro hm
          rcases List.mem_append.mp hm with h | h
          · exact DecodeRune_take_no_pipe s hsp h
          · exact hno h
      · rw [if_neg hsp]
        exact ⟨[], rfl, by simp⟩

theorem lastRuneStart_le (p : GoString) (lim : Int) (k : Nat) (start : Int) :
    lastRuneStart p lim k start ≤ start := by
  induction k generalizing start with
  | zero => exact Int.le_refl _
  | succ k ih =>
    unfold lastRuneStart
    split_ifs
    · exact Int.le_refl _
    · exact Int.le_refl _
    · have := ih (start - 1)
      omega

theorem drop_length_sub_one (p : GoString) (hp : p ≠ []) :
    p.drop (p.length - 1) = [p.getD (p.length - 1) 0] := by
  have hlen : 0 < p.length := List.length_pos.mpr hp
  rw [List.getD_eq_getElem _ _ (by omega)]
  rw [List.drop_eq_getElem_cons (by omega)]
  have : p.length - 1 + 1 = p.length := by omega
  rw [this, List.drop_length]

/-- The bytes `DecodeLastRune` consumes: none after the first is `|`, and none
at all when the rune is a space; it consumes at least one byte. -/
theorem DecodeLastRune_bytes (p : GoString) (hp : p ≠ []) :
    1 ≤ (DecodeLastRune p).2 ∧ (DecodeLastRune p).2 ≤ p.length ∧
    (IsSpace (DecodeLastRune p).1 = true → pipe ∉ p.drop (p.length - (DecodeLastRune p).2)) ∧
    pipe ∉ p.drop (p.length - (DecodeLastRune p).2 + 1) := by
  have hlen : 0 < p.length := List.length_pos.mpr hp
  have hfin : ∀ r : Nat,
      1 ≤ ((r, 1) : Nat × Nat).2 ∧ ((r, 1) : Nat × Nat).2 ≤ p.length ∧
      pipe ∉ p.drop (p.length - ((r, 1) : Nat × Nat).2 + 1) := by
    intro r
    refine ⟨Nat.le_refl _, hlen, ?_⟩
    have : p.length - 1 + 1 = p.length := by omega
    simp only [this, List.drop_length, List.not_mem_nil, not_false_eq_true]
  unfold DecodeLastRune
  simp only
  rw [if_neg (by omega)]
  by_cases h1 : (p.getD (p.length - 1) 0).val < RuneSelf
  · rw [if_pos h1]
    refine ⟨(hfin _).1, (hfin _).2.1, ?_, (hfin _).2.2⟩
    intro hs
    simp only
    rw [drop_length_sub_one p hp]
    simp only [List.mem_singleton]
    exact fun h => IsSpace_ne_pipe _ hs h.symm
  · rw [if_neg h1]
    generalize (if (p.length : Int) - 4 < 0 then (0 : Int) else (p.length : Int) - 4) = lim
    have hL := lastRuneStart_le p lim 4 ((p.length : Int) - 2)
    generalize lastRuneStart p lim 4 ((p.length : Int) - 2) = L at hL
    generalize hst : (if L < 0 then (0 : Int) else L) = start
    have hstart : 0 ≤ start ∧ start < p.length := by
      rw [← hst]
      split_ifs <;> omega
    by_cases h2 : start + ((DecodeRune (p.drop start.toNat)).2 : Int) ≠ (p.length : Int)
    · rw [if_pos h2]
      refine ⟨(hfin _).1, (hfin _).2.1, ?_, (hfin _).2.2⟩
      intro hs
      simp only [IsSpace_RuneError] at hs
      cases hs
    · rw [if_neg h2]
      have h3 : start.toNat + (DecodeRune (p.drop start.toNat)).2 = p.length := by omega
      have h4 : p.length - (DecodeRune (p.drop start.toNat)).2 = start.toNat := by omega
      have h5 : (p.drop start.toNat).take (DecodeRune (p.drop start.toNat)).2 =
          p.drop start.toNat := by
        apply List.take_of_length_le
        rw [List.length_drop]
        omega
      refine ⟨by omega, by omega, ?_, ?_⟩
      · intro hs
        rw [h4]
        have := DecodeRune_take_no_pipe (p.drop start.toNat) hs
        rwa [h5] at this
      · rw [h4]
        have := DecodeRune_tail_no_pipe (p.drop start.toNat)
        rw [h5, List.drop_drop] at this
        exact this

/-- What the search of `TrimRightFunc` for the last rune that is not a space
skips holds no `|`. -/
theorem lastIndexLoop_spec (s : GoString) (fuel i : Nat) (hi : i ≤ s.length) (hf : i ≤ fuel) :
    match lastIndexLoop s fuel i with
    | some i1 => i1 < i ∧ pipe ∉ (s.take i).drop (i1 + 1)
    | none => pipe ∉ s.take i := by
  induction fuel generalizing i with
  | zero =>
    have : i = 0 := by omega
    subst this
    simp [lastIndexLoop]
  | succ fuel ih =>
    unfold lastIndexLoop
    by_cases h0 : i = 0
    · subst h0
      simp
    · rw [if_neg h0]
      simp only
      have hlen : (s.take i).length = i := by
        rw [List.length_take]
        omega
      have hne : s.take i ≠ [] := by
        intro h
        rw [h] at hlen
        simp only [List.length_nil] at hlen
        omega
      obtain ⟨b1, b2, b3, b4⟩ := DecodeLastRune_bytes (s.take i) hne
      rw [hlen] at b2 b3 b4
      generalize hrs : DecodeLastRune (s.take i) = rs at b1 b2 b3 b4
      have htake : s.take i = s.take (i - rs.2) ++ (s.take i).drop (i - rs.2) := by
        have := (List.take_append_drop (i - rs.2) (s.take i)).symm
        rwa [List.take_take, Nat.min_eq_left (by omega)] at this
      by_cases hsp : IsSpace rs.1 = true
      · rw [if_pos hsp]
        have hrec := ih (i - rs.2) (by omega) (by omega)
        cases hl : lastIndexLoop s fuel (i - rs.2) with
        | none =>
          rw [hl] at hrec
          simp only at hrec ⊢
          rw [htake]
          intro hm
          rcases List.mem_append.mp hm with h | h
          · exact hrec h
          · exact b3 hsp h
        | some i2 =>
          rw [hl] at hrec
          simp only at hrec ⊢
          refine ⟨by omega, ?_⟩
          rw [htake, List.drop_append_of_le_length (by rw [List.length_take]; omega)]
          intro hm
          rcases List.mem_append.mp hm with h | h
          · exact hrec.2 h
          · exact b3 hsp h
      · rw [if_neg hsp]
        simp only
        refine ⟨by omega, ?_⟩
        exact b4

/-- What `TrimRightFunc` removes holds no `|`. -/
theorem TrimRightFunc_suffix (s : GoString) :
    ∃ suf, s = TrimRightFunc s ++ suf ∧ pipe ∉ suf := by
  have h := lastIndexLoop_spec s s.length s.length (Nat.le_refl _) (Nat.le_refl _)
  unfold TrimRightFunc
  cases hl : lastIndexLoop s s.length s.length with
  | none =>
    rw [hl] at h
    simp only at h ⊢
    rw [List.take_length] at h
    exact ⟨s, by simp, h⟩
  | some i =>
    rw [hl] at h
    simp only at h ⊢
    rw [List.take_length] at h
    have hsub : ∀ k, 1 ≤ k → pipe ∉ s.drop (i + k) := by
      intro k hk hm
      apply h.2
      have : s.drop (i + k) = (s.drop (i + 1)).drop (k - 1) := by
        rw [List.drop_drop]
        congr 1
        omega
      rw [this] at hm
      exact List.mem_of_mem_drop hm
    split_ifs
    · refine ⟨s.drop (i + (DecodeRune (s.drop i)).2), (List.take_append_drop _ _).symm, ?_⟩
      apply hsub
      apply (DecodeRune_bytes (s.drop i)).1
      intro hnil
      have := congrArg List.length hnil
      rw [List.length_drop] at this
      simp at this
      omega
    · exact ⟨s.drop (i + 1), (List.take_append_drop _ _).symm, hsub 1 (Nat.le_refl _)⟩

theorem TrimFunc_infix (s : GoString) :
    ∃ pre suf, s = pre ++ TrimFunc s ++ suf ∧ pipe ∉ pre ∧ pipe ∉ suf := by
  obtain ⟨pre, hpre, hno1⟩ := trimLeftLoop_prefix s.length s
  obtain ⟨suf, hsuf, hno2⟩ := TrimRightFunc_suffix (TrimLeftFunc s)
  refine ⟨pre, suf, ?_, hno1, hno2⟩
  unfold TrimFunc
  rw [List.append_assoc, ← hsuf]
  exact hpre

theorem trimSpaceStop_suffix (r : GoString) :
    ∃ suf, r.reverse = trimSpaceStop r ++ suf ∧ pipe ∉ suf := by
  induction r with
  | nil => exact ⟨[], by simp [trimSpaceStop], by simp⟩
  | cons c rest ih =>
    unfold trimSpaceStop
    split_ifs with h1 h2
    · exact TrimRightFunc_suffix _
    · obtain ⟨suf, hsuf, hno⟩ := ih
      refine ⟨suf ++ [c], ?_, ?_⟩
      · rw [List.reverse_cons, hsuf, List.append_assoc]
      · intro hm
        rcases List.mem_append.mp hm with h | h
        · exact hno h
        · rw [List.mem_singleton] at h
          exact asciiSpace_ne_pipe c h2 h.symm
    · exact ⟨[], by simp, by simp⟩

/-- The function `TrimSpace` returns a piece of its argument, and what it
removes before and after the piece holds no `|`. -/
theorem TrimSpace_infix (s : GoString) :
    ∃ pre suf, s = pre ++ TrimSpace s ++ suf ∧ pipe ∉ pre ∧ pipe ∉ suf := by
  induction s with
  | nil => exact ⟨[], [], by simp [TrimSpace], by simp, by simp⟩
  | cons c rest ih =>
    unfold TrimSpace
    split_ifs with h1 h2
    · exact TrimFunc_infix _
    · obtain ⟨pre, suf, hs, hno1, hno2⟩ := ih
      refine ⟨c :: pre, suf, ?_, ?_, hno2⟩
      · rw [List.cons_append, List.cons_append, ← hs]
      · intro hm
        rcases List.mem_cons.mp hm with h | h
        · exact asciiSpace_ne_pipe c h2 h.symm
        · exact hno1 h
    · obtain ⟨suf, hsuf, hno⟩ := trimSpaceStop_suffix (c :: rest).reverse
      rw [List.reverse_reverse] at hsuf
      exact ⟨[], suf, by simpa using hsuf, by simp, hno⟩

/-! ## Column passthrough -/

theorem Split_of_not_mem (s : GoString) (sep : Byte) (h : sep ∉ s) : Split s sep = [s] := by
  have := Split_append_left s [] [] [] sep h (Split_nil sep)
  simpa using this

/-- A suffix without separator lengthens the last field. -/
theorem Split_append_right (s suf : GoString) (sep : Byte) (h : sep ∉ suf) :
    ∃ init last, Split s sep = init ++ [last] ∧ Split (s ++ suf) sep = init ++ [last ++ suf] := by
  induction s with
  | nil =>
    refine ⟨[], [], rfl, ?_⟩
    simpa using Split_of_not_mem suf sep h
  | cons c s ih =>
    obtain ⟨init, last, h1, h2⟩ := ih
    by_cases hc : c = sep
    · subst hc
      refine ⟨[] :: init, last, ?_, ?_⟩
      · rw [Split_cons_sep, h1]
        rfl
      · rw [List.cons_append, Split_cons_sep, h2]
        rfl
    · cases init with
      | nil =>
        refine ⟨[], c :: last, ?_, ?_⟩
        · exact Split_cons_ne c sep s last [] hc (by simpa using h1)
        · exact Split_cons_ne c sep (s ++ suf) (last ++ suf) [] hc (by simpa using h2)
      | cons g gs =>
        refine ⟨(c :: g) :: gs, last, ?_, ?_⟩
        · exact Split_cons_ne c sep s g (gs ++ [last]) hc (by simpa using h1)
        · exact Split_cons_ne c sep (s ++ suf) g (gs ++ [last ++ suf]) hc (by simpa using h2)

/-- Around a piece of a line, text without `|` changes only the first and the
last field. -/
theorem Split_infix (pre t suf : GoString) (hpre : pipe ∉ pre) (hsuf : pipe ∉ suf) :
    (Split (pre ++ t ++ suf) pipe).length = (Split t pipe).length ∧
    (∀ i, 1 ≤ i → i + 1 < (Split t pipe).length →
      (Split (pre ++ t ++ suf) pipe)[i]? = (Split t pipe)[i]?) ∧
    (2 ≤ (Split t pipe).length →
      (Split (pre ++ t ++ suf) pipe)[0]? = ((Split t pipe)[0]?).map (fun f => pre ++ f)) := by
  obtain ⟨init, last, h1, h2⟩ := Split_append_right t suf pipe hsuf
  rw [List.append_assoc]
  cases init with
  | nil =>
    have h3 := Split_append_left pre (t ++ suf) (last ++ suf) [] pipe hpre (by simpa using h2)
    rw [h3, h1]
    refine ⟨rfl, ?_, ?_⟩
    · intro i _ hi
      simp at hi
    · intro hi
      simp at hi
  | cons g gs =>
    have h3 := Split_append_left pre (t ++ suf) g (gs ++ [last ++ suf]) pipe hpre
      (by simpa using h2)
    rw [h3, h1]
    refine ⟨by simp, ?_, ?_⟩
    · intro i hi1 hi2
      obtain ⟨j, rfl⟩ : ∃ j, i = j + 1 := ⟨i - 1, by omega⟩
      simp only [List.cons_append, List.length_cons, List.length_append,
        List.length_singleton, List.length_nil] at hi2
      simp only [List.cons_append, List.getElem?_cons_succ]
      rw [List.getElem?_append_left (by omega), List.getElem?_append_left (by omega)]
    · intro _
      simp

theorem rowOfLine_eq_some (tz : Location) (epochOnly : Bool) (text : GoString) (row : List GoString)
    (h : rowOfLine tz epochOnly text = some row) :
    ∃ e, parseBodyfileLine tz (TrimSpace text) = .ok e ∧ row = recordOf epochOnly e := by
  unfold rowOfLine at h
  split at h
  · cases h
  · split at h
    · rename_i entry he
      injection h with h
      exact ⟨entry, he, h.symm⟩
    · cases h

/-- C9, as amended: for every input line that gives a row in human mode,
columns 1 to 6 of the row equal fields 1 to 6 of the source line as it stands
in the input, byte for byte, and column 0 equals field 0 of the line after the
trim of the whole line: field 0 of the source line is column 0 after the white
space `ws` that the trim removed from the start of the line. -/
theorem rowOfLine_passthrough (tz : Location) (text : GoString) (row : List GoString)
    (h : rowOfLine tz false text = some row) :
    (∀ i, 1 ≤ i → i ≤ 6 → row[i]? = (Split text pipe)[i]?) ∧
    row[0]? = (Split (TrimSpace text) pipe)[0]? ∧
    ∃ ws rest, text = ws ++ TrimSpace text ++ rest ∧ pipe ∉ ws ∧ pipe ∉ rest ∧
      (Split text pipe)[0]? = (row[0]?).map (fun f => ws ++ f) := by
  obtain ⟨e, he, hrow⟩ := rowOfLine_eq_some tz false text row h
  obtain ⟨f0, f1, f2, f3, f4, f5, f6⟩ := parseBodyfileLine_ok_fields tz (TrimSpace text) e he
  have hlen := parseBodyfileLine_ok_length tz (TrimSpace text) e he
  obtain ⟨ws, rest, htext, hws, hrest⟩ := TrimSpace_infix text
  obtain ⟨-, s2, s3⟩ := Split_infix ws (TrimSpace text) rest hws hrest
  rw [← htext] at s2 s3
  have hcols : ∀ i, i ≤ 6 → row[i]? = (Split (TrimSpace text) pipe)[i]? := by
    intro i hi
    rw [hrow]
    have : i = 0 ∨ i = 1 ∨ i = 2 ∨ i = 3 ∨ i = 4 ∨ i = 5 ∨ i = 6 := by omega
    rcases this with rfl | rfl | rfl | rfl | rfl | rfl | rfl
    · rw [f0]; rfl
    · rw [f1]; rfl
    · rw [f2]; rfl
    · rw [f3]; rfl
    · rw [f4]; rfl
    · rw [f5]; rfl
    · rw [f6]; rfl
  refine ⟨?_, hcols 0 (by omega), ws, rest, htext, hws, hrest, ?_⟩
  · intro i hi1 hi6
    rw [hcols i hi6, s2 i hi1 (by omega)]
  · rw [s3 (by omega), hcols 0 (by omega)]

/-- The amended C9 on a line with white space before its first field and after
its last. -/
theorem rowOfLine_passthrough_witness :
    rowOfLine CET false (ascii " x|n a|1|2|3|4|5|0|0|0 ") =
      some [ascii "x", ascii "n a", ascii "1", ascii "2", ascii "3", ascii "4", ascii "5",
        ascii "N/A", ascii "N/A", ascii "N/A", ascii "N/A"] ∧
    (Split (ascii " x|n a|1|2|3|4|5|0|0|0 ") pipe)[1]? = some (ascii "n a") ∧
    ((∀ i, 1 ≤ i → i ≤ 6 →
        [ascii "x", ascii "n a", ascii "1", ascii "2", ascii "3", ascii "4", ascii "5",
          ascii "N/A", ascii "N/A", ascii "N/A", ascii "N/A"][i]? =
        (Split (ascii " x|n a|1|2|3|4|5|0|0|0 ") pipe)[i]?) ∧
      [ascii "x", ascii "n a", ascii "1", ascii "2", ascii "3", ascii "4", ascii "5",
          ascii "N/A", ascii "N/A", ascii "N/A", ascii "N/A"][0]? =
        (Split (TrimSpace (ascii " x|n a|1|2|3|4|5|0|0|0 ")) pipe)[0]? ∧
      ∃ ws rest, ascii " x|n a|1|2|3|4|5|0|0|0 " =
          ws ++ TrimSpace (ascii " x|n a|1|2|3|4|5|0|0|0 ") ++ rest ∧ pipe ∉ ws ∧ pipe ∉ rest ∧
        (Split (ascii " x|n a|1|2|3|4|5|0|0|0 ") pipe)[0]? =
          ([ascii "x", ascii "n a", ascii "1", ascii "2", ascii "3", ascii "4", ascii "5",
            ascii "N/A", ascii "N/A", ascii "N/A", ascii "N/A"][0]?).map (fun f => ws ++ f)) :=
  ⟨by decide, by decide, rowOfLine_passthrough CET _ _ (by decide)⟩

/-- C9 fails as stated on the line ` x|n|1|2|3|4|5|0|0|0`: it gives a row in
human mode, field 0 of the line in the input is ` x`, with its leading space,
and column 0 of the row is `x`. -/
theorem passthrough_fails_on_leading_space :
    inputLines (ascii " x|n|1|2|3|4|5|0|0|0\n") = [ascii " x|n|1|2|3|4|5|0|0|0"] ∧
    (convertBodyfileToCSV CET (ascii " x|n|1|2|3|4|5|0|0|0\n") false).records =
      [header, [ascii "x", ascii "n", ascii "1", ascii "2", ascii "3", ascii "4", ascii "5",
        ascii "N/A", ascii "N/A", ascii "N/A", ascii "N/A"]] ∧
    (Split (ascii " x|n|1|2|3|4|5|0|0|0") pipe)[0]? = some (ascii " x") ∧
    ascii " x" ≠ ascii "x" := by
  refine ⟨by decide, by decide, by decide, by decide⟩

/-! ## The bounds on the rounds of the loops suffice -/

/-- The loop of `TrimLeftFunc` ends within as many rounds as the string has
bytes: a larger bound gives the same result. -/
theorem trimLeftLoop_fuel (fuel k : Nat) (s : GoString) (h : s.length ≤ fuel) :
    trimLeftLoop (fuel + k) s = trimLeftLoop fuel s := by
  induction fuel generalizing s with
  | zero =>
    have hs : s = [] := List.length_eq_zero.mp (by omega)
    subst hs
    cases k <;> simp [trimLeftLoop]
  | succ fuel ih =>
    have e : fuel + 1 + k = (fuel + k) + 1 := by omega
    rw [e, trimLeftLoop, trimLeftLoop]
    by_cases hs : s = []
    · simp [hs]
    · rw [if_neg hs, if_neg hs]
      simp only
      have h1 := (DecodeRune_bytes s).1 hs
      rw [ih (s.drop (DecodeRune s).2) (by rw [List.length_drop]; omega)]

/-- The search of `TrimRightFunc` ends within as many rounds as the index it
starts from: a larger bound gives the same result. -/
theorem lastIndexLoop_fuel (s : GoString) (fuel k i : Nat) (hi : i ≤ s.length) (h : i ≤ fuel) :
    lastIndexLoop s (fuel + k) i = lastIndexLoop s fuel i := by
  induction fuel generalizing i with
  | zero =>
    have hi0 : i = 0 := by omega
    subst hi0
    cases k <;> simp [lastIndexLoop]
  | succ fuel ih =>
    have e : fuel + 1 + k = (fuel + k) + 1 := by omega
    rw [e, lastIndexLoop, lastIndexLoop]
    by_cases h0 : i = 0
    · simp [h0]
    · rw [if_neg h0, if_neg h0]
      simp only
      have hlen : (s.take i).length = i := by
        rw [List.length_take]
        omega
      have hne : s.take i ≠ [] := by
        intro hnil
        rw [hnil] at hlen
        simp only [List.length_nil] at hlen
        omega
      have h1 := (DecodeLastRune_bytes (s.take i) hne).1
      rw [ih (i - (DecodeLastRune (s.take i)).2) (by omega) (by omega)]

/-- The backwards search of `DecodeLastRune` ends within four rounds when it
starts at most two bytes above its limit. -/
theorem lastRuneStart_fuel (p : GoString) (lim : Int) (fuel k : Nat) (start : Int)
    (h : start - lim + 1 < fuel) :
    lastRuneStart p lim (fuel + k) start = lastRuneStart p lim fuel start := by
  induction fuel generalizing start with
  | zero =>
    cases k with
    | zero => rfl
    | succ k =>
      have e : 0 + (k + 1) = k + 1 := by omega
      rw [e]
      simp only [lastRuneStart]
      rw [if_pos (by omega)]
  | succ fuel ih =>
    have e : fuel + 1 + k = (fuel + k) + 1 := by omega
    rw [e, lastRuneStart, lastRuneStart]
    by_cases h1 : start < lim
    · rw [if_pos h1, if_pos h1]
    · rw [if_neg h1, if_neg h1]
      by_cases h2 : RuneStart (p.getD start.toNat 0) = true
      · rw [if_pos h2, if_pos h2]
      · rw [if_neg h2, if_neg h2]
        exact ih (start - 1) (by omega)

/-! ## The timestamp columns -/

theorem parseBodyfileLine_ok_times (tz : Location) (line : GoString) (e : BodyfileEntry)
    (h : parseBodyfileLine tz line = .ok e) :
    (Split line pipe)[7]? = some e.ATime ∧
    (Split line pipe)[8]? = some e.MTime ∧
    (Split line pipe)[9]? = some e.CTime ∧
    ((Split line pipe).length = 11 → (Split line pipe)[10]? = some e.CrTime) ∧
    ((Split line pipe).length = 10 → e.CrTime = ascii "0") ∧
    e.ATimeReadable = convertTimestamp tz e.ATime ∧
    e.MTimeReadable = convertTimestamp tz e.MTime ∧
    e.CTimeReadable = convertTimestamp tz e.CTime ∧
    e.CrTimeReadable = convertTimestamp tz e.CrTime := by
  unfold parseBodyfileLine at h
  simp only at h
  split at h
  · cases h
  · rename_i hlen
    injection h with h
    subst h
    have hlen1 : 10 ≤ (Split line pipe).length := by omega
    refine ⟨List.getElem?_eq_getElem _, List.getElem?_eq_getElem _,
      List.getElem?_eq_getElem _, ?_, ?_, rfl, rfl, rfl, rfl⟩
    · intro h11
      simp [h11]
    · intro h10
      simp [h10]

theorem rowOfLine_of_ok (tz : Location) (epochOnly : Bool) (text : GoString) (e : BodyfileEntry)
    (h : parseBodyfileLine tz (TrimSpace text) = .ok e) :
    rowOfLine tz epochOnly text = some (recordOf epochOnly e) := by
  have hne : TrimSpace text ≠ [] := by
    intro hnil
    rw [hnil] at h
    have hl := parseBodyfileLine_ok_length tz [] e h
    revert hl
    decide
  unfold rowOfLine
  rw [if_neg hne, h]

/-- The trim of a line leaves the number of its fields as it is. -/
theorem Split_TrimSpace_length (text : GoString) :
    (Split (TrimSpace text) pipe).length = (Split text pipe).length := by
  obtain ⟨ws, rest, htext, hws, hrest⟩ := TrimSpace_infix text
  have h := ( Split_infix ws (TrimSpace text) rest hws hrest).1
  rw [← htext] at h
  exact h.symm

/-- C11: every input line of exactly 10 fields gives a row, and column 10 of
the row, the column `CrTime`, is `N/A` in human mode and `0` in epoch mode. -/
theorem crtime_fallback (tz : Location) (text : GoString) (h : (Split text pipe).length = 10) :
    ∃ rh re, rowOfLine tz false text = some rh ∧ rowOfLine tz true text = some re ∧
      rh[10]? = some (ascii "N/A") ∧ re[10]? = some (ascii "0") := by
  have hlen : (Split (TrimSpace text) pipe).length = 10 := by
    rw [Split_TrimSpace_length, h]
  obtain ⟨e, he⟩ := parseBodyfileLine_ok_of_length tz (TrimSpace text) (Or.inl hlen)
  obtain ⟨-, -, -, -, hcr, -, -, -, hcrR⟩ := parseBodyfileLine_ok_times tz (TrimSpace text) e he
  have h0 := hcr hlen
  refine ⟨recordOf false e, recordOf true e, rowOfLine_of_ok tz false text e he,
    rowOfLine_of_ok tz true text e he, ?_, ?_⟩
  · have : (recordOf false e)[10]? = some e.CrTimeReadable := rfl
    rw [this, hcrR, h0]
    rfl
  · have : (recordOf true e)[10]? = some e.CrTime := rfl
    rw [this, h0]

/-- C11 on the line of scenario S3: in human mode `ATime` is `N/A`, `MTime` is
`2023-11-14 22:13:20 UTC`, `CTime` is `N/A` and `CrTime` is `N/A`. -/
theorem crtime_fallback_witness :
    (Split (ascii "0|/tmp/x|9|0|0|0|0|0|1700000000|0") pipe).length = 10 ∧
    (∃ rh re, rowOfLine CET false (ascii "0|/tmp/x|9|0|0|0|0|0|1700000000|0") = some rh ∧
      rowOfLine CET true (ascii "0|/tmp/x|9|0|0|0|0|0|1700000000|0") = some re ∧
      rh[10]? = some (ascii "N/A") ∧ re[10]? = some (ascii "0")) ∧
    rowOfLine CET false (ascii "0|/tmp/x|9|0|0|0|0|0|1700000000|0") =
      some [ascii "0", ascii "/tmp/x", ascii "9", ascii "0", ascii "0", ascii "0", ascii "0",
        ascii "N/A", ascii "2023-11-14 22:13:20 UTC", ascii "N/A", ascii "N/A"] ∧
    rowOfLine CET true (ascii "0|/tmp/x|9|0|0|0|0|0|1700000000|0") =
      some [ascii "0", ascii "/tmp/x", ascii "9", ascii "0", ascii "0", ascii "0", ascii "0",
        ascii "0", ascii "1700000000", ascii "0", ascii "0"] :=
  ⟨by decide, crtime_fallback CET _ (by decide), by decide, by decide⟩

/-- C12: for every accepted line, in epoch mode the last four columns of its
row are fields 7, 8 and 9 of the line and field 10, or `0` when the line has 10
fields, as they stand; in human mode the line gives a row too and its last four
columns are `convertTimestamp` of those four strings. -/
theorem timestamp_columns (tz : Location) (text : GoString) (re : List GoString)
    (h : rowOfLine tz true text = some re) :
    re[7]? = (Split (TrimSpace text) pipe)[7]? ∧
    re[8]? = (Split (TrimSpace text) pipe)[8]? ∧
    re[9]? = (Split (TrimSpace text) pipe)[9]? ∧
    ((Split (TrimSpace text) pipe).length = 11 → re[10]? = (Split (TrimSpace text) pipe)[10]?) ∧
    ((Split (TrimSpace text) pipe).length = 10 → re[10]? = some (ascii "0")) ∧
    ∃ rh, rowOfLine tz false text = some rh ∧
      rh[7]? = (re[7]?).map (convertTimestamp tz) ∧
      rh[8]? = (re[8]?).map (convertTimestamp tz) ∧
      rh[9]? = (re[9]?).map (convertTimestamp tz) ∧
      rh[10]? = (re[10]?).map (convertTimestamp tz) := by
  obtain ⟨e, he, hrow⟩ := rowOfLine_eq_some tz true text re h
  obtain ⟨t7, t8, t9, t10, t10', r7, r8, r9, r10⟩ :=
    parseBodyfileLine_ok_times tz (TrimSpace text) e he
  subst hrow
  refine ⟨t7.symm, t8.symm, t9.symm, fun h11 => (t10 h11).symm, ?_,
    recordOf false e, rowOfLine_of_ok tz false text e he, ?_, ?_, ?_, ?_⟩
  · intro h10
    rw [← t10' h10]
    rfl
  · show some e.ATimeReadable = (some e.ATime).map (convertTimestamp tz)
    rw [r7]; rfl
  · show some e.MTimeReadable = (some e.MTime).map (convertTimestamp tz)
    rw [r8]; rfl
  · show some e.CTimeReadable = (some e.CTime).map (convertTimestamp tz)
    rw [r9]; rfl
  · show some e.CrTimeReadable = (some e.CrTime).map (convertTimestamp tz)
    rw [r10]; rfl

/-- C12 on the line of scenario S1 (S2): in epoch mode the row ends with
`1700000000`, `1700000100`, `1700000200`, `1700000300`. -/
theorem timestamp_columns_witness :
    rowOfLine CET true
        (ascii "0|/etc/passwd|1234|0100644|0|0|2450|1700000000|1700000100|1700000200|1700000300") =
      some [ascii "0", ascii "/etc/passwd", ascii "1234", ascii "0100644", ascii "0",
        ascii "0", ascii "2450", ascii "1700000000", ascii "1700000100", ascii "1700000200",
        ascii "1700000300"] ∧
    ∃ rh, rowOfLine CET false
        (ascii "0|/etc/passwd|1234|0100644|0|0|2450|1700000000|1700000100|1700000200|1700000300") =
        some rh ∧
      rh[7]? = some (convertTimestamp CET (ascii "1700000000")) ∧
      rh[10]? = some (convertTimestamp CET (ascii "1700000300")) := by
  have hrow : rowOfLine CET true
      (ascii "0|/etc/passwd|1234|0100644|0|0|2450|1700000000|1700000100|1700000200|1700000300") =
      some [ascii "0", ascii "/etc/passwd", ascii "1234", ascii "0100644", ascii "0",
        ascii "0", ascii "2450", ascii "1700000000", ascii "1700000100", ascii "1700000200",
        ascii "1700000300"] := by decide
  obtain ⟨-, -, -, -, -, rh, hrh, h7, -, -, h10⟩ := timestamp_columns CET _ _ hrow
  exact ⟨hrow, rh, hrh, h7, h10⟩

/-! ## The header and the number of columns -/

theorem filterMap_rowOfLine_eq_nil (tz : Location) (epochOnly : Bool) (lines : List GoString)
    (h : ∀ t ∈ lines, lineAccepted tz t = false) : lines.filterMap (rowOfLine tz epochOnly) = [] := by
  apply List.eq_nil_of_length_eq_zero
  rw [length_filterMap_rowOfLine tz]
  apply List.length_eq_zero.mpr
  rw [List.filter_eq_nil_iff]
  intro t ht
  rw [h t ht]
  simp

/-- C14: the first record of every output is the header; it is written once,
every record after it being the row of a line read, in order; and for the
empty input, and for every input none of whose lines parses successfully, the
header is the only record. -/
theorem header_first_and_once (tz : Location) (input : GoString) (epochOnly : Bool) :
    (convertBodyfileToCSV tz input epochOnly).records[0]? = some header ∧
    (∃ lines, lines <+: inputLines input ∧
      (convertBodyfileToCSV tz input epochOnly).records.tail =
        lines.filterMap (rowOfLine tz epochOnly) ∧
      (convertBodyfileToCSV tz input epochOnly).records.length =
        1 + (lines.filter (lineAccepted tz)).length) ∧
    ((∀ t ∈ inputLines input, lineAccepted tz t = false) →
      (convertBodyfileToCSV tz input epochOnly).records = [header]) ∧
    (convertBodyfileToCSV tz [] epochOnly).records = [header] := by
  refine ⟨?_, ⟨(scan input).tokens, scan_tokens_prefix input, ?_, ?_⟩, ?_, ?_⟩
  · rw [convertBodyfileToCSV_records tz]
    simp
  · rw [convertBodyfileToCSV_records tz]
    rfl
  · rw [convertBodyfileToCSV_records tz, List.length_cons, length_filterMap_rowOfLine tz]
    omega
  · intro h
    rw [convertBodyfileToCSV_records tz, filterMap_rowOfLine_eq_nil tz]
    intro t ht
    exact h t (( scan_tokens_prefix input).subset ht)
  · cases epochOnly <;> rfl

/-- C15: every record of every output, the header and every row, in both
modes, has exactly 11 columns; the row of a line has 11 columns, the line
having 10 fields or 11. -/
theorem every_record_has_eleven_columns (tz : Location) (input : GoString) (epochOnly : Bool) :
    header.length = 11 ∧
    (∀ r ∈ (convertBodyfileToCSV tz input epochOnly).records, r.length = 11) ∧
    (∀ (text : GoString) (r : List GoString), rowOfLine tz epochOnly text = some r →
      r.length = 11 ∧ ((Split text pipe).length = 10 ∨ (Split text pipe).length = 11)) := by
  refine ⟨header_length, fun r hr => records_length tz input epochOnly r hr, ?_⟩
  intro text r hr
  refine ⟨rowOfLine_length tz epochOnly text r hr, ?_⟩
  obtain ⟨e, he, -⟩ := rowOfLine_eq_some tz epochOnly text r hr
  have := parseBodyfileLine_ok_length tz (TrimSpace text) e he
  rw [Split_TrimSpace_length] at this
  exact this

/-! ## The sentinel of the timestamp formatter -/

theorem Format_layout_ne_NA (t : Time) : t.Format layout ≠ ascii "N/A" := by
  rw [Format_layout]
  intro h
  have h1 := congrArg List.getLast? h
  have h2 : ascii " UTC" = [32, 85, 84] ++ [67] := by decide
  have h3 : ascii "N/A" = [78, 47] ++ [65] := by decide
  rw [h2, h3, ← List.append_assoc, List.getLast?_append, List.getLast?_append] at h1
  simp at h1

/-- C19: `convertTimestamp` answers `N/A` exactly for the empty string and for
`0`; every other string that parses as the integer zero, such as `00` and
`-0`, is displayed as `1970-01-01 00:00:00 UTC`. -/
theorem convertTimestamp_NA_iff (tz : Location) :
    (∀ s, convertTimestamp tz s = ascii "N/A" ↔ (s = ascii "" ∨ s = ascii "0")) ∧
    (∀ s, s ≠ ascii "" → s ≠ ascii "0" → ParseInt s = .ok 0 →
      convertTimestamp tz s = ascii "1970-01-01 00:00:00 UTC") ∧
    ParseInt (ascii "00") = .ok 0 ∧
    convertTimestamp tz (ascii "00") = ascii "1970-01-01 00:00:00 UTC" ∧
    ParseInt (ascii "-0") = .ok 0 ∧
    convertTimestamp tz (ascii "-0") = ascii "1970-01-01 00:00:00 UTC" := by
  have hz : ∀ s, s ≠ ascii "" → s ≠ ascii "0" → ParseInt s = .ok 0 →
      convertTimestamp tz s = ascii "1970-01-01 00:00:00 UTC" := by
    intro s h1 h2 hp
    unfold convertTimestamp
    rw [if_neg (by simp [h1, h2]), hp]
    simp only
    rw [UTC_Unix_zone tz CET]
    decide
  refine ⟨?_, hz, by decide, hz _ (by decide) (by decide) (by decide), by decide,
    hz _ (by decide) (by decide) (by decide)⟩
  intro s
  constructor
  · intro h
    by_contra hs
    unfold convertTimestamp at h
    rw [if_neg hs] at h
    cases hp : ParseInt s with
    | error e =>
      rw [hp] at h
      have hne : ascii "Invalid" ≠ ascii "N/A" := by decide
      exact hne h
    | ok v =>
      rw [hp] at h
      exact Format_layout_ne_NA _ h
  · intro h
    unfold convertTimestamp
    rw [if_pos h]

/-! ## The round trip in epoch mode -/

/-- Joining the fields of a line with the separator gives the line. -/
theorem Join_Split (s : GoString) (sep : Byte) : Join sep (Split s sep) = s := by
  induction s with
  | nil => rfl
  | cons c rest ih =>
    cases hs : Split rest sep with
    | nil => exact absurd hs (Split_ne_nil rest sep)
    | cons f fs =>
      rw [hs] at ih
      by_cases hc : c = sep
      · subst hc
        rw [Split_cons_sep, hs]
        show [] ++ c :: Join c (f :: fs) = c :: rest
        rw [ih]
        rfl
      · rw [Split_cons_ne c sep rest f fs hc hs]
        cases fs with
        | nil =>
          show c :: f = c :: rest
          rw [← ih]
          rfl
        | cons g gs =>
          show (c :: f) ++ sep :: Join sep (g :: gs) = c :: rest
          rw [← ih]
          rfl

theorem Join_append_singleton (sep : Byte) (l : List GoString) (x : GoString) (hl : l ≠ []) :
    Join sep (l ++ [x]) = Join sep l ++ sep :: x := by
  induction l with
  | nil => exact absurd rfl hl
  | cons a as ih =>
    cases as with
    | nil => rfl
    | cons b bs =>
      show a ++ sep :: Join sep ((b :: bs) ++ [x]) = (a ++ sep :: Join sep (b :: bs)) ++ sep :: x
      rw [ih (by simp)]
      simp

/-- The record of epoch mode is the list of the fields of the line, with `0`
after them when they are 10. -/
theorem recordOf_epoch_eq (tz : Location) (line : GoString) (e : BodyfileEntry)
    (h : parseBodyfileLine tz line = .ok e) :
    ((Split line pipe).length = 11 → recordOf true e = Split line pipe) ∧
    ((Split line pipe).length = 10 → recordOf true e = Split line pipe ++ [ascii "0"]) := by
  obtain ⟨f0, f1, f2, f3, f4, f5, f6⟩ := parseBodyfileLine_ok_fields tz line e h
  obtain ⟨f7, f8, f9, f10, f10', -⟩ := parseBodyfileLine_ok_times tz line e h
  have hr : ∀ n, 11 ≤ n → (recordOf true e)[n]? = none := by
    intro n hn
    apply List.getElem?_eq_none
    show 11 ≤ n
    exact hn
  constructor
  · intro hlen
    apply List.ext_getElem?
    intro n
    by_cases hn : 11 ≤ n
    · rw [hr n hn, List.getElem?_eq_none (by omega)]
    · have f10'' := f10 hlen
      have : n = 0 ∨ n = 1 ∨ n = 2 ∨ n = 3 ∨ n = 4 ∨ n = 5 ∨ n = 6 ∨ n = 7 ∨ n = 8 ∨ n = 9 ∨
          n = 10 := by omega
      rcases this with rfl | rfl | rfl | rfl | rfl | rfl | rfl | rfl | rfl | rfl | rfl
      · rw [f0]; rfl
      · rw [f1]; rfl
      · rw [f2]; rfl
      · rw [f3]; rfl
      · rw [f4]; rfl
      · rw [f5]; rfl
      · rw [f6]; rfl
      · rw [f7]; rfl
      · rw [f8]; rfl
      · rw [f9]; rfl
      · rw [f10'']; rfl
  · intro hlen
    apply List.ext_getElem?
    intro n
    by_cases hn : 11 ≤ n
    · rw [hr n hn, List.getElem?_eq_none (by rw [List.length_append, hlen]; simpa using hn)]
    · have hcr := f10' hlen
      have : n = 0 ∨ n = 1 ∨ n = 2 ∨ n = 3 ∨ n = 4 ∨ n = 5 ∨ n = 6 ∨ n = 7 ∨ n = 8 ∨ n = 9 ∨
          n = 10 := by omega
      rcases this with rfl | rfl | rfl | rfl | rfl | rfl | rfl | rfl | rfl | rfl | rfl
      · rw [List.getElem?_append_left (by omega), f0]; rfl
      · rw [List.getElem?_append_left (by omega), f1]; rfl
      · rw [List.getElem?_append_left (by omega), f2]; rfl
      · rw [List.getElem?_append_left (by omega), f3]; rfl
      · rw [List.getElem?_append_left (by omega), f4]; rfl
      · rw [List.getElem?_append_left (by omega), f5]; rfl
      · rw [List.getElem?_append_left (by omega), f6]; rfl
      · rw [List.getElem?_append_left (by omega), f7]; rfl
      · rw [List.getElem?_append_left (by omega), f8]; rfl
      · rw [List.getElem?_append_left (by omega), f9]; rfl
      · rw [List.getElem?_append_right (by omega), hlen]
        show some e.CrTime = _
        rw [hcr]
        rfl

/-- C20: in epoch mode, joining the 11 columns of the row of a line with `|`
gives the trimmed line when it has exactly 11 fields, and the trimmed line
followed by `|0` when it has exactly 10 fields. -/
theorem epoch_row_round_trip (tz : Location) (text : GoString) (row : List GoString)
    (h : rowOfLine tz true text = some row) :
    row.length = 11 ∧
    ((Split (TrimSpace text) pipe).length = 11 → Join pipe row = TrimSpace text) ∧
    ((Split (TrimSpace text) pipe).length = 10 →
      Join pipe row = TrimSpace text ++ ascii "|0") := by
  obtain ⟨e, he, hrow⟩ := rowOfLine_eq_some tz true text row h
  obtain ⟨h11, h10⟩ := recordOf_epoch_eq tz (TrimSpace text) e he
  refine ⟨rowOfLine_length tz true text row h, ?_, ?_⟩
  · intro hlen
    rw [hrow, h11 hlen, Join_Split]
  · intro hlen
    rw [hrow, h10 hlen, Join_append_singleton pipe _ _ (Split_ne_nil _ _), Join_Split]
    rfl

/-- C20 on a line of 11 fields and on a line of 10 fields, each with white
space around it. -/
theorem epoch_row_round_trip_witness :
    (Join pipe [ascii "0", ascii "/a b", ascii "1", ascii "2", ascii "3", ascii "4",
        ascii "5", ascii "6", ascii "x", ascii "8", ascii ""] =
      TrimSpace (ascii "  0|/a b|1|2|3|4|5|6|x|8|\r")) ∧
    TrimSpace (ascii "  0|/a b|1|2|3|4|5|6|x|8|\r") = ascii "0|/a b|1|2|3|4|5|6|x|8|" ∧
    (Join pipe [ascii "0", ascii "/a b", ascii "1", ascii "2", ascii "3", ascii "4",
        ascii "5", ascii "6", ascii "x", ascii "8", ascii "0"] =
      TrimSpace (ascii " 0|/a b|1|2|3|4|5|6|x|8 ") ++ ascii "|0") :=
  ⟨(epoch_row_round_trip CET (ascii "  0|/a b|1|2|3|4|5|6|x|8|\r") _ (by decide)).2.1 (by decide),
    by decide,
    (epoch_row_round_trip CET (ascii " 0|/a b|1|2|3|4|5|6|x|8 ") _ (by decide)).2.2 (by decide)⟩

/-! ## CSV quoting -/

theorem writeQuoted_eq_doubleQuotes (v : GoString) : writeQuoted v = doubleQuotes v := by
  induction v with
  | nil => rfl
  | cons c rest ih =>
    have hd : doubleQuotes (c :: rest) =
        (if c = 34 then [34, 34] else [c]) ++ doubleQuotes rest := by
      simp [doubleQuotes]
    rw [hd, writeQuoted, ih]
    by_cases h34 : c = 34
    · simp [h34]
    · simp only [h34, if_false]
      split_ifs with h13 h10
      · rw [h13]; rfl
      · rw [h10]; rfl
      · rfl

theorem fieldNeedsQuotes_of_hasSpecial (v : GoString) (h : hasSpecial v) :
    fieldNeedsQuotes v = true := by
  have hany : v.any (fun c => c = 10 || c = 13 || c = 34 || c = 44) = true := by
    rw [List.any_eq_true]
    rcases h with h | h | h | h
    · exact ⟨44, h, by decide⟩
    · exact ⟨34, h, by decide⟩
    · exact ⟨13, h, by decide⟩
    · exact ⟨10, h, by decide⟩
  have hne : v ≠ [] := by
    intro hnil
    rw [hnil] at hany
    simp at hany
  unfold fieldNeedsQuotes
  rw [if_neg hne]
  split_ifs <;> rfl

theorem writeFields_eq_Join (record : List GoString) :
    writeFields record = Join 44 (record.map writeField) := by
  induction record with
  | nil => rfl
  | cons f rest ih =>
    cases rest with
    | nil => rfl
    | cons g gs =>
      show writeField f ++ 44 :: writeFields (g :: gs) =
        writeField f ++ 44 :: Join 44 ((g :: gs).map writeField)
      rw [ih]

/-- C13: a column value that holds a comma, a double quote, a carriage return
or a line feed is emitted as a double quote, the value with every double quote
in it doubled, and a double quote, whatever the column; and the text emitted
for a record is the texts of its columns with commas between them and a line
feed after them. -/
theorem csv_quoting (tz : Location) (v : GoString) (h : hasSpecial v) :
    writeField v = [34] ++ doubleQuotes v ++ [34] ∧
    ∀ (input : GoString) (epochOnly : Bool) (r : List GoString),
      r ∈ (convertBodyfileToCSV tz input epochOnly).records → v ∈ r →
      csvWrite r = Join 44 (r.map writeField) ++ [10] ∧
      ([34] ++ doubleQuotes v ++ [34]) ∈ r.map writeField := by
  have hw : writeField v = [34] ++ doubleQuotes v ++ [34] := by
    unfold writeField
    rw [fieldNeedsQuotes_of_hasSpecial v h, writeQuoted_eq_doubleQuotes]
    rfl
  refine ⟨hw, ?_⟩
  intro input epochOnly r _ hv
  refine ⟨?_, ?_⟩
  · unfold csvWrite
    rw [writeFields_eq_Join]
  · rw [← hw]
    exact List.mem_map_of_mem _ hv

/-- C13 on the line of scenario S5, whose name `a,b` is emitted in quotes, and on
a name with a double quote and a carriage return in it. -/
theorem csv_quoting_witness :
    hasSpecial (ascii "a,b") ∧
    writeField (ascii "a,b") = ascii "\"a,b\"" ∧
    csvText (convertBodyfileToCSV CET (ascii "0|a,b|1|0|0|0|0|0|0|0|0\n") false) =
      ascii "0,Name,Inode,Mode,UID,GID,Size,ATime,MTime,CTime,CrTime\n0,\"a,b\",1,0,0,0,0,N/A,N/A,N/A,N/A\n" ∧
    csvText (convertBodyfileToCSV CET (ascii "0|a\"b\rc|1|0|0|0|0|0|0|0|0\n") true) =
      ascii "0,Name,Inode,Mode,UID,GID,Size,ATime,MTime,CTime,CrTime\n0,\"a\"\"b\rc\",1,0,0,0,0,0,0,0,0\n" := by
  have h : hasSpecial (ascii "a,b") := Or.inl (by decide)
  refine ⟨h, ?_, by decide, by decide⟩
  rw [(csv_quoting CET (ascii "a,b") h).1]
  decide

/-! ## Warnings and line numbers -/

theorem parseBodyfileLine_error (tz : Location) (line e : GoString) (h : parseBodyfileLine tz line = .error e) :
    e = ascii "invalid bodyfile format: expected 10 or 11 fields, got " ++
        FormatInt ((Split line pipe).length : Nat) ∧
    (Split line pipe).length ≠ 10 ∧ (Split line pipe).length ≠ 11 := by
  unfold parseBodyfileLine at h
  simp only at h
  split at h
  · injection h with h
    refine ⟨h.symm, by omega, by omega⟩
  · cases h

theorem lineRejected_iff (tz : Location) (text : GoString) :
    lineRejected tz text = true ↔
      (TrimSpace text ≠ [] ∧ (Split text pipe).length ≠ 10 ∧ (Split text pipe).length ≠ 11) := by
  unfold lineRejected
  rw [← Split_TrimSpace_length]
  cases hp : parseBodyfileLine tz (TrimSpace text) with
  | error e =>
    have := (parseBodyfileLine_error tz _ e hp).2
    simp [this]
  | ok e =>
    have := parseBodyfileLine_ok_length tz _ e hp
    simp only [Bool.and_false, Bool.false_eq_true, ne_eq, false_iff, not_and]
    intro _ h10 h11
    omega

theorem processLines_warnings (tz : Location) (epochOnly : Bool) (tokens : List GoString) (n : Nat)
    (out : Output) :
    (processLines tz epochOnly tokens n out).warnings =
      out.warnings ++ warningsFrom tz (n + 1) tokens := by
  induction tokens generalizing n out with
  | nil => simp [processLines, warningsFrom]
  | cons text rest ih =>
    unfold processLines
    simp only
    rw [warningsFrom]
    by_cases he : TrimSpace text = []
    · rw [if_pos he, ih]
      simp [warningOfLine, lineRejected, he]
    · rw [if_neg he]
      cases hp : parseBodyfileLine tz (TrimSpace text) with
      | error e =>
        simp only [ih]
        have hrej : lineRejected tz text = true := by simp [lineRejected, he, hp]
        have he' := (parseBodyfileLine_error tz _ e hp).1
        have htext : warningOfLine tz (n + 1) text = some (warningText (n + 1) e) := by
          rw [warningOfLine, if_pos hrej, he']
          simp only [warningText, List.append_assoc]
          rfl
        rw [htext]
        simp
      | ok entry =>
        simp only [ih]
        have hrej : lineRejected tz text = false := by simp [lineRejected, he, hp]
        simp [warningOfLine, hrej]

theorem convertBodyfileToCSV_warnings (tz : Location) (input : GoString) (epochOnly : Bool) :
    (convertBodyfileToCSV tz input epochOnly).warnings = warningsFrom tz 1 (scan input).tokens := by
  unfold convertBodyfileToCSV
  simp only
  cases (scan input).err <;> simp [processLines_warnings tz]

theorem getElem?_warningsFrom (tz : Location) (lines : List GoString) (k i : Nat) (t w : GoString)
    (ht : lines[i]? = some t) (hw : warningOfLine tz (k + i) t = some w) :
    (warningsFrom tz k lines)[warningIndex tz lines i]? = some w := by
  induction lines generalizing k i with
  | nil => simp at ht
  | cons x xs ih =>
    rw [warningsFrom]
    cases i with
    | zero =>
      simp only [List.getElem?_cons_zero, Option.some.injEq] at ht
      subst ht
      simp only [Nat.add_zero] at hw
      rw [hw]
      simp [warningIndex]
    | succ i =>
      simp only [List.getElem?_cons_succ] at ht
      have hw' : warningOfLine tz (k + 1 + i) t = some w := by
        have e : k + 1 + i = k + (i + 1) := by omega
        rw [e]
        exact hw
      have hrec := ih (k + 1) i ht hw'
      by_cases hx : lineRejected tz x = true
      · have hidx : warningIndex tz (x :: xs) (i + 1) = warningIndex tz xs i + 1 := by
          simp [warningIndex, List.filter_cons, hx]
        rw [hidx]
        simp only [warningOfLine, hx, if_true, Option.toList_some, List.singleton_append,
          List.getElem?_cons_succ]
        exact hrec
      · have hidx : warningIndex tz (x :: xs) (i + 1) = warningIndex tz xs i := by
          simp [warningIndex, List.filter_cons, hx]
        rw [hidx]
        simp only [warningOfLine, hx, Bool.false_eq_true, if_false, Option.toList_none,
          List.nil_append]
        exact hrec

theorem FormatInt_natCast (n : Nat) : FormatInt (n : Int) = formatUint n := by
  unfold FormatInt
  rw [if_neg (by omega)]
  simp

theorem formatUint_injective (a b : Nat) (h : formatUint a = formatUint b) : a = b := by
  rw [← decimalValue_formatUint a, ← decimalValue_formatUint b, h]

/-- Two texts that go on with a byte that is no digit after their digits have
the same digits. -/
theorem digits_unique (ds ds' r r' : GoString) (c c' : Byte)
    (hd : ds.all isDigit = true) (hd' : ds'.all isDigit = true)
    (hc : isDigit c = false) (hc' : isDigit c' = false)
    (h : ds ++ c :: r = ds' ++ c' :: r') : ds = ds' := by
  induction ds generalizing ds' with
  | nil =>
    cases ds' with
    | nil => rfl
    | cons d t =>
      simp only [List.nil_append, List.cons_append, List.cons.injEq] at h
      simp only [List.all_cons, Bool.and_eq_true] at hd'
      rw [h.1, hd'.1] at hc
      cases hc
  | cons d t ih =>
    simp only [List.all_cons, Bool.and_eq_true] at hd
    cases ds' with
    | nil =>
      simp only [List.nil_append, List.cons_append, List.cons.injEq] at h
      rw [← h.1, hd.1] at hc'
      cases hc'
    | cons d' t' =>
      simp only [List.all_cons, Bool.and_eq_true] at hd'
      simp only [List.cons_append, List.cons.injEq] at h
      rw [h.1, ih t' hd.2 hd'.2 h.2]

/-- The warning of a line names its number: the warnings of two lines with
different numbers differ. -/
theorem warningOfLine_number (tz : Location) (k k' : Nat) (t t' w : GoString)
    (h : warningOfLine tz k t = some w) (h' : warningOfLine tz k' t' = some w) : k = k' := by
  unfold warningOfLine at h h'
  split at h
  · split at h'
    · injection h with h
      injection h' with h'
      rw [← h'] at h
      rw [List.append_assoc, List.append_assoc, List.append_assoc, List.append_assoc] at h
      have h1 := List.append_cancel_left h
      have hq : ascii ": invalid bodyfile format: expected 10 or 11 fields, got " =
          58 :: ascii " invalid bodyfile format: expected 10 or 11 fields, got " := by decide
      rw [hq, FormatInt_natCast, FormatInt_natCast] at h1
      simp only [List.cons_append] at h1
      have h2 := digits_unique _ _ _ _ 58 58 (formatUint_all_isDigit k)
        (formatUint_all_isDigit k') (by decide) (by decide) h1
      exact formatUint_injective k k' h2
    · cases h'
  · cases h

theorem not_mem_warningsFrom (tz : Location) (lines : List GoString) (k j : Nat) (t w : GoString)
    (hj : j < k) (hw : warningOfLine tz j t = some w) : w ∉ warningsFrom tz k lines := by
  induction lines generalizing k with
  | nil => simp [warningsFrom]
  | cons x xs ih =>
    rw [warningsFrom]
    intro hm
    rcases List.mem_append.mp hm with h | h
    · rw [Option.mem_toList] at h
      have := warningOfLine_number tz k j x t w h hw
      omega
    · exact ih (k + 1) (by omega) h

/-- The warning of a rejected line stands exactly once among the warnings. -/
theorem count_warningsFrom (tz : Location) (lines : List GoString) (k i : Nat) (t w : GoString)
    (ht : lines[i]? = some t) (hw : warningOfLine tz (k + i) t = some w) :
    (warningsFrom tz k lines).count w = 1 := by
  induction lines generalizing k i with
  | nil => simp at ht
  | cons x xs ih =>
    rw [warningsFrom, List.count_append]
    cases i with
    | zero =>
      simp only [List.getElem?_cons_zero, Option.some.injEq] at ht
      subst ht
      simp only [Nat.add_zero] at hw
      rw [hw, List.count_eq_zero_of_not_mem (not_mem_warningsFrom tz xs (k + 1) k x w (by omega) hw)]
      simp
    | succ i =>
      simp only [List.getElem?_cons_succ] at ht
      have hw' : warningOfLine tz (k + 1 + i) t = some w := by
        have e : k + 1 + i = k + (i + 1) := by omega
        rw [e]
        exact hw
      rw [ih (k + 1) i ht hw']
      have hx : (warningOfLine tz k x).toList.count w = 0 := by
        apply List.count_eq_zero_of_not_mem
        intro hm
        rw [Option.mem_toList] at hm
        have := warningOfLine_number tz k (k + (i + 1)) x t w hm hw
        omega
      rw [hx]

/-- C16, as amended: lines are numbered from 1 and every line read counts, the
empty ones too: the warnings logged are the warnings of the lines read, each
with the number of its line, in order.  A line that is empty after trimming
gives no row and no warning.  The line read with number `i + 1`, when it is not
empty after trimming and has `n` fields, `n` neither 10 nor 11, gives no row and
exactly one warning, `Warning: Failed to parse line i+1: ... got n`.  Every
accepted line read, after a rejected line or not, gives its row.  The lines read
are the lines of the input before the first line of 65536 bytes or more: all
the lines of the input when the run ends without error. -/
theorem warnings_by_line_number (tz : Location) (input : GoString) (epochOnly : Bool) :
    linesRead input <+: inputLines input ∧
    ((convertBodyfileToCSV tz input epochOnly).err = none → linesRead input = inputLines input) ∧
    (convertBodyfileToCSV tz input epochOnly).warnings = warningsFrom tz 1 (linesRead input) ∧
    (convertBodyfileToCSV tz input epochOnly).records =
      header :: (linesRead input).filterMap (rowOfLine tz epochOnly) ∧
    (∀ (i : Nat) (text : GoString), (linesRead input)[i]? = some text → TrimSpace text = [] →
      rowOfLine tz epochOnly text = none ∧ warningOfLine tz (i + 1) text = none) ∧
    (∀ (i : Nat) (text : GoString), (linesRead input)[i]? = some text → TrimSpace text ≠ [] →
      (Split text pipe).length ≠ 10 → (Split text pipe).length ≠ 11 →
      rowOfLine tz epochOnly text = none ∧
      (convertBodyfileToCSV tz input epochOnly).warnings[warningIndex tz (linesRead input) i]? =
        some (ascii "Warning: Failed to parse line " ++ FormatInt ((i + 1 : Nat) : Int) ++
          ascii ": invalid bodyfile format: expected 10 or 11 fields, got " ++
          FormatInt ((Split text pipe).length : Nat)) ∧
      (convertBodyfileToCSV tz input epochOnly).warnings.count
        (ascii "Warning: Failed to parse line " ++ FormatInt ((i + 1 : Nat) : Int) ++
          ascii ": invalid bodyfile format: expected 10 or 11 fields, got " ++
          FormatInt ((Split text pipe).length : Nat)) = 1) ∧
    (∀ (j : Nat) (text : GoString) (row : List GoString), (linesRead input)[j]? = some text →
      rowOfLine tz epochOnly text = some row →
      (convertBodyfileToCSV tz input epochOnly).records[rowIndex tz (linesRead input) j]? =
        some row) := by
  rw [← scan_tokens_linesRead input]
  refine ⟨ scan_tokens_prefix input, ?_,
    convertBodyfileToCSV_warnings tz input epochOnly,
    convertBodyfileToCSV_records tz input epochOnly, ?_, ?_, ?_⟩
  · intro h
    exact scan_tokens_of_err_none input ((convertBodyfileToCSV_err tz input epochOnly).1 h)
  · intro i text _ he
    constructor
    · simp [rowOfLine, he]
    · simp [warningOfLine, lineRejected, he]
  · intro i text ht hne h10 h11
    have hrej : lineRejected tz text = true := (lineRejected_iff tz text).2 ⟨hne, h10, h11⟩
    have hw : warningOfLine tz (1 + i) text =
        some (ascii "Warning: Failed to parse line " ++ FormatInt ((i + 1 : Nat) : Int) ++
          ascii ": invalid bodyfile format: expected 10 or 11 fields, got " ++
          FormatInt ((Split text pipe).length : Nat)) := by
      rw [warningOfLine, if_pos hrej, Split_TrimSpace_length, Nat.add_comm 1 i]
    refine ⟨?_, ?_, ?_⟩
    · have hacc : (rowOfLine tz epochOnly text).isSome = false := by
        rw [rowOfLine_isSome tz]
        unfold lineRejected at hrej
        unfold lineAccepted
        cases hp : parseBodyfileLine tz (TrimSpace text) with
        | error e => simp
        | ok e => rw [hp] at hrej; simp at hrej
      cases hr : rowOfLine tz epochOnly text with
      | none => rfl
      | some r => rw [hr] at hacc; cases hacc
    · rw [convertBodyfileToCSV_warnings tz]
      exact getElem?_warningsFrom tz _ 1 i text _ ht hw
    · rw [convertBodyfileToCSV_warnings tz]
      exact count_warningsFrom tz _ 1 i text _ ht hw
  · intro j text row ht hr
    rw [convertBodyfileToCSV_records tz]
    exact getElem?_filterMap_rowOfLine tz epochOnly _ j text row ht hr

/-- The warnings and the records of a text of five lines: the second line has
8 fields and the third is empty. -/
theorem warnings_by_line_number_example :
    (convertBodyfileToCSV CET
        (ascii "0|a|1|2|3|4|5|0|0|0\n1|2|3|4|5|6|7|8\n  \n\n0|b|1|2|3|4|5|0|0|0|0\nx\n") true).warnings =
      [ascii "Warning: Failed to parse line 2: invalid bodyfile format: expected 10 or 11 fields, got 8",
        ascii "Warning: Failed to parse line 6: invalid bodyfile format: expected 10 or 11 fields, got 1"] ∧
    (convertBodyfileToCSV CET
        (ascii "0|a|1|2|3|4|5|0|0|0\n1|2|3|4|5|6|7|8\n  \n\n0|b|1|2|3|4|5|0|0|0|0\nx\n") true).records =
      [header,
        [ascii "0", ascii "a", ascii "1", ascii "2", ascii "3", ascii "4", ascii "5",
          ascii "0", ascii "0", ascii "0", ascii "0"],
        [ascii "0", ascii "b", ascii "1", ascii "2", ascii "3", ascii "4", ascii "5",
          ascii "0", ascii "0", ascii "0", ascii "0"]] := by
  refine ⟨by decide, by decide⟩

/-! ## The length of a line -/

/-- The scanner ends without error exactly when every piece of the input
between line feeds is shorter than its buffer. -/
theorem scanFrom_err (input cur : GoString) (n : Nat) (hn : n = cur.length)
    (hcur : (10 : Byte) ∉ cur) :
    (scanFrom input cur n).err = none ↔
      ∀ l ∈ Split (cur.reverse ++ input) 10, l.length < MaxScanTokenSize := by
  have hmem : (10 : Byte) ∉ cur.reverse := by simpa using hcur
  induction input generalizing cur n with
  | nil =>
    have hs := Split_of_not_mem cur.reverse 10 hmem
    unfold scanFrom
    simp only [List.append_nil, hs, List.mem_singleton, forall_eq, List.length_reverse]
    by_cases h0 : n = 0
    · simp only [h0, if_true, true_iff]
      rw [← hn, h0]
      decide
    · rw [if_neg h0]
      by_cases hbig : n ≥ MaxScanTokenSize
      · rw [if_pos hbig]
        simp only [reduceCtorEq, false_iff]
        omega
      · rw [if_neg hbig]
        simp only [true_iff]
        omega
  | cons c rest ih =>
    unfold scanFrom
    by_cases hbig : n ≥ MaxScanTokenSize
    · rw [if_pos hbig]
      simp only [reduceCtorEq, false_iff]
      intro hall
      obtain ⟨f, fs, hfs⟩ : ∃ f fs, Split (c :: rest) 10 = f :: fs := by
        cases hs : Split (c :: rest) 10 with
        | nil => exact absurd hs (Split_ne_nil _ _)
        | cons f fs => exact ⟨f, fs, rfl⟩
      have h1 := Split_append_left cur.reverse (c :: rest) f fs 10 hmem hfs
      have h2 := hall (cur.reverse ++ f) (by rw [h1]; exact List.mem_cons_self _ _)
      rw [List.length_append, List.length_reverse] at h2
      omega
    · rw [if_neg hbig]
      by_cases hc : c = 10
      · subst hc
        rw [if_pos rfl]
        have h1 := Split_append_left cur.reverse (10 :: rest) [] (Split rest 10) 10 hmem
          (Split_cons_sep 10 rest)
        simp only [List.append_nil] at h1
        have h2 := ih [] 0 rfl (by simp) (by simp)
        simp only [List.reverse_nil, List.nil_append] at h2
        simp only [h1, List.mem_cons, forall_eq_or_imp, List.length_reverse]
        refine h2.trans ?_
        constructor
        · intro h
          exact ⟨by omega, h⟩
        · intro h
          exact h.2
      · rw [if_neg hc]
        have hcur' : (10 : Byte) ∉ c :: cur := by
          intro hm
          rcases List.mem_cons.mp hm with h | h
          · exact hc h.symm
          · exact hcur h
        have h2 := ih (c :: cur) (n + 1) (by simp [hn]) hcur'
          (by rw [List.mem_reverse]; exact hcur')
        refine h2.trans ?_
        simp

theorem scan_err (input : GoString) :
    (scan input).err = none ↔ ∀ l ∈ Split input 10, l.length < MaxScanTokenSize := by
  simpa [scan] using scanFrom_err input [] 0 rfl (by simp)

/-- A line as long as the buffer of the scanner, or longer, stops the scanner
before it yields the line. -/
theorem scanFrom_long (l rest cur : GoString) (n : Nat) (hl : (10 : Byte) ∉ l)
    (hlen : MaxScanTokenSize ≤ n + l.length) :
    scanFrom (l ++ 10 :: rest) cur n = ⟨[], some .ErrTooLong⟩ := by
  induction l generalizing cur n with
  | nil =>
    simp only [List.length_nil, Nat.add_zero] at hlen
    simp only [List.nil_append]
    unfold scanFrom
    rw [if_pos hlen]
  | cons c t ih =>
    simp only [List.cons_append]
    unfold scanFrom
    by_cases hbig : n ≥ MaxScanTokenSize
    · rw [if_pos hbig]
    · rw [if_neg hbig]
      have hc : c ≠ 10 := fun h => hl (by simp [h])
      rw [if_neg hc]
      apply ih
      · exact fun hm => hl (List.mem_cons_of_mem _ hm)
      · simp only [List.length_cons] at hlen
        omega

theorem rowOfLine_of_length (tz : Location) (epochOnly : Bool) (text : GoString)
    (h : (Split text pipe).length = 10 ∨ (Split text pipe).length = 11) :
    ∃ row, rowOfLine tz epochOnly text = some row := by
  rw [← Split_TrimSpace_length] at h
  obtain ⟨e, he⟩ := parseBodyfileLine_ok_of_length tz (TrimSpace text) h
  exact ⟨_, rowOfLine_of_ok tz epochOnly text e he⟩

theorem convertBodyfileToCSV_err_some (tz : Location) (input : GoString) (epochOnly : Bool) (e : ScanError)
    (h : (scan input).err = some e) :
    (convertBodyfileToCSV tz input epochOnly).err =
      some (ascii "error reading input file: bufio.Scanner: token too long") := by
  unfold convertBodyfileToCSV
  simp only [h]

/-- C17, as amended: a run ends without read error exactly when every line of
the input, its carriage return counted and its line feed not, is shorter than
65536 bytes, the size of the buffer of the scanner; then the line source yields
every line of the input, and every line that splits into 10 or 11 fields gives
its row.  A line of 65536 bytes or more ends the run with the read error `token
too long`; the run has then read the lines before that line only, and the
records are the header and their rows. -/
theorem line_length_limit (tz : Location) (input : GoString) (epochOnly : Bool) :
    ((convertBodyfileToCSV tz input epochOnly).err = none ↔
      ∀ l ∈ Split input 10, l.length < 65536) ∧
    ((∀ l ∈ Split input 10, l.length < 65536) →
      (scan input).tokens = inputLines input ∧
      (convertBodyfileToCSV tz input epochOnly).records =
        header :: (inputLines input).filterMap (rowOfLine tz epochOnly) ∧
      ∀ (i : Nat) (text : GoString), (inputLines input)[i]? = some text →
        ((Split text pipe).length = 10 ∨ (Split text pipe).length = 11) →
        ∃ row, rowOfLine tz epochOnly text = some row ∧
          (convertBodyfileToCSV tz input epochOnly).records[rowIndex tz (inputLines input) i]? =
            some row) ∧
    (¬ (∀ l ∈ Split input 10, l.length < 65536) →
      (convertBodyfileToCSV tz input epochOnly).err =
        some (ascii "error reading input file: bufio.Scanner: token too long") ∧
      (scan input).tokens = linesRead input ∧
      (convertBodyfileToCSV tz input epochOnly).records =
        header :: (linesRead input).filterMap (rowOfLine tz epochOnly)) := by
  have hiff : (convertBodyfileToCSV tz input epochOnly).err = none ↔
      ∀ l ∈ Split input 10, l.length < 65536 := by
    rw [convertBodyfileToCSV_err tz, scan_err]
    rfl
  refine ⟨hiff, ?_, ?_⟩
  swap
  · intro hlong
    have hne : (scan input).err ≠ none := fun h =>
      hlong (hiff.1 ((convertBodyfileToCSV_err tz input epochOnly).2 h))
    refine ⟨?_, scan_tokens_linesRead input, ?_⟩
    · cases he : (scan input).err with
      | none => exact absurd he hne
      | some e => exact convertBodyfileToCSV_err_some tz input epochOnly e he
    · rw [convertBodyfileToCSV_records tz, scan_tokens_linesRead]
  intro hshort
  have herr : (scan input).err = none :=
    (convertBodyfileToCSV_err tz input epochOnly).1 (hiff.2 hshort)
  have htok := scan_tokens_of_err_none input herr
  refine ⟨htok, ?_, ?_⟩
  · rw [convertBodyfileToCSV_records tz, htok]
  · intro i text ht hlen
    obtain ⟨row, hrow⟩ := rowOfLine_of_length tz epochOnly text hlen
    refine ⟨row, hrow, ?_⟩
    rw [convertBodyfileToCSV_records tz, htok]
    exact getElem?_filterMap_rowOfLine tz epochOnly _ i text row ht hrow

/-- The amended C17 on a text of two short lines. -/
theorem line_length_limit_example :
    (∀ l ∈ Split (ascii "0|a|1|2|3|4|5|0|0|0\r\n0|b|1|2|3|4|5|0|0|0|7") 10, l.length < 65536) ∧
    (convertBodyfileToCSV CET (ascii "0|a|1|2|3|4|5|0|0|0\r\n0|b|1|2|3|4|5|0|0|0|7") true).err = none ∧
    (convertBodyfileToCSV CET (ascii "0|a|1|2|3|4|5|0|0|0\r\n0|b|1|2|3|4|5|0|0|0|7") true).records =
      [header,
        [ascii "0", ascii "a", ascii "1", ascii "2", ascii "3", ascii "4", ascii "5",
          ascii "0", ascii "0", ascii "0", ascii "0"],
        [ascii "0", ascii "b", ascii "1", ascii "2", ascii "3", ascii "4", ascii "5",
          ascii "0", ascii "0", ascii "0", ascii "7"]] := by
  refine ⟨by decide, by decide, by decide⟩

theorem lineWithName_no_lf (k : Nat) : (10 : Byte) ∉ lineWithName k := by
  unfold lineWithName
  have h1 : (10 : Byte) ∉ ascii "0|" := by decide
  have h2 : (10 : Byte) ∉ ascii "|1|2|3|4|5|0|0|0" := by decide
  simp only [List.mem_append, List.mem_replicate, not_or]
  exact ⟨⟨h1, fun h => absurd h.2 (by decide)⟩, h2⟩

theorem lineWithName_length (k : Nat) : (lineWithName k).length = k + 18 := by
  unfold lineWithName
  have h1 : (ascii "0|").length = 2 := by decide
  have h2 : (ascii "|1|2|3|4|5|0|0|0").length = 16 := by decide
  rw [List.length_append, List.length_append, List.length_replicate, h1, h2]
  omega

theorem lineWithName_fields (k : Nat) : (Split (lineWithName k) pipe).length = 10 := by
  rw [Split_length]
  unfold lineWithName
  have h1 : (ascii "0|").count pipe = 1 := by decide
  have h2 : (ascii "|1|2|3|4|5|0|0|0").count pipe = 8 := by decide
  have h3 : (List.replicate k (97 : Byte)).count pipe = 0 := by
    apply List.count_eq_zero_of_not_mem
    intro hm
    exact absurd (List.eq_of_mem_replicate hm) (by decide)
  rw [List.count_append, List.count_append, h1, h2, h3]

theorem dropCR_of_getLast (l : GoString) (h : l.getLast? ≠ some 13) : dropCR l = l := by
  unfold dropCR
  rw [if_neg h]

theorem lineWithName_getLast (k : Nat) : (lineWithName k).getLast? = some 48 := by
  unfold lineWithName
  have h : ascii "|1|2|3|4|5|0|0|0" = ascii "|1|2|3|4|5|0|0|" ++ [48] := by decide
  rw [h, ← List.append_assoc, List.getLast?_append]
  rfl

theorem inputLines_lineWithName (k : Nat) :
    inputLines (lineWithName k ++ [10]) = [lineWithName k] := by
  rw [inputLines_append_lf (lineWithName k) [] (lineWithName_no_lf k), inputLines_nil,
    dropCR_of_getLast]
  rw [lineWithName_getLast]
  decide

/-- C17 fails as stated on a text of one line of 10 fields whose name has 65536
bytes: the run returns the read error `token too long`, the scanner yields no
line, and the only record is the header. -/
theorem long_line_read_error :
    (Split (lineWithName 65536) pipe).length = 10 ∧
    inputLines (lineWithName 65536 ++ [10]) = [lineWithName 65536] ∧
    (scan (lineWithName 65536 ++ [10])).tokens = [] ∧
    (convertBodyfileToCSV CET (lineWithName 65536 ++ [10]) false).err =
      some (ascii "error reading input file: bufio.Scanner: token too long") ∧
    (convertBodyfileToCSV CET (lineWithName 65536 ++ [10]) false).records = [header] := by
  have hscan : scan (lineWithName 65536 ++ [10]) = ⟨[], some .ErrTooLong⟩ := by
    unfold scan
    apply scanFrom_long (lineWithName 65536) [] [] 0 (lineWithName_no_lf 65536)
    rw [lineWithName_length]
    decide
  refine ⟨lineWithName_fields 65536, inputLines_lineWithName 65536, ?_, ?_, ?_⟩
  · rw [hscan]
  · exact convertBodyfileToCSV_err_some CET _ false .ErrTooLong (by rw [hscan])
  · rw [convertBodyfileToCSV_records CET, hscan]
    rfl

/-! ## Carriage returns -/

theorem first_values (b : Nat) :
    first b = 0xF0 ∨ first b = 0xF1 ∨ first b = 0x02 ∨ first b = 0x13 ∨ first b = 0x03 ∨
    first b = 0x23 ∨ first b = 0x34 ∨ first b = 0x04 ∨ first b = 0x44 := by
  unfold first
  split_ifs <;> simp

theorem first_cases (b : Nat) (h : first b < 0xF0) :
    (first b &&& 7 = 2 ∨ first b &&& 7 = 3 ∨ first b &&& 7 = 4) ∧
    0x80 ≤ (acceptRanges (first b >>> 4)).1 := by
  rcases first_values b with e | e | e | e | e | e | e | e | e <;> rw [e] at h ⊢ <;>
    first | exact absurd h (by decide) | decide

theorem DecodeRune_ascii (p0 : Byte) (rest : GoString) (h : p0.val < RuneSelf) :
    DecodeRune (p0 :: rest) = (p0.val, 1) := by
  have hf : first p0.val = 0xF0 := by
    unfold first
    rw [if_pos (show p0.val < 0x80 from h)]
  unfold DecodeRune
  simp [hf]

/-- The bytes `DecodeRune` consumes after the first are continuation bytes, and
it consumes no more bytes than the string has. -/
theorem DecodeRune_size (p : GoString) (hp : p ≠ []) :
    1 ≤ (DecodeRune p).2 ∧ (DecodeRune p).2 ≤ p.length ∧
    ∀ i, 1 ≤ i → i < (DecodeRune p).2 → 0x80 ≤ (p.getD i 0).val := by
  cases p with
  | nil => exact absurd rfl hp
  | cons p0 rest =>
    have hlen : 1 ≤ (p0 :: rest).length := by simp
    unfold DecodeRune
    simp only
    by_cases h1 : first p0.val ≥ 0xF0
    · rw [if_pos h1]
      exact ⟨Nat.le_refl _, hlen, fun i hi1 hi2 => by omega⟩
    · rw [if_neg h1]
      obtain ⟨hsz, hacc⟩ := first_cases p0.val (by omega)
      by_cases h3 : (p0 :: rest).length < first p0.val &&& 7
      · rw [if_pos h3]
        exact ⟨Nat.le_refl _, hlen, fun i hi1 hi2 => by omega⟩
      · rw [if_neg h3]
        by_cases h4 : ((p0 :: rest).getD 1 0).val < (acceptRanges (first p0.val >>> 4)).1 ∨
            (acceptRanges (first p0.val >>> 4)).2 < ((p0 :: rest).getD 1 0).val
        · rw [if_pos h4]
          exact ⟨Nat.le_refl _, hlen, fun i hi1 hi2 => by omega⟩
        · rw [if_neg h4]
          have hb1 : 0x80 ≤ ((p0 :: rest).getD 1 0).val := by omega
          by_cases h5 : first p0.val &&& 7 ≤ 2
          · rw [if_pos h5]
            refine ⟨by omega, by omega, fun i hi1 hi2 => ?_⟩
            have : i = 1 := by omega
            subst this
            exact hb1
          · rw [if_neg h5]
            by_cases h6 : ((p0 :: rest).getD 2 0).val < 0x80 ∨ 0xBF < ((p0 :: rest).getD 2 0).val
            · rw [if_pos h6]
              exact ⟨Nat.le_refl _, hlen, fun i hi1 hi2 => by omega⟩
            · rw [if_neg h6]
              have hb2 : 0x80 ≤ ((p0 :: rest).getD 2 0).val := by omega
              by_cases h7 : first p0.val &&& 7 ≤ 3
              · rw [if_pos h7]
                refine ⟨by omega, by omega, fun i hi1 hi2 => ?_⟩
                have : i = 1 ∨ i = 2 := by omega
                rcases this with rfl | rfl
                · exact hb1
                · exact hb2
              · rw [if_neg h7]
                by_cases h8 : ((p0 :: rest).getD 3 0).val < 0x80 ∨
                    0xBF < ((p0 :: rest).getD 3 0).val
                · rw [if_pos h8]
                  exact ⟨Nat.le_refl _, hlen, fun i hi1 hi2 => by omega⟩
                · rw [if_neg h8]
                  have hb3 : 0x80 ≤ ((p0 :: rest).getD 3 0).val := by omega
                  refine ⟨by omega, by omega, fun i hi1 hi2 => ?_⟩
                  have : i = 1 ∨ i = 2 ∨ i = 3 := by omega
                  rcases this with rfl | rfl | rfl
                  · exact hb1
                  · exact hb2
                  · exact hb3

theorem getD_append_CR (p : GoString) (i : Nat) :
    ((p ++ [13]).getD i 0).val =
      if i < p.length then (p.getD i 0).val else if i = p.length then 13 else 0 := by
  by_cases h1 : i < p.length
  · rw [if_pos h1, List.getD_append _ _ _ _ h1]
  · rw [if_neg h1]
    by_cases h2 : i = p.length
    · rw [if_pos h2, List.getD_append_right _ _ _ _ (by omega), h2]
      simp only [Nat.sub_self, List.getD_cons_zero]
      rfl
    · rw [if_neg h2, List.getD_eq_default]
      · rfl
      · rw [List.length_append]
        simp only [List.length_singleton]
        omega

/-- A carriage return after a string does not change the first rune of the
string. -/
theorem DecodeRune_append_CR (p : GoString) (hp : p ≠ []) :
    DecodeRune (p ++ [13]) = DecodeRune p := by
  cases p with
  | nil => exact absurd rfl hp
  | cons p0 rest =>
    rw [List.cons_append]
    have e1 := getD_append_CR (p0 :: rest) 1
    have e2 := getD_append_CR (p0 :: rest) 2
    have e3 := getD_append_CR (p0 :: rest) 3
    rw [List.cons_append] at e1 e2 e3
    have hl : (p0 :: (rest ++ [13])).length = (p0 :: rest).length + 1 := by simp
    unfold DecodeRune
    simp only
    by_cases h1 : first p0.val ≥ 0xF0
    · rw [if_pos h1, if_pos h1]
    · rw [if_neg h1, if_neg h1]
      obtain ⟨hsz, hacc⟩ := first_cases p0.val (by omega)
      rw [hl, e1, e2, e3]
      have hlen1 : 1 ≤ (p0 :: rest).length := by simp
      generalize (p0 :: rest).length = len at hlen1 ⊢
      generalize ((p0 :: rest).getD 1 0).val = b1
      generalize ((p0 :: rest).getD 2 0).val = b2
      generalize ((p0 :: rest).getD 3 0).val = b3
      generalize first p0.val &&& 7 = sz at hsz ⊢
      generalize (acceptRanges (first p0.val >>> 4)).1 = lo at hacc ⊢
      generalize (acceptRanges (first p0.val >>> 4)).2 = hi
      have hlo : 13 < lo := by omega
      have hlen : len = 1 ∨ len = 2 ∨ len = 3 ∨ 4 ≤ len := by omega
      rcases hlen with rfl | rfl | rfl | h4
      · rcases hsz with rfl | rfl | rfl <;>
          simp only [hlo, true_or, or_true, reduceIte, Nat.reduceAdd, Nat.reduceLT, Nat.reduceLeDiff,
            Nat.lt_irrefl, Nat.reduceEqDiff, Nat.le_refl, OfNat.ofNat_ne_one, if_true, if_false]
      · rcases hsz with rfl | rfl | rfl <;>
          (simp only [hlo, true_or, or_true, reduceIte, Nat.reduceAdd, Nat.reduceLT,
            Nat.reduceLeDiff, Nat.lt_irrefl, Nat.reduceEqDiff, Nat.le_refl, OfNat.ofNat_ne_one,
            if_true, if_false]
           first | done | simp [hlo])
      · rcases hsz with rfl | rfl | rfl <;>
          (simp only [hlo, true_or, or_true, reduceIte, Nat.reduceAdd, Nat.reduceLT,
            Nat.reduceLeDiff, Nat.lt_irrefl, Nat.reduceEqDiff, Nat.le_refl, OfNat.ofNat_ne_one,
            if_true, if_false]
           first | done | simp [hlo])
      · have g1 : 1 < len := by omega
        have g2 : 2 < len := by omega
        have g3 : 3 < len := by omega
        have g4 : ¬ len + 1 < sz := by omega
        have g5 : ¬ len < sz := by omega
        simp only [g1, g2, g3, g4, g5, if_true, if_false]

theorem DecodeRune_CR : DecodeRune [13] = (13, 1) := DecodeRune_ascii 13 [] (by decide)

theorem trimLeftLoop_succ (fuel : Nat) (s : GoString) (hs : s ≠ []) :
    trimLeftLoop (fuel + 1) s =
      if IsSpace (DecodeRune s).1 then trimLeftLoop fuel (s.drop (DecodeRune s).2) else s := by
  rw [trimLeftLoop.eq_2]
  simp only [hs, if_false]

theorem trimLeftLoop_nil (fuel : Nat) : trimLeftLoop fuel [] = [] := by
  cases fuel <;> simp [trimLeftLoop]

theorem trimLeftLoop_append_CR (fuel : Nat) (p : GoString) (h : p.length < fuel) :
    trimLeftLoop fuel (p ++ [13]) =
      if trimLeftLoop fuel p = [] then [] else trimLeftLoop fuel p ++ [13] := by
  induction fuel generalizing p with
  | zero => omega
  | succ fuel ih =>
    by_cases hp : p = []
    · subst hp
      rw [trimLeftLoop_nil, if_pos rfl, List.nil_append, trimLeftLoop_succ fuel [13] (by simp),
        DecodeRune_CR]
      have h13 : IsSpace 13 = true := by decide
      simp only [h13, if_true]
      exact trimLeftLoop_nil fuel
    · have hsz := DecodeRune_size p hp
      rw [trimLeftLoop_succ fuel (p ++ [13]) (by simp), trimLeftLoop_succ fuel p hp,
        DecodeRune_append_CR p hp]
      by_cases hsp : IsSpace (DecodeRune p).1 = true
      · rw [if_pos hsp, if_pos hsp, List.drop_append_of_le_length hsz.2.1]
        exact ih _ (by rw [List.length_drop]; omega)
      · rw [if_neg hsp, if_neg hsp, if_neg hp]

theorem TrimLeftFunc_append_CR (p : GoString) :
    TrimLeftFunc (p ++ [13]) = if TrimLeftFunc p = [] then [] else TrimLeftFunc p ++ [13] := by
  have h := trimLeftLoop_append_CR (p.length + 1) p (by omega)
  rw [trimLeftLoop_fuel p.length 1 p (Nat.le_refl _)] at h
  unfold TrimLeftFunc
  rw [List.length_append, List.length_singleton]
  exact h

theorem lastIndexLoop_append (t x : GoString) (fuel i : Nat) (hi : i ≤ t.length) :
    lastIndexLoop (t ++ x) fuel i = lastIndexLoop t fuel i := by
  induction fuel generalizing i with
  | zero => simp [lastIndexLoop]
  | succ fuel ih =>
    unfold lastIndexLoop
    rw [List.take_append_of_le_length hi]
    simp only
    split_ifs
    · rfl
    · exact ih _ (by omega)
    · rfl

theorem DecodeLastRune_append_CR (t : GoString) : DecodeLastRune (t ++ [13]) = (13, 1) := by
  have hr : ((t ++ [13]).getD ((t ++ [13]).length - 1) 0).val = 13 := by
    rw [getD_append_CR]
    simp
  unfold DecodeLastRune
  simp only [hr]
  rw [if_neg (by simp only [List.length_append, List.length_singleton, Nat.cast_add, Nat.cast_one]; omega),
    if_pos (by decide)]

theorem TrimRightFunc_append_CR (t : GoString) :
    TrimRightFunc (t ++ [13]) = TrimRightFunc t := by
  have h1 : lastIndexLoop (t ++ [13]) (t.length + 1) (t.length + 1) =
      lastIndexLoop t t.length t.length := by
    rw [lastIndexLoop.eq_2]
    have e : (t ++ [13]).take (t.length + 1) = t ++ [13] := by
      rw [List.take_of_length_le]
      simp
    have h13 : IsSpace 13 = true := by decide
    simp only [e, DecodeLastRune_append_CR, h13, if_true, Nat.add_sub_cancel]
    rw [if_neg (by omega)]
    exact lastIndexLoop_append t [13] _ _ (Nat.le_refl _)
  unfold TrimRightFunc
  rw [List.length_append, List.length_singleton, h1]
  have hs := lastIndexLoop_spec t t.length t.length (Nat.le_refl _) (Nat.le_refl _)
  cases hl : lastIndexLoop t t.length t.length with
  | none => rfl
  | some i =>
    rw [hl] at hs
    have hi : i < t.length := hs.1
    have hne : t.drop i ≠ [] := by
      intro h0
      have := congrArg List.length h0
      rw [List.length_drop] at this
      simp only [List.length_nil] at this
      omega
    have hw := (DecodeRune_size (t.drop i) hne).2.1
    rw [List.length_drop] at hw
    simp only
    rw [List.getD_append _ _ _ _ hi, List.drop_append_of_le_length (Nat.le_of_lt hi),
      DecodeRune_append_CR _ hne]
    split_ifs
    · rw [List.take_append_of_le_length (by omega)]
    · rw [List.take_append_of_le_length (by omega)]

theorem TrimFunc_append_CR (p : GoString) : TrimFunc (p ++ [13]) = TrimFunc p := by
  unfold TrimFunc
  rw [TrimLeftFunc_append_CR]
  split_ifs with h
  · rw [h]
  · exact TrimRightFunc_append_CR _

/-- A carriage return at the end of a string is trimmed away: the string gives
the same trimmed text with it and without it. -/
theorem TrimSpace_append_CR (s : GoString) : TrimSpace (s ++ [13]) = TrimSpace s := by
  induction s with
  | nil => decide
  | cons c rest ih =>
    rw [List.cons_append]
    unfold TrimSpace
    split_ifs with h1 h2
    · exact TrimFunc_append_CR (c :: rest)
    · exact ih
    · have e : (c :: (rest ++ [13])).reverse = 13 :: (c :: rest).reverse := by
        rw [← List.cons_append, List.reverse_append]
        rfl
      rw [e, trimSpaceStop.eq_2]
      rw [if_neg (by decide), if_pos (by decide)]

theorem TrimSpace_dropCR (l : GoString) : TrimSpace (dropCR l) = TrimSpace l := by
  unfold dropCR
  split_ifs with h
  · obtain ⟨init, rfl⟩ : ∃ init, l = init ++ [13] := by
      rcases List.eq_nil_or_concat l with h0 | ⟨init, b, rfl⟩
      · subst h0
        simp at h
      · rw [List.concat_eq_append, List.getLast?_append] at h
        have hb : b = 13 := by simpa [Option.or] using h
        subst hb
        exact ⟨init, by rw [List.concat_eq_append]⟩
    rw [List.dropLast_concat, TrimSpace_append_CR]
  · rfl

theorem toCRLF_cons_lf (rest : GoString) : toCRLF (10 :: rest) = 13 :: 10 :: toCRLF rest := by
  simp [toCRLF]

theorem toCRLF_cons_ne (c : Byte) (rest : GoString) (h : c ≠ 10) :
    toCRLF (c :: rest) = c :: toCRLF rest := by
  simp [toCRLF, h]

theorem toCRLF_append (a b : GoString) : toCRLF (a ++ b) = toCRLF a ++ toCRLF b := by
  simp [toCRLF]

theorem toCRLF_of_not_mem (l : GoString) (h : (10 : Byte) ∉ l) : toCRLF l = l := by
  induction l with
  | nil => rfl
  | cons c rest ih =>
    rw [List.mem_cons, not_or] at h
    rw [toCRLF_cons_ne c rest (fun e => h.1 e.symm), ih h.2]

theorem scanFrom_cons (c : Byte) (x cur : GoString) (n : Nat) :
    scanFrom (c :: x) cur n =
      if n ≥ MaxScanTokenSize then ⟨[], some .ErrTooLong⟩
      else if c = 10 then
        ⟨dropCR cur.reverse :: (scanFrom x [] 0).tokens, (scanFrom x [] 0).err⟩
      else scanFrom x (c :: cur) (n + 1) := by
  rw [scanFrom.eq_2]

/-- The scanner over the text with CRLF line ends: when it reads to the end
without an error, so does the scanner over the text itself, and the tokens of
the two differ by carriage returns that trimming removes. -/
theorem scanFrom_toCRLF (input cur : GoString) (n : Nat)
    (h : (scanFrom (toCRLF input) cur n).err = none) :
    (scanFrom input cur n).err = none ∧
    (scanFrom (toCRLF input) cur n).tokens.map TrimSpace =
      (scanFrom input cur n).tokens.map TrimSpace := by
  induction input generalizing cur n with
  | nil => exact ⟨h, rfl⟩
  | cons c rest ih =>
    by_cases hc : c = 10
    · subst hc
      have h13 : ¬ ((13 : Byte) = 10) := by decide
      rw [toCRLF_cons_lf] at h ⊢
      simp only [scanFrom_cons, h13, if_false, if_true] at h ⊢
      by_cases h1 : n ≥ MaxScanTokenSize
      · rw [if_pos h1] at h
        exact absurd h (by simp)
      · rw [if_neg h1] at h ⊢
        rw [if_neg h1]
        by_cases h2 : n + 1 ≥ MaxScanTokenSize
        · rw [if_pos h2] at h
          exact absurd h (by simp)
        · rw [if_neg h2] at h ⊢
          obtain ⟨i1, i2⟩ := ih [] 0 h
          refine ⟨i1, ?_⟩
          simp only [List.map_cons, i2, TrimSpace_dropCR, List.reverse_cons, TrimSpace_append_CR]
    · rw [toCRLF_cons_ne c rest hc] at h ⊢
      simp only [scanFrom_cons, hc, if_false] at h ⊢
      by_cases h1 : n ≥ MaxScanTokenSize
      · rw [if_pos h1] at h
        exact absurd h (by simp)
      · rw [if_neg h1] at h ⊢
        rw [if_neg h1]
        exact ih _ _ h

/-- The loop reads the tokens only through their trimmed text. -/
theorem processLines_congr (tz : Location) (epochOnly : Bool) (t1 t2 : List GoString)
    (h : t1.map TrimSpace = t2.map TrimSpace) (k : Nat) (out : Output) :
    processLines tz epochOnly t1 k out = processLines tz epochOnly t2 k out := by
  induction t1 generalizing t2 k out with
  | nil =>
    cases t2 with
    | nil => rfl
    | cons b t2 => simp at h
  | cons a t1 ih =>
    cases t2 with
    | nil => simp at h
    | cons b t2 =>
      rw [List.map_cons, List.map_cons, List.cons.injEq] at h
      unfold processLines
      simp only [h.1]
      split_ifs
      · exact ih t2 h.2 _ _
      · cases parseBodyfileLine tz (TrimSpace b) with
        | error e => exact ih t2 h.2 _ _
        | ok entry => exact ih t2 h.2 _ _

theorem convertBodyfileToCSV_toCRLF (tz : Location) (input : GoString) (epochOnly : Bool)
    (h : (scan (toCRLF input)).err = none) :
    convertBodyfileToCSV tz (toCRLF input) epochOnly = convertBodyfileToCSV tz input epochOnly := by
  obtain ⟨h1, h2⟩ := scanFrom_toCRLF input [] 0 h
  have h1' : (scan input).err = none := h1
  have h2' : (scan (toCRLF input)).tokens.map TrimSpace = (scan input).tokens.map TrimSpace := h2
  unfold convertBodyfileToCSV
  simp only [h, h1']
  exact processLines_congr tz epochOnly _ _ h2' _ _

/-- The lines of the text with CRLF line ends are the lines of the text, each
with at most a carriage return more. -/
theorem Split_toCRLF (input : GoString) :
    List.Forall₂ (fun l2 l => l2 = l ∨ l2 = l ++ [13])
      (Split (toCRLF input) 10) (Split input 10) := by
  induction input with
  | nil => exact List.Forall₂.cons (Or.inl rfl) List.Forall₂.nil
  | cons c rest ih =>
    by_cases hc : c = 10
    · subst hc
      rw [toCRLF_cons_lf, Split_cons_sep,
        Split_cons_ne 13 10 (10 :: toCRLF rest) [] (Split (toCRLF rest) 10) (by decide)
          (Split_cons_sep 10 _)]
      exact List.Forall₂.cons (Or.inr rfl) ih
    · rw [toCRLF_cons_ne c rest hc]
      cases h1 : Split (toCRLF rest) 10 with
      | nil => exact absurd h1 (Split_ne_nil _ _)
      | cons f2 fs2 =>
        cases h2 : Split rest 10 with
        | nil => exact absurd h2 (Split_ne_nil _ _)
        | cons f fs =>
          rw [h1, h2] at ih
          rw [Split_cons_ne c 10 _ f2 fs2 hc h1, Split_cons_ne c 10 _ f fs hc h2]
          cases ih with
          | cons hr ht =>
            refine List.Forall₂.cons ?_ ht
            rcases hr with rfl | rfl
            · exact Or.inl rfl
            · exact Or.inr rfl

theorem scan_toCRLF_err (input : GoString)
    (h : ∀ l ∈ Split input 10, l.length + 1 < MaxScanTokenSize) :
    (scan (toCRLF input)).err = none := by
  rw [scan_err]
  have hf := Split_toCRLF input
  generalize Split (toCRLF input) 10 = a at hf
  generalize Split input 10 = b at hf h
  induction hf with
  | nil => intro l hl; simp at hl
  | cons hr _ ih =>
    intro l hl
    rw [List.mem_cons] at hl
    rcases hl with rfl | hl
    · have := h _ (List.mem_cons_self _ _)
      rcases hr with rfl | rfl
      · omega
      · rw [List.length_append, List.length_singleton]
        omega
    · exact ih (fun l hl => h l (List.mem_cons_of_mem _ hl)) l hl

/-! ### No carriage return at the end of the trimmed line -/

theorem getD_drop_zero (p : GoString) (k j : Nat) :
    (p.drop k).getD j 0 = p.getD (k + j) 0 := by
  rw [List.getD_eq_getElem?_getD, List.getD_eq_getElem?_getD, List.getElem?_drop]

theorem getLast_take (t : GoString) (k : Nat) (h1 : 1 ≤ k) (h2 : k ≤ t.length) :
    (t.take k).getLast? = some (t.getD (k - 1) 0) := by
  rw [List.getLast?_eq_getElem?, List.length_take, Nat.min_eq_left h2,
    List.getElem?_take_of_lt (by omega), List.getD_eq_getElem _ _ (by omega)]
  exact List.getElem?_eq_getElem (by omega)

theorem some_ne_CR (b : Byte) (h : b.val ≠ 13) : some b ≠ some (13 : Byte) := by
  intro e
  rw [Option.some.injEq] at e
  subst e
  exact h rfl

/-- When the last rune of a string starts with an ASCII byte, it is that
byte. -/
theorem DecodeLastRune_first (p : GoString) (hp : p ≠ [])
    (hlt : (p.getD (p.length - (DecodeLastRune p).2) 0).val < RuneSelf) :
    (DecodeLastRune p).1 = (p.getD (p.length - (DecodeLastRune p).2) 0).val := by
  have hlen : 0 < p.length := List.length_pos.mpr hp
  revert hlt
  unfold DecodeLastRune
  simp only
  rw [if_neg (by omega)]
  by_cases h1 : (p.getD (p.length - 1) 0).val < RuneSelf
  · rw [if_pos h1]
    intro _
    rfl
  · rw [if_neg h1]
    generalize (if (p.length : Int) - 4 < 0 then (0 : Int) else (p.length : Int) - 4) = lim
    have hL := lastRuneStart_le p lim 4 ((p.length : Int) - 2)
    generalize lastRuneStart p lim 4 ((p.length : Int) - 2) = L at hL
    generalize hst : (if L < 0 then (0 : Int) else L) = start
    have hstart : 0 ≤ start ∧ start < p.length := by
      rw [← hst]
      split_ifs <;> omega
    by_cases h2 : start + ((DecodeRune (p.drop start.toNat)).2 : Int) ≠ (p.length : Int)
    · rw [if_pos h2]
      intro hlt
      exact absurd hlt h1
    · rw [if_neg h2]
      have h4 : p.length - (DecodeRune (p.drop start.toNat)).2 = start.toNat := by omega
      rw [h4]
      intro hlt
      have hg := getD_drop_zero p start.toNat 0
      rw [Nat.add_zero] at hg
      rw [← hg] at hlt ⊢
      cases hq : p.drop start.toNat with
      | nil =>
        have := congrArg List.length hq
        rw [List.length_drop] at this
        simp only [List.length_nil] at this
        omega
      | cons q0 qrest =>
        rw [hq] at hlt
        rw [DecodeRune_ascii q0 qrest hlt]
        rfl

/-- The rune the search of `TrimRightFunc` stops at is not a space. -/
theorem lastIndexLoop_first (s : GoString) (fuel i i1 : Nat)
    (h : lastIndexLoop s fuel i = some i1) (hi : i ≤ s.length)
    (hlt : (s.getD i1 0).val < RuneSelf) : IsSpace (s.getD i1 0).val = false := by
  induction fuel generalizing i with
  | zero => simp [lastIndexLoop] at h
  | succ fuel ih =>
    unfold lastIndexLoop at h
    by_cases h0 : i = 0
    · rw [if_pos h0] at h
      cases h
    · rw [if_neg h0] at h
      simp only at h
      have hne : s.take i ≠ [] := by
        intro e
        have := congrArg List.length e
        rw [List.length_take] at this
        simp only [List.length_nil] at this
        omega
      have hb := DecodeLastRune_bytes (s.take i) hne
      have hl : (s.take i).length = i := by rw [List.length_take]; omega
      rw [hl] at hb
      by_cases hsp : IsSpace (DecodeLastRune (s.take i)).1 = true
      · rw [if_pos hsp] at h
        exact ih _ h (by omega)
      · rw [if_neg hsp] at h
        rw [Option.some.injEq] at h
        have hf := DecodeLastRune_first (s.take i) hne
        rw [hl, h] at hf
        have hg : (s.take i).getD i1 0 = s.getD i1 0 := by
          rw [List.getD_eq_getElem?_getD, List.getD_eq_getElem?_getD,
            List.getElem?_take_of_lt (by omega)]
        rw [hg] at hf
        rw [← hf hlt]
        simpa using hsp

theorem TrimRightFunc_no_CR (t : GoString) : (TrimRightFunc t).getLast? ≠ some 13 := by
  have hs := lastIndexLoop_spec t t.length t.length (Nat.le_refl _) (Nat.le_refl _)
  have hfirst := lastIndexLoop_first t t.length t.length
  unfold TrimRightFunc
  cases hl : lastIndexLoop t t.length t.length with
  | none => simp
  | some i =>
    rw [hl] at hs
    have hi : i < t.length := hs.1
    have hne : t.drop i ≠ [] := by
      intro h0
      have := congrArg List.length h0
      rw [List.length_drop] at this
      simp only [List.length_nil] at this
      omega
    have hsz := DecodeRune_size (t.drop i) hne
    rw [List.length_drop] at hsz
    simp only
    by_cases hge : (t.getD i 0).val ≥ RuneSelf
    · rw [if_pos hge, getLast_take t _ (by omega) (by omega)]
      apply some_ne_CR
      by_cases hw : (DecodeRune (t.drop i)).2 = 1
      · rw [hw, Nat.add_sub_cancel]
        unfold RuneSelf at hge
        omega
      · have := hsz.2.2 ((DecodeRune (t.drop i)).2 - 1) (by omega) (by omega)
        rw [getD_drop_zero] at this
        have e : i + ((DecodeRune (t.drop i)).2 - 1) = i + (DecodeRune (t.drop i)).2 - 1 := by
          omega
        rw [e] at this
        omega
    · rw [if_neg hge, getLast_take t _ (by omega) (by omega), Nat.add_sub_cancel]
      have hns := hfirst i hl (Nat.le_refl _) (by omega)
      apply some_ne_CR
      intro e
      rw [e] at hns
      exact absurd hns (by decide)

theorem trimSpaceStop_no_CR (r : GoString) : (trimSpaceStop r).getLast? ≠ some 13 := by
  induction r with
  | nil => simp [trimSpaceStop]
  | cons c rest ih =>
    unfold trimSpaceStop
    split_ifs with h1 h2
    · exact TrimRightFunc_no_CR _
    · exact ih
    · rw [List.reverse_cons, List.getLast?_append_of_ne_nil _ (by simp)]
      simp only [List.getLast?_singleton]
      intro e
      rw [Option.some.injEq] at e
      subst e
      exact h2 (by decide)

/-- The trimmed line does not end with a carriage return. -/
theorem TrimSpace_no_CR (s : GoString) : (TrimSpace s).getLast? ≠ some 13 := by
  induction s with
  | nil => simp [TrimSpace]
  | cons c rest ih =>
    unfold TrimSpace
    split_ifs with h1 h2
    · exact TrimRightFunc_no_CR _
    · exact ih
    · exact trimSpaceStop_no_CR _

/-- The last field of a string that does not end with a carriage return does
not end with one. -/
theorem Split_getLast_no_CR (s : GoString) (sep : Byte) (hs : s.getLast? ≠ some 13)
    (last : GoString) (h : (Split s sep).getLast? = some last) : last.getLast? ≠ some 13 := by
  by_cases hl : last = []
  · rw [hl]
    simp
  · have hj := Join_Split s sep
    rcases List.eq_nil_or_concat (Split s sep) with h0 | ⟨init, x, hx⟩
    · exact absurd h0 (Split_ne_nil s sep)
    · rw [List.concat_eq_append] at hx
      rw [hx, List.getLast?_append_of_ne_nil _ (by simp)] at h
      simp only [List.getLast?_singleton, Option.some.injEq] at h
      subst h
      rw [hx] at hj
      by_cases hi : init = []
      · subst hi
        simp only [List.nil_append, Join] at hj
        rw [hj]
        exact hs
      · rw [Join_append_singleton sep init x hi] at hj
        have e : Join sep init ++ sep :: x = (Join sep init ++ [sep]) ++ x := by simp
        rw [e] at hj
        rw [← hj, List.getLast?_append_of_ne_nil _ hl] at hs
        exact hs

theorem convertTimestamp_no_CR (tz : Location) (x : GoString) : (convertTimestamp tz x).getLast? ≠ some 13 := by
  unfold convertTimestamp
  split_ifs
  · decide
  · cases ParseInt x with
    | error e =>
      simp only
      decide
    | ok v =>
      simp only
      rw [Format_layout, List.getLast?_append_of_ne_nil _ (by decide)]
      decide

theorem rowOfLine_no_CR (tz : Location) (epochOnly : Bool) (text : GoString) (r : List GoString)
    (h : rowOfLine tz epochOnly text = some r) :
    (r.getD 10 []).getLast? ≠ some 13 ∧
    ((Split (TrimSpace text) pipe).length = 10 → (r.getD 9 []).getLast? ≠ some 13) := by
  obtain ⟨e, he, rfl⟩ := rowOfLine_eq_some tz epochOnly text r h
  have hlast := Split_getLast_no_CR (TrimSpace text) pipe (TrimSpace_no_CR text)
  have ht := parseBodyfileLine_ok_times tz (TrimSpace text) e he
  have hlen := parseBodyfileLine_ok_length tz (TrimSpace text) e he
  rw [List.getLast?_eq_getElem?] at hlast
  cases epochOnly with
  | false =>
    have e10 : (recordOf false e).getD 10 [] = e.CrTimeReadable := rfl
    have e9 : (recordOf false e).getD 9 [] = e.CTimeReadable := rfl
    rw [e10, e9, ht.2.2.2.2.2.2.2.2, ht.2.2.2.2.2.2.2.1]
    exact ⟨convertTimestamp_no_CR tz _, fun _ => convertTimestamp_no_CR tz _⟩
  | true =>
    have e10 : (recordOf true e).getD 10 [] = e.CrTime := rfl
    have e9 : (recordOf true e).getD 9 [] = e.CTime := rfl
    rw [e10, e9]
    constructor
    · rcases hlen with h10 | h11
      · rw [ht.2.2.2.2.1 h10]
        decide
      · apply hlast
        rw [h11]
        exact ht.2.2.2.1 h11
    · intro h10
      apply hlast
      rw [h10]
      exact ht.2.2.1

/-- C18, as amended: a run on the text with every LF replaced by CRLF that ends
without a read error has the same result as the run on the text itself: the
same records, the same warnings with the same line numbers, the same return
value, in both modes.  It ends without a read error when every line of the
text has fewer than 65535 bytes.  The trimmed line never ends with a carriage
return, so the last column of a record never ends with one, nor does the
column before it when the line has 10 fields. -/
theorem crlf_same_result (tz : Location) (input : GoString) (epochOnly : Bool) :
    ((convertBodyfileToCSV tz (toCRLF input) epochOnly).err = none →
      convertBodyfileToCSV tz (toCRLF input) epochOnly = convertBodyfileToCSV tz input epochOnly) ∧
    ((∀ l ∈ Split input 10, l.length + 1 < MaxScanTokenSize) →
      (convertBodyfileToCSV tz (toCRLF input) epochOnly).err = none) ∧
    (∀ text, (TrimSpace text).getLast? ≠ some 13) ∧
    (∀ r ∈ (convertBodyfileToCSV tz input epochOnly).records, (r.getD 10 []).getLast? ≠ some 13) ∧
    (∀ text r, rowOfLine tz epochOnly text = some r →
      (Split (TrimSpace text) pipe).length = 10 → (r.getD 9 []).getLast? ≠ some 13) := by
  refine ⟨?_, ?_, TrimSpace_no_CR, ?_, ?_⟩
  · intro h
    exact convertBodyfileToCSV_toCRLF tz input epochOnly
      ((convertBodyfileToCSV_err tz (toCRLF input) epochOnly).mp h)
  · intro h
    exact (convertBodyfileToCSV_err tz (toCRLF input) epochOnly).mpr (scan_toCRLF_err input h)
  · intro r hr
    rw [convertBodyfileToCSV_records tz, List.mem_cons] at hr
    rcases hr with rfl | hr
    · decide
    · rw [List.mem_filterMap] at hr
      obtain ⟨text, _, ht⟩ := hr
      exact (rowOfLine_no_CR tz epochOnly text r ht).1
  · intro text r h
    exact (rowOfLine_no_CR tz epochOnly text r h).2

/-- An instance of the amended C18: two lines, the second rejected, with LF and
with CRLF line ends. -/
theorem crlf_same_result_example :
    toCRLF (ascii "0|a|1|2|3|4|5|6|7|8\nbad\n") = ascii "0|a|1|2|3|4|5|6|7|8\r\nbad\r\n" ∧
    convertBodyfileToCSV CET (ascii "0|a|1|2|3|4|5|6|7|8\r\nbad\r\n") true =
      convertBodyfileToCSV CET (ascii "0|a|1|2|3|4|5|6|7|8\nbad\n") true ∧
    (convertBodyfileToCSV CET (ascii "0|a|1|2|3|4|5|6|7|8\nbad\n") true).records =
      [header, [ascii "0", ascii "a", ascii "1", ascii "2", ascii "3", ascii "4", ascii "5",
        ascii "6", ascii "7", ascii "8", ascii "0"]] := by
  decide

theorem lineWithName_lf_run (tz : Location) (k : Nat) (hk : k + 18 < MaxScanTokenSize) (epochOnly : Bool) :
    (convertBodyfileToCSV tz (lineWithName k ++ [10]) epochOnly).err = none ∧
    (convertBodyfileToCSV tz (lineWithName k ++ [10]) epochOnly).records.length = 2 := by
  have hs : Split (lineWithName k ++ [10]) 10 = [lineWithName k ++ [], []] :=
    Split_append_left (lineWithName k) [10] [] [[]] 10 (lineWithName_no_lf k) (by decide)
  have herr : (scan (lineWithName k ++ [10])).err = none := by
    rw [scan_err, hs]
    intro l hl
    simp only [List.append_nil, List.mem_cons, List.mem_singleton, List.not_mem_nil,
      or_false] at hl
    rcases hl with rfl | rfl
    · rw [lineWithName_length]
      exact Nat.lt_of_le_of_lt (Nat.le_refl _) hk
    · exact Nat.lt_of_le_of_lt (Nat.zero_le _) hk
  refine ⟨(convertBodyfileToCSV_err tz _ epochOnly).mpr herr, ?_⟩
  obtain ⟨row, hrow⟩ := rowOfLine_of_length tz epochOnly (lineWithName k)
    (Or.inl (lineWithName_fields k))
  rw [convertBodyfileToCSV_records tz, scan_tokens_of_err_none _ herr, inputLines_lineWithName,
    List.filterMap_cons, hrow]
  rfl

theorem lineWithName_crlf_run (k : Nat) (hk : MaxScanTokenSize ≤ k + 19) :
    toCRLF (lineWithName k ++ [10]) = lineWithName k ++ [13, 10] ∧
    scan (lineWithName k ++ [13, 10]) = ⟨[], some .ErrTooLong⟩ := by
  constructor
  · rw [toCRLF_append, toCRLF_of_not_mem _ (lineWithName_no_lf k)]
    rfl
  · have e : lineWithName k ++ [13, 10] = (lineWithName k ++ [13]) ++ 10 :: [] := by simp
    rw [e]
    unfold scan
    apply scanFrom_long (lineWithName k ++ [13]) [] [] 0
    · rw [List.mem_append, not_or]
      exact ⟨lineWithName_no_lf k, by decide⟩
    · rw [List.length_append, lineWithName_length, List.length_singleton]
      omega

/-- C18 fails as stated on a text of one line of 65535 bytes that ends with
LF: the run on it returns without error and writes the header and one row; the
run on the same text with CRLF returns the read error `token too long` and
writes the header only. -/
theorem crlf_read_error :
    (lineWithName 65517).length = 65535 ∧
    (convertBodyfileToCSV CET (lineWithName 65517 ++ [10]) false).err = none ∧
    (convertBodyfileToCSV CET (lineWithName 65517 ++ [10]) false).records.length = 2 ∧
    toCRLF (lineWithName 65517 ++ [10]) = lineWithName 65517 ++ [13, 10] ∧
    (convertBodyfileToCSV CET (lineWithName 65517 ++ [13, 10]) false).err =
      some (ascii "error reading input file: bufio.Scanner: token too long") ∧
    (convertBodyfileToCSV CET (lineWithName 65517 ++ [13, 10]) false).records = [header] := by
  have h1 := lineWithName_lf_run CET 65517 (by decide) false
  have h2 := lineWithName_crlf_run 65517 (by decide)
  refine ⟨lineWithName_length 65517, h1.1, h1.2, h2.1, ?_, ?_⟩
  · exact convertBodyfileToCSV_err_some CET _ false .ErrTooLong (by rw [h2.2])
  · rw [convertBodyfileToCSV_records CET, h2.2]
    rfl


/-! ## Lines after a line that is too long -/

theorem linesRead_after_short (k : Nat) (hk : MaxScanTokenSize ≤ k + 18) (l1 rest : GoString)
    (h1 : (10 : Byte) ∉ l1) (h1s : l1.length < MaxScanTokenSize) :
    linesRead (l1 ++ 10 :: (lineWithName k ++ 10 :: rest)) = [dropCR l1] ∧
    inputLines (l1 ++ 10 :: (lineWithName k ++ 10 :: rest)) =
      dropCR l1 :: lineWithName k :: inputLines rest := by
  constructor
  · rw [linesRead_append_lf _ _ h1, if_pos h1s,
      linesRead_long _ _ (lineWithName_no_lf k) (by rw [lineWithName_length]; exact hk)]
  · rw [inputLines_append_lf _ _ h1, inputLines_append_lf _ _ (lineWithName_no_lf k),
      dropCR_of_getLast (lineWithName k)]
    rw [lineWithName_getLast]
    decide

theorem linesRead_lineWithName (k : Nat) (hk : MaxScanTokenSize ≤ k + 18) (rest : GoString) :
    linesRead (lineWithName k ++ 10 :: rest) = [] ∧
    inputLines (lineWithName k ++ 10 :: rest) = lineWithName k :: inputLines rest := by
  constructor
  · exact linesRead_long _ _ (lineWithName_no_lf k) (by rw [lineWithName_length]; exact hk)
  · rw [inputLines_append_lf _ _ (lineWithName_no_lf k), dropCR_of_getLast (lineWithName k)]
    rw [lineWithName_getLast]
    decide

/-- C8 fails as stated on a text of three lines of 10 fields each, the second
with a name of 65536 bytes: the third line is accepted and has a row, but the
run reads the first line only, and the records are the header and the row of
the first line. -/
theorem row_after_long_line_missing :
    inputLines (ascii "0|a|1|2|3|4|5|0|0|0" ++
        10 :: (lineWithName 65536 ++ 10 :: ascii "0|b|1|2|3|4|5|0|0|0\n")) =
      [ascii "0|a|1|2|3|4|5|0|0|0", lineWithName 65536, ascii "0|b|1|2|3|4|5|0|0|0"] ∧
    lineAccepted CET (ascii "0|b|1|2|3|4|5|0|0|0") = true ∧
    rowOfLine CET true (ascii "0|b|1|2|3|4|5|0|0|0") =
      some [ascii "0", ascii "b", ascii "1", ascii "2", ascii "3", ascii "4", ascii "5",
        ascii "0", ascii "0", ascii "0", ascii "0"] ∧
    (convertBodyfileToCSV CET (ascii "0|a|1|2|3|4|5|0|0|0" ++
        10 :: (lineWithName 65536 ++ 10 :: ascii "0|b|1|2|3|4|5|0|0|0\n")) true).records =
      [header,
        [ascii "0", ascii "a", ascii "1", ascii "2", ascii "3", ascii "4", ascii "5",
          ascii "0", ascii "0", ascii "0", ascii "0"]] := by
  have h := linesRead_after_short 65536 (by decide) (ascii "0|a|1|2|3|4|5|0|0|0")
    (ascii "0|b|1|2|3|4|5|0|0|0\n") (by decide) (by decide)
  have e1 : dropCR (ascii "0|a|1|2|3|4|5|0|0|0") = ascii "0|a|1|2|3|4|5|0|0|0" := by decide
  have e3 : inputLines (ascii "0|b|1|2|3|4|5|0|0|0\n") = [ascii "0|b|1|2|3|4|5|0|0|0"] := by
    decide
  refine ⟨?_, by decide, by decide, ?_⟩
  · rw [h.2, e1, e3]
  · rw [convertBodyfileToCSV_records CET, scan_tokens_linesRead, h.1, e1]
    decide

/-- C16 fails as stated on a text of three lines, the first with a name of
65536 bytes, the second `bad`, the third of 10 fields: line 2 is not empty and
has one field, but the run reads no line, logs no warning and writes the header
only. -/
theorem no_warning_after_long_line :
    inputLines (lineWithName 65536 ++ 10 :: ascii "bad\n0|b|1|2|3|4|5|0|0|0\n") =
      [lineWithName 65536, ascii "bad", ascii "0|b|1|2|3|4|5|0|0|0"] ∧
    TrimSpace (ascii "bad") = ascii "bad" ∧
    (Split (ascii "bad") pipe).length = 1 ∧
    lineRejected CET (ascii "bad") = true ∧
    lineAccepted CET (ascii "0|b|1|2|3|4|5|0|0|0") = true ∧
    (convertBodyfileToCSV CET
      (lineWithName 65536 ++ 10 :: ascii "bad\n0|b|1|2|3|4|5|0|0|0\n") false).warnings = [] ∧
    (convertBodyfileToCSV CET
      (lineWithName 65536 ++ 10 :: ascii "bad\n0|b|1|2|3|4|5|0|0|0\n") false).records =
        [header] := by
  have h := linesRead_lineWithName 65536 (by decide) (ascii "bad\n0|b|1|2|3|4|5|0|0|0\n")
  have e3 : inputLines (ascii "bad\n0|b|1|2|3|4|5|0|0|0\n") =
      [ascii "bad", ascii "0|b|1|2|3|4|5|0|0|0"] := by decide
  refine ⟨?_, by decide, by decide, by decide, by decide, ?_, ?_⟩
  · rw [h.2, e3]
  · rw [convertBodyfileToCSV_warnings CET, scan_tokens_linesRead, h.1]
    rfl
  · rw [convertBodyfileToCSV_records CET, scan_tokens_linesRead, h.1]
    rfl

end Bdf2csv
